import Mathlib

/-!
# Whirlwind front-end: package initialisation and the import manager

A shallow embedding of `src/build/pkginit.go` and `src/semantic/depm/manager.go`.

* Go strings are embedded as Lean strings (valid UTF-8); where the source indexes
  bytes (`isValidPkgName`, `getPackageID`) the UTF-8 bytes are taken explicitly.
* Go maps are association lists: `Map.get` is the lookup, `Map.set` the assignment;
  every map is taken as allocated, so that a write to it does not panic. The order in which `range` enumerates a map is not fixed by Go; it is supplied by
  the environment (`Env.rangeFiles`, `Env.rangeNames`, `Env.rangeSyms`).
* `*WhirlPackage` pointers are indices into `World.heap`.
* A run-time panic (nil dereference, failed type assertion, index out of range) is
  the outcome `Outcome.panic`; recursion through `Import` is bounded by fuel.
-/

set_option autoImplicit false

namespace Whirlwind

/-! ## Strings, bytes and paths -/

/-- The UTF-8 encoding of one code point, as Go stores it in a string. -/
def utf8Bytes (c : Char) : List Nat :=
  let n := c.toNat
  if n < 0x80 then [n]
  else if n < 0x800 then [0xC0 + n / 64, 0x80 + n % 64]
  else if n < 0x10000 then [0xE0 + n / 4096, 0x80 + (n / 64) % 64, 0x80 + n % 64]
  else [0xF0 + n / 262144, 0x80 + (n / 4096) % 64, 0x80 + (n / 64) % 64, 0x80 + n % 64]

/-- The bytes of a Go string: `[]byte(s)`. -/
def bytes (s : String) : List Nat :=
  s.data.flatMap utf8Bytes

/-- The function `filepath.Base` (Unix separators): the last element of the path,
after trailing slashes are removed; `.` for the empty path and `/` for a path of
slashes only. -/
def Base (path : String) : String :=
  if path.data = [] then "."
  else
    let stripped := (path.data.reverse.dropWhile (fun c => c == '/')).reverse
    let last := (stripped.reverse.takeWhile (fun c => c != '/')).reverse
    if last = [] then "/" else String.mk last

/-- The function `filepath.Ext`: the suffix of the last path element that starts at
its final dot, or the empty string when that element has no dot. -/
def Ext (path : String) : String :=
  let e := path.data.reverse.takeWhile (fun c => c != '/')
  if e.contains '.' then String.mk ('.' :: (e.takeWhile (fun c => c != '.')).reverse) else ""

/-- The constant `SrcFileExtension` of `pkginit.go`. -/
def SrcFileExtension : String := ".wrl"

/-! ## Maps -/

/-- The lookup `m[k]` of a Go map, `none` when the key is absent. -/
def Map.get {κ α : Type} [DecidableEq κ] : List (κ × α) → κ → Option α
  | [], _ => none
  | (k, v) :: rest, key => if k = key then some v else Map.get rest key

/-- The assignment `m[k] = v` of a Go map. -/
def Map.set {κ α : Type} [DecidableEq κ] : List (κ × α) → κ → α → List (κ × α)
  | [], key, val => [(key, val)]
  | (k, v) :: rest, key, val =>
      if k = key then (k, val) :: rest else (k, v) :: Map.set rest key val

/-- The keys of a map, in the order of the association list. -/
def Map.keys {κ α : Type} (m : List (κ × α)) : List κ :=
  m.map Prod.fst

/-- The lookup `m[k]` in a Go map that may be nil (`none`): a nil map holds nothing. -/
def Map.read {κ α : Type} [DecidableEq κ] (m : Option (List (κ × α))) (k : κ) : Option α :=
  match m with
  | none => none
  | some entries => Map.get entries k

/-! ## `isValidPkgName` and `getPackageID` -/

/-- What a function call produces: a returned value, a run-time panic, or no result
within the recursion budget. -/
inductive Outcome (α : Type) where
  | ret (a : α)
  | panic
  | outOfFuel
  deriving DecidableEq, Repr

/-- The loop `for i := 1; i < len(pkgName); i++` of `isValidPkgName`, over the bytes
from index 1 on: `false` at the first byte that is no letter, digit or underscore. -/
def isValidPkgName.tail (IsLetter IsDigit : Nat → Bool) : List Nat → Bool
  | [] => true
  | b :: rest =>
      if !IsLetter b && !IsDigit b && b != 95 then false
      else isValidPkgName.tail IsLetter IsDigit rest

/-- The function `isValidPkgName` of `pkginit.go` on the bytes of the name;
`syntax.IsLetter` and `syntax.IsDigit` (not part of the sources at hand) are
parameters. Indexing byte 0 of an empty name panics. `95` is the byte `_`. -/
def isValidPkgName (IsLetter IsDigit : Nat → Bool) : List Nat → Outcome Bool
  | [] => .panic
  | b0 :: rest =>
      if IsLetter b0 || b0 == 95 then .ret (isValidPkgName.tail IsLetter IsDigit rest)
      else .ret false

/-- Modelled from the spec: `syntax.IsLetter`, absent from the sources; the spec
speaks of a letter of an identifier, taken as an ASCII letter. -/
def asciiLetter (r : Nat) : Bool :=
  (96 < r && r < 123) || (64 < r && r < 91)

/-- Modelled from the spec: `syntax.IsDigit`, absent from the sources; the spec
speaks of a digit of an identifier, taken as an ASCII digit. -/
def asciiDigit (r : Nat) : Bool :=
  47 < r && r < 58

/-- The 32-bit FNV-1a offset basis (`hash/fnv`, `offset32`). -/
def offset32 : Nat := 2166136261

/-- The 32-bit FNV prime (`hash/fnv`, `prime32`). -/
def prime32 : Nat := 16777619

/-- The method `(*sum32a).Write` of `hash/fnv`: for every byte, xor it into the
state, then multiply by the prime in 32-bit arithmetic. -/
def fnvWrite (h : Nat) (data : List Nat) : Nat :=
  data.foldl (fun s c => ((s ^^^ c) * prime32) % 2 ^ 32) h

/-- The function `getPackageID` of `pkginit.go`: `fnv.New32a()`, `Write` of the
path bytes, `Sum32` widened to `uint`. -/
def getPackageID (abspath : String) : Nat :=
  fnvWrite offset32 (bytes abspath)

/-- The 32-bit FNV-1a hash as the specification words it: start at 2166136261 and,
byte after byte, xor the byte in and multiply by 16777619 modulo 2^32. -/
def FNV1a32.go : Nat → List Nat → Nat
  | h, [] => h
  | h, b :: rest => FNV1a32.go (((h ^^^ b) * 16777619) % 4294967296) rest

/-- The specification's `FNV1a32` of a byte sequence. -/
def FNV1a32 (data : List Nat) : Nat :=
  FNV1a32.go 2166136261 data

/-! ## The data model -/

/-- A source position (`TextPosition`). -/
structure TextPosition where
  StartLn : Nat
  StartCol : Nat
  EndLn : Nat
  EndCol : Nat
  deriving DecidableEq, Repr

/-- The token kinds the import manager tells apart. -/
inductive TokKind where
  | IDENTIFIER
  | ELLIPSIS
  | other (code : Nat)
  deriving DecidableEq, Repr

/-- An AST node: a leaf (`ASTLeaf`: kind, value, position) or a branch
(`ASTBranch`: name, ordered children). -/
inductive ASTNode where
  | Leaf (Kind : TokKind) (Value : String) (Position : TextPosition)
  | Branch (Name : String) (Content : List ASTNode)
  deriving Repr

/-- An `ASTBranch`. -/
structure ASTBranch where
  Name : String
  Content : List ASTNode
  deriving Repr

/-- The type assertion `node.(*syntax.ASTBranch)`; `none` when it fails. -/
def ASTNode.asBranch : ASTNode → Option ASTBranch
  | .Branch n c => some ⟨n, c⟩
  | .Leaf _ _ _ => none

/-- The declaration status of a symbol. -/
inductive DeclStatus where
  | Internal
  | Exported
  | Remote
  deriving DecidableEq, Repr

/-- The definition kind of a symbol. -/
inductive DefKind where
  | TypeDef
  | ValueDef
  | Package
  | AlgVariant
  deriving DecidableEq, Repr

/-- A symbol. The data type it carries plays no part in the import manager and is left
out; `ExportedImport` records, for an imported symbol, the flag of the importing
statement. -/
structure Symbol where
  Name : String
  DefKind : DefKind
  DeclStatus : DeclStatus
  Position : TextPosition
  ExportedImport : Bool
  deriving DecidableEq, Repr

/-- Modelled from the spec: `Symbol.VisibleExternally`, absent from the sources;
the spec gives it as `status ∈ {Exported, Remote}`. -/
def Symbol.VisibleExternally (s : Symbol) : Bool :=
  s.DeclStatus == .Exported || s.DeclStatus == .Remote

/-- Modelled from the spec: `Symbol.Import`, absent from the sources; the spec says
it yields a fresh symbol whose status is `Remote` and whose exportedness in the
consuming package is the flag of the import statement. -/
def Symbol.Import (s : Symbol) (exported : Bool) : Symbol :=
  { s with DeclStatus := .Remote, ExportedImport := exported }

/-- A `WhirlFile`: the AST root (nil once released), the metadata tags and the local
symbol table, a Go map that is nil (`none`) until it is allocated: reading a nil map
finds nothing, assigning to it panics. -/
structure WhirlFile where
  AST : Option ASTBranch
  MetadataTags : List (String × String)
  LocalTable : Option (List (String × Symbol))
  deriving Repr

/-- A `WhirlImport`: the imported package and the symbols imported from it; the map
is the one that `walkImport` makes with `make`. -/
structure WhirlImport where
  PackageRef : Nat
  ImportedSymbols : List (String × Symbol)
  deriving DecidableEq, Repr

/-- A `WhirlPackage`. The import table is a Go map that is nil (`none`) until it is
allocated. The global table is only read by the functions embedded here, and a nil map
reads as the empty one, so it is held as its entries. -/
structure WhirlPackage where
  PackageID : Nat
  Name : String
  RootDirectory : String
  Files : List (String × WhirlFile)
  GlobalTable : List (String × Symbol)
  ImportTable : Option (List (Nat × WhirlImport))
  deriving Repr

/-- An entry of the log sink: a structured error (`NewWhirlError`: message, kind,
position) or a plain Go error. -/
inductive LogEntry where
  | whirl (Message : String) (Kind : String) (Position : TextPosition)
  | std (Message : String)
  deriving DecidableEq, Repr

/-- A call entered, for the call history kept in `World.calls`. -/
inductive Call where
  | Import (pkgpath : String)
  | initPackage (abspath : String)
  | collectImports (pkg : Nat)
  | walkImport (currpkg : Nat)
  | walkPackage (pkg : Nat)
  deriving DecidableEq, Repr

/-- The mutable state the front end works on. `DepGraph` is the field of
`ImportManager` (keyed by package path), `depGraph` the graph `initPackage` registers
in (keyed by `PackageID`). `calls` is a history of the calls entered, kept for the
statements about which functions run; the program does not read it. -/
structure World where
  heap : List WhirlPackage
  DepGraph : List (String × Nat)
  depGraph : List (Nat × Nat)
  CurrentPackage : Nat
  CurrentFile : String
  lctxFilePath : String
  log : List LogEntry
  calls : List Call
  deriving Repr

/-- What scanning, preprocessing and parsing the file at one path yield: the error of
`syntax.NewScanner` if any, the result of `preprocessFile` (`shouldCompile`, tags) and
the result of `Parser.Parse`, whose root is the `file` branch. -/
structure SrcResult where
  scanErr : Option String
  prep : Except String (Bool × List (String × String))
  parsed : Except String ASTBranch

/-- A node of the directory tree as `filepath.Walk` meets it: a file, a directory
(with the error of reading its entries, if any, and its entries in lexical order), or
a name whose `Lstat` fails. -/
inductive FsNode where
  | file (name : String)
  | dir (name : String) (readErr : Option String) (entries : List FsNode)
  | broken (name : String) (lstatErr : String)
  deriving Repr

/-- The name of a directory entry. -/
def FsNode.name : FsNode → String
  | .file n => n
  | .dir n _ _ => n
  | .broken n _ => n

/-- Whether the entry is a directory (`FileInfo.IsDir`). -/
def FsNode.isDir : FsNode → Bool
  | .dir _ _ _ => true
  | _ => false

/-- Whether `Lstat` of the entry fails. -/
def FsNode.isBroken : FsNode → Bool
  | .broken _ _ => true
  | _ => false

/-- What the front end takes from its surroundings: the scanner predicates, the path
join of the standard library, the directory tree found at a path, the outcome of
scanning and parsing each file, `LogMod.CanProceed`, the root package path, and the
order in which `range` enumerates each kind of map. -/
structure Env where
  IsLetter : Nat → Bool
  IsDigit : Nat → Bool
  Join : String → String → String
  fs : String → FsNode
  source : String → SrcResult
  CanProceed : List LogEntry → Bool
  RootPackagePath : String
  rangeFiles : List (String × WhirlFile) → List (String × WhirlFile)
  rangeNames : List (String × TextPosition) → List (String × TextPosition)
  rangeSyms : List (String × Symbol) → List (String × Symbol)

/-! ## `filepath.Walk` -/

/-- The error a `WalkFunc` returns: `filepath.SkipDir` or another error. -/
inductive WalkErr where
  | SkipDir
  | other (msg : String)
  deriving DecidableEq, Repr

/-- A `filepath.WalkFunc` over a state `σ`: path, `info.IsDir()` (meaningful when the
info is present, which it is unless `Lstat` failed), the error met at the path. -/
abbrev WalkFunc (σ : Type) := String → Bool → Option String → σ → Option WalkErr × σ

mutual
/-- The function `walk` of `path/filepath`, and `Walk` at a root whose `Lstat` fails. -/
def walkNode {σ : Type} (join : String → String → String) (fn : WalkFunc σ)
    (path : String) : FsNode → σ → Option WalkErr × σ
  | .broken _ e, s => fn path false (some e) s
  | .file _, s => fn path false none s
  | .dir _ rerr entries, s =>
      match fn path true rerr s with
      | (err1, s1) =>
          if rerr.isSome || err1.isSome then (err1, s1)
          else walkEntries join fn path entries s1
/-- The loop of `walk` over the entries of a directory. -/
def walkEntries {σ : Type} (join : String → String → String) (fn : WalkFunc σ)
    (path : String) : List FsNode → σ → Option WalkErr × σ
  | [], s => (none, s)
  | n :: rest, s =>
      match walkNode join fn (join path n.name) n s with
      | (some err, s1) =>
          -- a failed Lstat: return unless SkipDir; otherwise: return unless a
          -- directory was skipped
          if (n.isBroken || n.isDir) && err == WalkErr.SkipDir then
            walkEntries join fn path rest s1
          else (some err, s1)
      | (none, s1) => walkEntries join fn path rest s1
end

/-- The function `filepath.Walk`. -/
def Walk {σ : Type} (join : String → String → String) (fn : WalkFunc σ)
    (root : String) (tree : FsNode) (s : σ) : Option WalkErr × σ :=
  match walkNode join fn root tree s with
  | (some WalkErr.SkipDir, s1) => (none, s1)
  | r => r

/-! ## `initPackage` -/

/-- Appends an error to the log sink (`LogStdError`, `LogMod.LogError`). -/
def World.logError (w : World) (e : LogEntry) : World :=
  { w with log := w.log ++ [e] }

/-- The function literal that `initPackage` hands to `filepath.Walk`; its state is
the world and the `Files` map of the package under construction. It returns nil on
every path. The file literal sets `AST` and `MetadataTags` only, so the local table
of the new file is nil. -/
def initPackage.visit (env : Env) : WalkFunc (World × List (String × WhirlFile)) :=
  fun fpath isDir ferr st =>
    let w0 := st.1
    let files := st.2
    -- if ferr != nil { log } else if info.IsDir() { return nil }
    if ferr.isNone && isDir then (none, (w0, files))
    else
      let w1 := match ferr with
        | some e => w0.logError (.std e)
        | none => w0
      if Ext fpath = SrcFileExtension then
        let w2 := { w1 with lctxFilePath := fpath }
        match (env.source fpath).scanErr with
        | some e => (none, (w2.logError (.std e), files))
        | none =>
          match (env.source fpath).prep with
          | .error e => (none, (w2.logError (.std e), files))
          | .ok (false, _) => (none, (w2, files))
          | .ok (true, tags) =>
            match (env.source fpath).parsed with
            | .error e => (none, (w2.logError (.std e), files))
            | .ok ast =>
              (none, (w2, Map.set files fpath
                { AST := some ast, MetadataTags := tags, LocalTable := none }))
      else (none, (w1, files))

/-- The function `initPackage` of `pkginit.go`. It returns the package pointer (nil on
failure) and the error (nil on success). The package is placed on the heap when it is
registered, so that the heap holds reachable packages only. The package literal
allocates `Files` and leaves the global table and the import table nil. -/
def initPackage (env : Env) (abspath : String) (w : World) :
    Outcome (Option Nat × Option String) × World :=
  let w := { w with calls := w.calls ++ [Call.initPackage abspath] }
  let pkgName := Base abspath
  match isValidPkgName env.IsLetter env.IsDigit (bytes pkgName) with
  | .panic => (.panic, w)
  | .outOfFuel => (.outOfFuel, w)
  | .ret false => (.ret (none, some ("Invalid package name: `" ++ pkgName ++ "`")), w)
  | .ret true =>
    match Walk env.Join (initPackage.visit env) abspath (env.fs abspath) (w, []) with
    | (some WalkErr.SkipDir, (w1, _)) => (.ret (none, some "skip this directory"), w1)
    | (some (WalkErr.other msg), (w1, _)) => (.ret (none, some msg), w1)
    | (none, (w1, files)) =>
      if files.length = 0 then
        (.ret (none, some ("Unable to load package by name `" ++ pkgName
          ++ "` because it contains no source files")), w1)
      else
        let pkg : WhirlPackage :=
          { PackageID := getPackageID abspath, Name := pkgName, RootDirectory := abspath,
            Files := files, GlobalTable := [], ImportTable := none }
        (.ret (some w1.heap.length, none),
          { w1 with heap := w1.heap ++ [pkg],
                    depGraph := Map.set w1.depGraph pkg.PackageID w1.heap.length })

/-! ## The import manager -/

/-- The local variables `importedSymbolNames`, `pkgpath` and `rename` of
`walkImport`. -/
structure ImportVars where
  importedSymbolNames : List (String × TextPosition)
  pkgpath : String
  rename : String
  deriving DecidableEq, Repr

/-- How the first loop of `walkImport` ends: it runs to its end, it returns early at a
repeated identifier (whose position is logged), or a type assertion fails. -/
inductive Scan (α : Type) where
  | done (a : α)
  | dup (pos : TextPosition)
  | panic
  deriving DecidableEq, Repr

/-- The loop over a `package_name` branch: identifiers are written to the builder,
every other leaf writes a slash; `none` when an element is no leaf. -/
def walkImport.pkgPath : List ASTNode → String → Option String
  | [], pb => some pb
  | .Leaf k v _ :: rest, pb =>
      if k = TokKind.IDENTIFIER then walkImport.pkgPath rest (pb ++ v)
      else walkImport.pkgPath rest (pb ++ "/")
  | .Branch _ _ :: _, _ => none

/-- The loop over an `identifier_list` branch. -/
def walkImport.idList : List ASTNode → List (String × TextPosition) →
    Scan (List (String × TextPosition))
  | [], names => .done names
  | .Leaf k v p :: rest, names =>
      if k = TokKind.IDENTIFIER then
        if (Map.get names v).isSome then .dup p
        else walkImport.idList rest (Map.set names v p)
      else walkImport.idList rest names
  | .Branch _ _ :: _, _ => .panic

/-- The first loop of `walkImport`, over the children of the statement. -/
def walkImport.items : List ASTNode → ImportVars → Scan ImportVars
  | [], vars => .done vars
  | .Branch name content :: rest, vars =>
      if name = "package_name" then
        match walkImport.pkgPath content "" with
        | none => .panic
        | some p => walkImport.items rest { vars with pkgpath := p }
      else
        match walkImport.idList content vars.importedSymbolNames with
        | .done names => walkImport.items rest { vars with importedSymbolNames := names }
        | .dup pos => .dup pos
        | .panic => .panic
  | .Leaf k v p :: rest, vars =>
      match k with
      | .IDENTIFIER => walkImport.items rest { vars with rename := v }
      | .ELLIPSIS =>
          walkImport.items rest
            { vars with importedSymbolNames := Map.set vars.importedSymbolNames "..." p }
      | .other _ => walkImport.items rest vars

/-- The loop `for name, pos := range importedSymbolNames`: the clones of the visible
symbols found in the global table of the imported package, or the position of the
first internal symbol met. -/
def walkImport.lookupSymbols (exported : Bool) (GlobalTable : List (String × Symbol)) :
    List (String × TextPosition) → List (String × Symbol) →
    Except TextPosition (List (String × Symbol))
  | [], importedSymbols => .ok importedSymbols
  | (name, pos) :: rest, importedSymbols =>
      match Map.get GlobalTable name with
      | some imsym =>
          if imsym.VisibleExternally then
            walkImport.lookupSymbols exported GlobalTable rest
              (Map.set importedSymbols name (imsym.Import exported))
          else .error pos
      | none => walkImport.lookupSymbols exported GlobalTable rest importedSymbols

/-- The loops `for name, sym := range importedSymbols { table[name] = sym }`. -/
def walkImport.insertAll (table : List (String × Symbol)) (syms : List (String × Symbol)) :
    List (String × Symbol) :=
  syms.foldl (fun m e => Map.set m e.1 e.2) table

/-- The function `strings.Split(s, "/")`, on the characters after the current
segment `cur` (kept reversed). -/
def splitSlash : List Char → List Char → List String
  | [], cur => [String.mk cur.reverse]
  | c :: rest, cur =>
      if c = '/' then String.mk cur.reverse :: splitSlash rest []
      else splitSlash rest (c :: cur)

/-- The name computed in the last branch of `walkImport` (the rename, else the last
segment of the package path). The source computes it and binds nothing under it: the
assignment to the local table is commented out. -/
def walkImport.bindName (rename pkgpath : String) : String :=
  if rename = "" then (splitSlash pkgpath.data []).getLast?.getD "" else rename

/-- Replaces the package at a pointer. -/
def World.setPkg (w : World) (ref : Nat) (pkg : WhirlPackage) : World :=
  { w with heap := w.heap.set ref pkg }

/-- The function `walkImport` of `manager.go`; `imp` is `im.Import`. The dereferences
`pkg.GlobalTable` and `pkg.PackageID` need the package `Import` returned, the writes
to the import table need `currpkg`, and the write `currfile.LocalTable[name] = sym`
needs the current file, which is nil when `util.CurrentFile` is no file of
`currpkg`. The read `currpkg.ImportTable[pkg.PackageID]` of a nil import table finds
nothing, and the assignment that follows panics; so does the first assignment to a
nil local table. -/
def walkImport (env : Env) (imp : String → World → Outcome (Option Nat × Bool) × World)
    (currpkg : Nat) (node : ASTBranch) (exported : Bool) (w : World) :
    Outcome Bool × World :=
  let w := { w with calls := w.calls ++ [Call.walkImport currpkg] }
  match walkImport.items node.Content ⟨[], "", ""⟩ with
  | .panic => (.panic, w)
  | .dup pos =>
      (.ret false, w.logError (.whirl "Unable to import a symbol multiple times" "Import" pos))
  | .done vars =>
    -- currfile := currpkg.Files[util.CurrentFile]
    match w.heap.get? currpkg with
    | none => (.panic, w)
    | some _ =>
      let currfile := w.CurrentFile
      match imp vars.pkgpath w with
      | (.panic, w1) => (.panic, w1)
      | (.outOfFuel, w1) => (.outOfFuel, w1)
      | (.ret (_, false), w1) => (.ret false, w1)
      | (.ret (pkg, true), w1) =>
        if vars.importedSymbolNames.length > 0 then
          match pkg.bind w1.heap.get?, w1.heap.get? currpkg, pkg with
          | some target, some cp, some ref =>
            match walkImport.lookupSymbols exported target.GlobalTable
                (env.rangeNames vars.importedSymbolNames) [] with
            | .error pos =>
                (.ret false,
                  w1.logError (.whirl "Unable to import an internal symbol" "Import" pos))
            | .ok importedSymbols =>
              match cp.ImportTable with
              | none =>
                -- currpkg.ImportTable[pkg.PackageID] = &WhirlImport{...} on a nil map
                (.panic, w1)
              | some table =>
                let importTable :=
                  match Map.get table target.PackageID with
                  | some wimport =>
                      let merged := walkImport.insertAll wimport.ImportedSymbols
                        (env.rangeSyms importedSymbols)
                      Map.set table target.PackageID
                        { wimport with ImportedSymbols := merged }
                  | none =>
                      Map.set table target.PackageID
                        { PackageRef := ref, ImportedSymbols := importedSymbols }
                let cp1 := { cp with ImportTable := some importTable }
                if importedSymbols.length = 0 then (.ret false, w1.setPkg currpkg cp1)
                else
                  -- currfile.LocalTable[name] = sym
                  match Map.get cp1.Files currfile with
                  | none => (.panic, w1.setPkg currpkg cp1)
                  | some wf =>
                    match wf.LocalTable with
                    | none => (.panic, w1.setPkg currpkg cp1)
                    | some table1 =>
                      let localTable := walkImport.insertAll table1
                        (env.rangeSyms importedSymbols)
                      let wf1 := { wf with LocalTable := some localTable }
                      (.ret false,
                        w1.setPkg currpkg
                          { cp1 with Files := Map.set cp1.Files currfile wf1 })
          | _, _, _ => (.panic, w1)
        else
          (.ret false, w1)

/-- The inner loop `nodeloop` of `collectImports` over the top-level nodes of one
file; `all` is `allImportsResolved`. The operator `&&` evaluates its right operand,
the call of `walkImport`, only when `all` is true. -/
def collectImports.nodes (env : Env)
    (imp : String → World → Outcome (Option Nat × Bool) × World) (pkg : Nat) :
    List ASTNode → Bool → World → Outcome Bool × World
  | [], all, w => (.ret all, w)
  | node :: rest, all, w =>
    match node.asBranch with
    | none => (.panic, w)
    | some branch =>
      if branch.Name = "import_stmt" then
        if all then
          match walkImport env imp pkg branch false w with
          | (.ret b, w1) => collectImports.nodes env imp pkg rest b w1
          | (.panic, w1) => (.panic, w1)
          | (.outOfFuel, w1) => (.outOfFuel, w1)
        else collectImports.nodes env imp pkg rest false w
      else if branch.Name = "exported_import" then
        if all then
          match (branch.Content.get? 1).bind ASTNode.asBranch with
          | none => (.panic, w)
          | some inner =>
            match walkImport env imp pkg inner true w with
            | (.ret b, w1) => collectImports.nodes env imp pkg rest b w1
            | (.panic, w1) => (.panic, w1)
            | (.outOfFuel, w1) => (.outOfFuel, w1)
        else collectImports.nodes env imp pkg rest false w
      else if branch.Name = "top_level" || branch.Name = "export_block" then (.ret all, w)
      else collectImports.nodes env imp pkg rest all w

/-- The outer loop of `collectImports` over the files of the package. -/
def collectImports.files (env : Env)
    (imp : String → World → Outcome (Option Nat × Bool) × World) (pkg : Nat) :
    List (String × WhirlFile) → Bool → World → Outcome Bool × World
  | [], all, w => (.ret all, w)
  | (fpath, wf) :: rest, all, w =>
    let w0 := { w with CurrentFile := fpath }
    match wf.AST with
    | none => (.panic, w0)
    | some ast =>
      match collectImports.nodes env imp pkg ast.Content all w0 with
      | (.ret all1, w1) => collectImports.files env imp pkg rest all1 w1
      | (.panic, w1) => (.panic, w1)
      | (.outOfFuel, w1) => (.outOfFuel, w1)

/-- The function `collectImports` of `manager.go`. -/
def collectImports (env : Env)
    (imp : String → World → Outcome (Option Nat × Bool) × World) (pkg : Nat) (w : World) :
    Outcome Bool × World :=
  let w := { w with calls := w.calls ++ [Call.collectImports pkg] }
  match w.heap.get? pkg with
  | none => (.panic, w)
  | some p => collectImports.files env imp pkg (env.rangeFiles p.Files) true w

/-- The function `walkPackage` of `manager.go`: it returns true. -/
def walkPackage (pkg : Nat) (w : World) : Bool × World :=
  (true, { w with calls := w.calls ++ [Call.walkPackage pkg] })

/-- The function `Import` of `manager.go`. Its call `im.initPackage` is the
`initPackage` of `pkginit.go`, the one definition of that name in the sources. Once it
is set up, the deferred function restores `util.CurrentPackage` on every way out; the
dereference `pkg.PackageID` before it panics when `initPackage` returned nil. -/
def Import : Nat → Env → String → World → Outcome (Option Nat × Bool) × World
  | 0, _, _, w => (.outOfFuel, w)
  | fuel + 1, env, pkgpath, w =>
    let w := { w with calls := w.calls ++ [Call.Import pkgpath] }
    match Map.get w.DepGraph pkgpath with
    | some depgpkg => (.ret (some depgpkg, true), w)
    | none =>
      match initPackage env (env.Join env.RootPackagePath pkgpath) w with
      | (.panic, w1) => (.panic, w1)
      | (.outOfFuel, w1) => (.outOfFuel, w1)
      | (.ret (pkg, err), w1) =>
        let prevPkgID := w1.CurrentPackage
        match pkg, pkg.bind w1.heap.get? with
        | some ref, some p =>
          let w2 := { w1 with CurrentPackage := p.PackageID }
          let r : Outcome (Option Nat × Bool) × World :=
            match err with
            | some e => (.ret (none, false), w2.logError (.std e))
            | none =>
              if env.CanProceed w2.log then
                match collectImports env (Import fuel env) ref w2 with
                | (.ret false, w3) => (.ret (none, false), w3)
                | (.ret true, w3) => (.ret (some ref, true), (walkPackage ref w3).2)
                | (.panic, w3) => (.panic, w3)
                | (.outOfFuel, w3) => (.outOfFuel, w3)
              else (.ret (none, false), w2)
          let w5 := r.2
          (r.1, { w5 with CurrentPackage := prevPkgID })
        | _, _ => (.panic, w1)

/-! ## Specification-side notions -/

/-- One call of the walk function: the path, whether it is a directory, and the error
`filepath.Walk` met there. -/
structure Visit where
  fpath : String
  isDir : Bool
  ferr : Option String
  deriving DecidableEq, Repr

mutual
/-- The paths `filepath.Walk` hands to a walk function that returns nil every time, in
order: the node itself and, for a directory whose entries can be read, everything
below it. -/
def visits (join : String → String → String) (path : String) : FsNode → List Visit
  | .broken _ e => [⟨path, false, some e⟩]
  | .file _ => [⟨path, false, none⟩]
  | .dir _ rerr entries =>
      ⟨path, true, rerr⟩ :: (if rerr.isSome then [] else visitsEntries join path entries)
/-- The visits of the entries of a directory. -/
def visitsEntries (join : String → String → String) (path : String) :
    List FsNode → List Visit
  | [] => []
  | n :: rest => visits join (join path n.name) n ++ visitsEntries join path rest
end

/-- A path that the walk function of `initPackage` adds to `Files`: a path met by the
walk that is not a readable directory, has the source extension, and is scanned,
accepted by the preprocessor and parsed without error. The walk covers the whole
subtree, so such a path need not lie directly in the package directory. -/
def usableSource (env : Env) (v : Visit) : Bool :=
  (v.ferr.isSome || !v.isDir) && decide (Ext v.fpath = SrcFileExtension)
    && (env.source v.fpath).scanErr.isNone
    && (match (env.source v.fpath).prep with
        | .ok (true, _) => true
        | _ => false)
    && (match (env.source v.fpath).parsed with
        | .ok _ => true
        | .error _ => false)

/-- The usable source files of a directory, in the words of the specification: the
files directly in it that have the source extension and are scanned, accepted by the
preprocessor and parsed without error. Files of subdirectories are not among them. -/
def directSources (env : Env) (abspath : String) : List String :=
  match env.fs abspath with
  | .dir _ none entries =>
    (entries.filterMap (fun n =>
      match n with
      | .file name => some (env.Join abspath name)
      | _ => none)).filter (fun p => usableSource env ⟨p, false, none⟩)
  | _ => []

/-- The file-level errors of one visited path, in the order they are met: the error
of the walk itself, then the first of the scan, preprocess and parse errors of a
path with the source extension. -/
def fileErrors (env : Env) (v : Visit) : List LogEntry :=
  (match v.ferr with
   | some e => [LogEntry.std e]
   | none => [])
  ++ (if (v.ferr.isSome || !v.isDir) && decide (Ext v.fpath = SrcFileExtension) then
        match (env.source v.fpath).scanErr with
        | some e => [LogEntry.std e]
        | none =>
          match (env.source v.fpath).prep with
          | .error e => [LogEntry.std e]
          | .ok (false, _) => []
          | .ok (true, _) =>
            match (env.source v.fpath).parsed with
            | .error e => [LogEntry.std e]
            | .ok _ => []
      else [])

/-- One step of the walk of `initPackage`: the state after its walk function ran on
a visit. -/
def initPackage.step (env : Env) (st : World × List (String × WhirlFile)) (v : Visit) :
    World × List (String × WhirlFile) :=
  (initPackage.visit env v.fpath v.isDir v.ferr st).2

/-- Whether every item is a leaf that is no ellipsis, or a `package_name` branch of
leaves: the items of an import statement that name no symbol. -/
def headerOnly : List ASTNode → Bool
  | [] => true
  | .Leaf k _ _ :: rest => k != TokKind.ELLIPSIS && headerOnly rest
  | .Branch name content :: rest =>
      name == "package_name" && (walkImport.pkgPath content "").isSome && headerOnly rest

/-- The values of the identifier leaves of a list of nodes, in order. -/
def identValues : List ASTNode → List String
  | [] => []
  | .Leaf k v _ :: rest => if k = TokKind.IDENTIFIER then v :: identValues rest else identValues rest
  | .Branch _ _ :: rest => identValues rest

/-- Whether every node of the list is a leaf. -/
def allLeaves : List ASTNode → Bool
  | [] => true
  | .Leaf _ _ _ :: rest => allLeaves rest
  | .Branch _ _ :: _ => false

/-! ## A sample project

The project at `/proj` used to run the definitions on concrete inputs: the packages
`foo` (a usable file `a.wrl`, a file `bad.wrl` that does not parse, and a usable file
in the subdirectory `sub`), `core` (one file `c.wrl` without imports), `app` (one file
`m.wrl` with the header `import X from lib`) and a directory `1bad`; the package `lib` is in the graph
already, with an exported symbol `X` and an internal symbol `Y`. -/

namespace Sample

/-- A position on line `l`, column `c`. -/
def posAt (l c : Nat) : TextPosition := ⟨l, c, l, c + 1⟩

/-- The statement `import X from lib`. -/
def importX : ASTBranch :=
  ⟨"import_stmt",
    [.Leaf (.other 1) "import" (posAt 1 1),
     .Branch "identifier_list" [.Leaf .IDENTIFIER "X" (posAt 1 8)],
     .Leaf (.other 2) "from" (posAt 1 10),
     .Branch "package_name" [.Leaf .IDENTIFIER "lib" (posAt 1 15)]]⟩

/-- The AST of `m.wrl`: the statement `import X from lib`, then the code. -/
def mainFile : ASTBranch :=
  ⟨"file", [.Branch importX.Name importX.Content, .Branch "top_level" []]⟩

/-- The statement `import X, X from lib`. -/
def importXX : ASTBranch :=
  ⟨"import_stmt",
    [.Leaf (.other 1) "import" (posAt 1 1),
     .Branch "identifier_list"
       [.Leaf .IDENTIFIER "X" (posAt 1 8), .Leaf (.other 3) "," (posAt 1 9),
        .Leaf .IDENTIFIER "X" (posAt 1 11)],
     .Leaf (.other 2) "from" (posAt 1 13),
     .Branch "package_name" [.Leaf .IDENTIFIER "lib" (posAt 1 18)]]⟩

/-- The statement `import X, Y from lib`. -/
def importXY : ASTBranch :=
  ⟨"import_stmt",
    [.Leaf (.other 1) "import" (posAt 1 1),
     .Branch "identifier_list"
       [.Leaf .IDENTIFIER "X" (posAt 1 8), .Leaf (.other 3) "," (posAt 1 9),
        .Leaf .IDENTIFIER "Y" (posAt 1 11)],
     .Leaf (.other 2) "from" (posAt 1 13),
     .Branch "package_name" [.Leaf .IDENTIFIER "lib" (posAt 1 18)]]⟩

/-- The directory tree of the project. -/
def tree (path : String) : FsNode :=
  if path = "/proj/foo" then
    .dir "foo" none [.file "a.wrl", .file "bad.wrl", .dir "sub" none [.file "b.wrl"]]
  else if path = "/proj/app" then .dir "app" none [.file "m.wrl"]
  else if path = "/proj/core" then .dir "core" none [.file "c.wrl"]
  else if path = "/proj/1bad" then .dir "1bad" none [.file "a.wrl"]
  else .broken "" "no such file or directory"

/-- What scanning and parsing yields for each file of the project. -/
def sources (path : String) : SrcResult :=
  if path = "/proj/foo/a.wrl" then
    ⟨none, .ok (true, []), .ok ⟨"file", [.Branch "top_level" []]⟩⟩
  else if path = "/proj/foo/bad.wrl" then
    ⟨none, .ok (true, []), .error "unexpected token"⟩
  else if path = "/proj/foo/sub/b.wrl" then
    ⟨none, .ok (true, []), .ok ⟨"file", []⟩⟩
  else if path = "/proj/app/m.wrl" then
    ⟨none, .ok (true, []), .ok mainFile⟩
  else if path = "/proj/core/c.wrl" then
    ⟨none, .ok (true, []), .ok ⟨"file", [.Branch "top_level" []]⟩⟩
  else if path = "/proj/1bad/a.wrl" then
    ⟨none, .ok (true, []), .ok ⟨"file", []⟩⟩
  else ⟨some "cannot open file", .error "", .error ""⟩

/-- The environment of the project; every `range` enumerates in insertion order and
the log sink lets a phase proceed while it is empty. -/
def env : Env where
  IsLetter := asciiLetter
  IsDigit := asciiDigit
  Join := fun a b => a ++ "/" ++ b
  fs := tree
  source := sources
  CanProceed := fun log => log.isEmpty
  RootPackagePath := "/proj"
  rangeFiles := id
  rangeNames := id
  rangeSyms := id

/-- The package `lib`, with its tables allocated. -/
def lib : WhirlPackage where
  PackageID := getPackageID "/proj/lib"
  Name := "lib"
  RootDirectory := "/proj/lib"
  Files := []
  GlobalTable :=
    [("X", ⟨"X", .TypeDef, .Exported, posAt 3 1, false⟩),
     ("Y", ⟨"Y", .TypeDef, .Internal, posAt 4 1, false⟩)]
  ImportTable := some []

/-- The package `app` while its imports are collected, with its import table and the
local table of its file allocated and empty. -/
def app : WhirlPackage where
  PackageID := getPackageID "/proj/app"
  Name := "app"
  RootDirectory := "/proj/app"
  Files := [("/proj/app/m.wrl", ⟨some mainFile, [], some []⟩)]
  GlobalTable := []
  ImportTable := some []

/-- The state before anything is loaded. -/
def fresh : World := ⟨[], [], [], 0, "", "", [], []⟩

/-- The state in which `lib` is in the graph. -/
def withLib : World :=
  ⟨[lib], [("lib", 0)], [(getPackageID "/proj/lib", 0)], 0, "", "", [], []⟩

/-- The state in which `lib` is in the graph and the header of `m.wrl` of `app` is
being walked. -/
def walking : World :=
  ⟨[lib, app], [("lib", 0)], [(getPackageID "/proj/lib", 0), (getPackageID "/proj/app", 1)],
    getPackageID "/proj/app", "/proj/app/m.wrl", "/proj/app/m.wrl", [], []⟩

end Sample

/-! ## More of the sample project -/

namespace Sample

/-- The statement `import lib`, which names no symbol. -/
def importLib : ASTBranch :=
  ⟨"import_stmt",
    [.Leaf (.other 1) "import" (posAt 1 1),
     .Branch "package_name" [.Leaf .IDENTIFIER "lib" (posAt 1 8)]]⟩

/-- The statement `import lib as k`. -/
def importLibAs : ASTBranch :=
  ⟨"import_stmt",
    [.Leaf (.other 1) "import" (posAt 1 1),
     .Branch "package_name" [.Leaf .IDENTIFIER "lib" (posAt 1 8)],
     .Leaf (.other 4) "as" (posAt 1 12),
     .Leaf .IDENTIFIER "k" (posAt 1 15)]⟩

end Sample

/-! ## The types of the resolver, the walker and the solver

The assembler (`resolve`), the walker (`validate`) and the solver (`typing`) are
written against the packages `common`, `typing` and `logging`. A symbol of `common`
carries its data type; a file carries its HIR root and its visible packages. A
`*common.WhirlPackage` held by a file or by an unknown symbol is an index into a list
of packages (`WalkerDeps.heap`, `ResolveEnv.heap`); the package an assembler works on
is held by value. -/

/-- A `typing.DataType` other than nil. The sources tell apart `*UnknownType`, a
pointer to an unknown of the solver, from every other type. -/
inductive DataType where
  | Concrete (name : String)
  | Unknown (ref : Nat)
  deriving DecidableEq, Repr

/-- A `common.Symbol`; `SymType` is its field `Type`, nil when absent. -/
structure Common.Symbol where
  Name : String
  SymType : Option DataType
  DefKind : DefKind
  DeclStatus : DeclStatus
  Position : TextPosition
  deriving DecidableEq, Repr

/-- Modelled from the spec: `Symbol.VisibleExternally` of `common`, absent from the
sources; the spec gives it as `status ∈ {Exported, Remote}`. -/
def Common.Symbol.VisibleExternally (s : Common.Symbol) : Bool :=
  s.DeclStatus == .Exported || s.DeclStatus == .Remote

/-- A node of the HIR, as `WalkDef` returns it. -/
structure HIRNode where
  id : Nat
  deriving DecidableEq, Repr

/-- A `common.HIRRoot`: the translated definitions of a file, in order. -/
structure HIRRoot where
  Elements : List HIRNode
  deriving DecidableEq, Repr

/-- A `common.WhirlFile`: AST root (nil once released), HIR root (nil until set),
local symbol table and visible packages (name to package pointer). -/
structure Common.WhirlFile where
  AST : Option ASTBranch
  Root : Option HIRRoot
  LocalTable : List (String × Common.Symbol)
  VisiblePackages : List (String × Nat)
  deriving Repr

/-- A `common.WhirlPackage`. -/
structure Common.WhirlPackage where
  PackageID : Nat
  Name : String
  Files : List (String × Common.WhirlFile)
  GlobalTable : List (String × Common.Symbol)
  deriving Repr

/-- A `common.UnknownSymbol`; `ForeignPackage` is nil or a package pointer. -/
structure Common.UnknownSymbol where
  Name : String
  Position : TextPosition
  ForeignPackage : Option Nat
  ImplicitImport : Bool
  deriving DecidableEq, Repr

/-- A `common.OpaqueSymbol`: the prototype in the shared slot. -/
structure Common.OpaqueSymbol where
  Name : String
  SrcPackageID : Nat
  SymType : Option DataType
  deriving DecidableEq, Repr

/-- The message kinds of `logging` that the walker uses. -/
inductive LogKind where
  | LMKName
  | LMKUsage
  deriving DecidableEq, Repr

/-- A `logging.LogContext`: the package and file an error is attributed to. -/
structure LogContext where
  PackageID : Nat
  FilePath : String
  deriving DecidableEq, Repr

/-- What a logging method of the walker reports: a message with its kind and position,
an undefined symbol, or a symbol that is not visible in a package. -/
inductive Diagnostic where
  | message (Message : String) (Kind : LogKind) (Position : TextPosition)
  | undefined (Name : String) (Position : TextPosition)
  | notVisibleInPackage (Name : String) (PackageName : String) (Position : TextPosition)
  deriving DecidableEq, Repr

/-- An entry of the logging sink: a diagnostic under the log context of the walker
that reported it. -/
structure Logged where
  Context : LogContext
  diag : Diagnostic
  deriving DecidableEq, Repr

/-! ## The walker -/

/-- The fields of `validate.Walker` that `type_walker.go` reads and writes.
`SrcPackage` and `SrcFile` are only read there and are held by value; `unknowns` is
taken as allocated; `fatalDefError` is the flag the comment on `walkTypeLabel` speaks
of. The struct declared in `walker.go` has no field `sharedOpaqueSymbol`; it is the
opaque slot of the specification, a single-slot pointer that holds a prototype from
its install to the swap-in of the full definition, and is nil (`none`) otherwise. -/
structure Walker where
  SrcPackage : Common.WhirlPackage
  SrcFile : Common.WhirlFile
  Context : LogContext
  DeclStatus : DeclStatus
  resolving : Bool
  sharedOpaqueSymbol : Option Common.OpaqueSymbol
  unknowns : List (String × Common.UnknownSymbol)
  fatalDefError : Bool
  deriving Repr

/-- What the walker takes from its surroundings: the packages its pointers refer to,
and the methods `Walker.Lookup` and `WhirlPackage.ImportFromNamespace`, which are not
part of the sources. -/
structure WalkerDeps where
  heap : List Common.WhirlPackage
  Lookup : Walker → String → Option Common.Symbol
  ImportFromNamespace : Common.WhirlPackage → String → Option Common.Symbol

/-- Modelled from the spec: `Walker.logFatalDefError`, absent from the sources. The
spec lets the walker append a structured error (message, category, position) to the
sink; the comment on `walkTypeLabel` adds that a failure sets `fatalDefError`. -/
def Walker.logFatalDefError (w : Walker) (sink : List Logged) (msg : String)
    (kind : LogKind) (pos : TextPosition) : Walker × List Logged :=
  ({ w with fatalDefError := true }, sink ++ [⟨w.Context, .message msg kind pos⟩])

/-- Modelled from the spec: `Walker.logError`, absent from the sources; it appends a
structured error (message, category, position) to the sink. -/
def Walker.logError (w : Walker) (sink : List Logged) (msg : String)
    (kind : LogKind) (pos : TextPosition) : List Logged :=
  sink ++ [⟨w.Context, .message msg kind pos⟩]

/-- Modelled from the spec: `Walker.LogUndefined`, absent from the sources; it appends
an undefined-symbol error for the name at the position. -/
def Walker.LogUndefined (w : Walker) (sink : List Logged) (name : String)
    (pos : TextPosition) : List Logged :=
  sink ++ [⟨w.Context, .undefined name pos⟩]

/-- Modelled from the spec: `Walker.LogNotVisibleInPackage`, absent from the sources;
it appends a not-visible-in-package error for the name and the package name at the
position. -/
def Walker.LogNotVisibleInPackage (w : Walker) (sink : List Logged) (name pkgName : String)
    (pos : TextPosition) : List Logged :=
  sink ++ [⟨w.Context, .notVisibleInPackage name pkgName pos⟩]

/-- The end of `walkNamedTypeCore` (lines 188 to 193): the error that the package is
not defined, and the return of (nil, false). -/
def walkNamedTypeCore.notDefined (w : Walker) (sink : List Logged) (rootName : String)
    (rootPos : TextPosition) : Outcome (Option DataType × Bool) × Walker × List Logged :=
  let r := w.logFatalDefError sink ("Package `" ++ rootName ++ "` is not defined")
    LogKind.LMKName rootPos
  (.ret (none, false), r.1, r.2)

/-- The function `walkNamedTypeCore` of `type_walker.go`. A nil `DataType` is `none`.
Reading the fields of `sharedOpaqueSymbol` panics when the pointer is nil. -/
def walkNamedTypeCore (deps : WalkerDeps) (w : Walker) (sink : List Logged)
    (rootName accessedName : String) (rootPos accessedPos : TextPosition) :
    Outcome (Option DataType × Bool) × Walker × List Logged :=
  if accessedName = "" then
    match deps.Lookup w rootName with
    | some symbol =>
      if symbol.DefKind ≠ DefKind.TypeDef then
        let r := w.logFatalDefError sink ("Symbol `" ++ symbol.Name ++ "` is not a type")
          LogKind.LMKUsage rootPos
        (.ret (none, false), r.1, r.2)
      else if w.DeclStatus = DeclStatus.Exported then
        if symbol.VisibleExternally then (.ret (symbol.SymType, true), w, sink)
        else
          let r := w.logFatalDefError sink
            ("Symbol `" ++ symbol.Name
              ++ "` must be exported to be used in an exported definition")
            LogKind.LMKUsage rootPos
          (.ret (none, false), r.1, r.2)
      else (.ret (symbol.SymType, true), w, sink)
    | none =>
      if w.resolving then
        match w.sharedOpaqueSymbol with
        | none => (.panic, w, sink)
        | some op =>
          if op.SrcPackageID = w.SrcPackage.PackageID ∧ op.Name = rootName then
            (.ret (op.SymType, true), w, sink)
          else
            let unknowns := Map.set w.unknowns rootName ⟨rootName, rootPos, none, false⟩
            (.ret (none, false), { w with unknowns := unknowns }, sink)
      else (.ret (none, false), w, w.LogUndefined sink rootName rootPos)
  else
    -- the branch `else if w.DeclStatus == common.DSExported` logs and does not return
    let r0 : Walker × List Logged :=
      if w.DeclStatus = DeclStatus.Exported then
        w.logFatalDefError sink
          "Unable to use implicitly imported symbol in exported definition"
          LogKind.LMKUsage accessedPos
      else (w, sink)
    let w1 := r0.1
    let sink1 := r0.2
    match Map.get w1.SrcFile.VisiblePackages rootName with
    | none => walkNamedTypeCore.notDefined w1 sink1 rootName rootPos
    | some pkgref =>
      match deps.heap.get? pkgref with
      | none => (.panic, w1, sink1)
      | some pkg =>
        match deps.ImportFromNamespace pkg accessedName with
        | some symbol =>
          if symbol.DefKind ≠ DefKind.TypeDef then
            let r := w1.logFatalDefError sink1 ("Symbol `" ++ symbol.Name ++ "` is not a type")
              LogKind.LMKUsage accessedPos
            (.ret (none, false), r.1, r.2)
          else (.ret (symbol.SymType, true), w1, sink1)
        | none =>
          if w1.resolving then
            match w1.sharedOpaqueSymbol with
            | none => (.panic, w1, sink1)
            | some op =>
              if op.SrcPackageID = pkg.PackageID ∧ op.Name = accessedName then
                (.ret (op.SymType, true), w1, sink1)
              else
                -- the unknown is recorded and control falls out of the `if`
                let unknowns := Map.set w1.unknowns accessedName
                  ⟨accessedName, accessedPos, some pkgref, true⟩
                walkNamedTypeCore.notDefined { w1 with unknowns := unknowns }
                  sink1 rootName rootPos
          else
            (.ret (none, false), w1,
              w1.LogNotVisibleInPackage sink1 accessedName rootName accessedPos)

namespace Sample

/-- The package `lib` as the walker sees it: an exported type `T`, an internal type
`U` and an exported value `v`. -/
def libPkg : Common.WhirlPackage where
  PackageID := getPackageID "/proj/lib"
  Name := "lib"
  Files := []
  GlobalTable :=
    [("T", ⟨"T", some (.Concrete "T"), .TypeDef, .Exported, posAt 3 1⟩),
     ("U", ⟨"U", some (.Concrete "U"), .TypeDef, .Internal, posAt 4 1⟩),
     ("v", ⟨"v", some (.Concrete "int"), .ValueDef, .Exported, posAt 5 1⟩)]

/-- The package `bar`, which defines nothing. -/
def barPkg : Common.WhirlPackage where
  PackageID := getPackageID "/proj/bar"
  Name := "bar"
  Files := []
  GlobalTable := []

/-- The package `baz`, which defines nothing. -/
def bazPkg : Common.WhirlPackage where
  PackageID := getPackageID "/proj/baz"
  Name := "baz"
  Files := []
  GlobalTable := []

/-- The surroundings of the sample walkers: `lib`, `bar` and `baz` at the pointers 0,
1 and 2; `Lookup` searches the local table of the file, then the global table of the
package; a package hands out the externally visible symbols of its global table. -/
def deps : WalkerDeps where
  heap := [libPkg, barPkg, bazPkg]
  Lookup := fun w name =>
    match Map.get w.SrcFile.LocalTable name with
    | some s => some s
    | none => Map.get w.SrcPackage.GlobalTable name
  ImportFromNamespace := fun pkg name =>
    match Map.get pkg.GlobalTable name with
    | some s => if s.VisibleExternally then some s else none
    | none => none

/-- The file `y.wrl` of the package `app`: it sees the packages `lib` and `bar`. -/
def yFile : Common.WhirlFile where
  AST := none
  Root := some ⟨[]⟩
  LocalTable := []
  VisiblePackages := [("lib", 0), ("bar", 1)]

/-- The package `app` as the walker sees it, with an internal type `P`. -/
def appPkg : Common.WhirlPackage where
  PackageID := getPackageID "/proj/app"
  Name := "app"
  Files := [("/proj/app/y.wrl", yFile)]
  GlobalTable := [("P", ⟨"P", some (.Concrete "P"), .TypeDef, .Internal, posAt 7 1⟩)]

/-- A walker of `y.wrl` during resolution, inside an exported definition; the opaque
slot holds the prototype of another symbol. -/
def exportedWalker : Walker where
  SrcPackage := appPkg
  SrcFile := yFile
  Context := ⟨getPackageID "/proj/app", "/proj/app/y.wrl"⟩
  DeclStatus := .Exported
  resolving := true
  sharedOpaqueSymbol := some ⟨"Proto", getPackageID "/proj/app", none⟩
  unknowns := []
  fatalDefError := false

/-- The same walker inside an internal definition. -/
def internalWalker : Walker :=
  { exportedWalker with DeclStatus := .Internal }

end Sample

/-! ## The package assembler -/

/-- A `resolve.Definition`, the entry of the definition queue. `SrcFile`, a
`*common.WhirlFile`, is the key of the file in `PackageRef.Files`. -/
structure Definition where
  Branch : ASTBranch
  Unknowns : List (String × Common.UnknownSymbol)
  SrcFile : String
  deriving Repr

/-- A `resolve.PAssembler`. The walkers are keyed by their file. -/
structure PAssembler where
  PackageRef : Common.WhirlPackage
  DefQueue : List Definition
  Walkers : List (String × Walker)
  deriving Repr

/-- What the assembler takes from its surroundings: the packages that pointers refer
to; the method `Walker.WalkDef`, which is not part of the sources and acts on the
walker and on a state `σ` of its own (symbol tables, logging sink); and the order in
which `range` enumerates the files of a package and the unknowns of a definition. -/
structure ResolveEnv (σ : Type) where
  heap : List Common.WhirlPackage
  WalkDef : Walker → ASTBranch → σ →
    (Option HIRNode × List (String × Common.UnknownSymbol) × Bool) × Walker × σ
  rangeFiles : List (String × Common.WhirlFile) → List (String × Common.WhirlFile)
  rangeUnknowns : List (String × Common.UnknownSymbol) →
    List (String × Common.UnknownSymbol)

/-- Modelled from the spec: `DefinitionQueue.Enqueue`, absent from the sources; the
spec calls the queue a FIFO of unresolved definitions. -/
def DefinitionQueue.Enqueue (q : List Definition) (d : Definition) : List Definition :=
  q ++ [d]

/-- Modelled from the spec: `DefinitionQueue.Peek`, absent from the sources: the
oldest entry of the FIFO. -/
def DefinitionQueue.Peek (q : List Definition) : Option Definition :=
  q.head?

/-- Modelled from the spec: `DefinitionQueue.Dequeue`, absent from the sources: the
FIFO without its oldest entry. -/
def DefinitionQueue.Dequeue (q : List Definition) : List Definition :=
  q.tail

/-- Modelled from the spec: `ASTBranch.BranchAt`, absent from the sources: the child
at the index, asserted to be a branch; `none` when there is no such child or it is a
leaf. -/
def ASTBranch.BranchAt (b : ASTBranch) (n : Nat) : Option ASTBranch :=
  (b.Content.get? n).bind ASTNode.asBranch

/-- Modelled from the spec: `WhirlFile.AddNode`, absent from the sources; the spec
says the HIR of a complete definition is appended to the file root. `none` when the
root is nil. -/
def Common.WhirlFile.AddNode (f : Common.WhirlFile) (n : HIRNode) : Option Common.WhirlFile :=
  match f.Root with
  | none => none
  | some root => some { f with Root := some ⟨root.Elements ++ [n]⟩ }

/-- Replaces the file under a key of the package of the assembler. -/
def PAssembler.setFile (pa : PAssembler) (key : String) (f : Common.WhirlFile) : PAssembler :=
  let pkg := pa.PackageRef
  { pa with PackageRef := { pkg with Files := Map.set pkg.Files key f } }

/-- The loop of `initialPassOverBlock` over the children of the block. -/
def initialPassOverBlock.loop {σ : Type} (env : ResolveEnv σ) (wfile : String) :
    List ASTNode → PAssembler → σ → Outcome Unit × PAssembler × σ
  | [], pa, s => (.ret (), pa, s)
  | topast :: rest, pa, s =>
    match topast.asBranch with
    | none => (.panic, pa, s)
    | some branch =>
      match Map.get pa.Walkers wfile with
      | none => (.panic, pa, s)
      | some w =>
        match env.WalkDef w branch s with
        | ((hirn, unknowns, ok), w1, s1) =>
          let pa1 := { pa with Walkers := Map.set pa.Walkers wfile w1 }
          match hirn with
          | none =>
            initialPassOverBlock.loop env wfile rest
              { pa1 with DefQueue := DefinitionQueue.Enqueue pa1.DefQueue
                                       ⟨branch, unknowns, wfile⟩ } s1
          | some node =>
            if ok then
              match (Map.get pa1.PackageRef.Files wfile).bind (fun f => f.AddNode node) with
              | none => (.panic, pa1, s1)
              | some f1 => initialPassOverBlock.loop env wfile rest (pa1.setFile wfile f1) s1
            else initialPassOverBlock.loop env wfile rest pa1 s1

/-- The function `initialPassOverBlock` of `assembler.go`. -/
def initialPassOverBlock {σ : Type} (env : ResolveEnv σ) (wfile : String)
    (block : ASTBranch) (pa : PAssembler) (s : σ) : Outcome Unit × PAssembler × σ :=
  initialPassOverBlock.loop env wfile block.Content pa s

/-- The inner loop of `initialPass` over the top-level nodes of one file. -/
def initialPass.items {σ : Type} (env : ResolveEnv σ) (wfile : String) :
    List ASTNode → PAssembler → σ → Outcome Unit × PAssembler × σ
  | [], pa, s => (.ret (), pa, s)
  | item :: rest, pa, s =>
    match item.asBranch with
    | none => (.panic, pa, s)
    | some itembranch =>
      if itembranch.Name = "export_block" then
        match itembranch.BranchAt 3 with
        | none => (.panic, pa, s)
        | some block =>
          match initialPassOverBlock env wfile block pa s with
          | (.ret _, pa1, s1) => initialPass.items env wfile rest pa1 s1
          | (.panic, pa1, s1) => (.panic, pa1, s1)
          | (.outOfFuel, pa1, s1) => (.outOfFuel, pa1, s1)
      else
        -- the comment here: we know this is the top_level node
        match initialPassOverBlock env wfile itembranch pa s with
        | (.ret _, pa1, s1) => initialPass.items env wfile rest pa1 s1
        | (.panic, pa1, s1) => (.panic, pa1, s1)
        | (.outOfFuel, pa1, s1) => (.outOfFuel, pa1, s1)

/-- The outer loop of `initialPass` over the files of the package, given by their
keys in the order of enumeration. -/
def initialPass.files {σ : Type} (env : ResolveEnv σ) :
    List String → PAssembler → σ → Outcome Unit × PAssembler × σ
  | [], pa, s => (.ret (), pa, s)
  | wfile :: rest, pa, s =>
    match Map.get pa.PackageRef.Files wfile with
    | none => (.panic, pa, s)
    | some f =>
      -- wfile.Root = &common.HIRRoot{}
      let pa0 := pa.setFile wfile { f with Root := some ⟨[]⟩ }
      match f.AST with
      | none => (.panic, pa0, s)
      | some ast =>
        match initialPass.items env wfile ast.Content pa0 s with
        | (.ret _, pa1, s1) =>
          -- wfile.AST = nil
          match Map.get pa1.PackageRef.Files wfile with
          | none => (.panic, pa1, s1)
          | some f1 => initialPass.files env rest (pa1.setFile wfile { f1 with AST := none }) s1
        | (.panic, pa1, s1) => (.panic, pa1, s1)
        | (.outOfFuel, pa1, s1) => (.outOfFuel, pa1, s1)

/-- The function `initialPass` of `assembler.go`. -/
def initialPass {σ : Type} (env : ResolveEnv σ) (pa : PAssembler) (s : σ) :
    Outcome Unit × PAssembler × σ :=
  initialPass.files env (Map.keys (env.rangeFiles pa.PackageRef.Files)) pa s

/-- The inner loop of `logUnresolved` over the unknowns of the definition at the head
of the queue; `w` is its walker (nil when the file has none), `table` the local table
of its source file (nil file: none), `logged` the keys of
`explicitUndefSymbolErrors`. -/
def logUnresolved.unknowns (heap : List Common.WhirlPackage) (w : Option Walker)
    (table : Option (List (String × Common.Symbol))) :
    List (String × Common.UnknownSymbol) → List String → List Logged →
    Outcome Unit × List String × List Logged
  | [], logged, sink => (.ret (), logged, sink)
  | (name, usym) :: rest, logged, sink =>
    match usym.ForeignPackage with
    | some fp =>
      if usym.ImplicitImport then
        match heap.get? fp, w with
        | some pkg, some wk =>
          logUnresolved.unknowns heap w table rest logged
            (wk.LogNotVisibleInPackage sink name pkg.Name usym.Position)
        | _, _ => (.panic, logged, sink)
      else if name ∈ logged then logUnresolved.unknowns heap w table rest logged sink
      else
        -- wsi := top.SrcFile.LocalTable[name]
        match heap.get? fp, table.bind (fun t => Map.get t name), w with
        | some pkg, some wsi, some wk =>
          logUnresolved.unknowns heap w table rest (logged ++ [name])
            (wk.LogNotVisibleInPackage sink name pkg.Name wsi.Position)
        | _, _, _ => (.panic, logged, sink)
    | none =>
      match w with
      | some wk =>
        logUnresolved.unknowns heap w table rest logged
          (wk.LogUndefined sink name usym.Position)
      | none => (.panic, logged, sink)

/-- The outer loop `for pa.DefQueue.Len() > 0` of `logUnresolved`, over the queue. -/
def logUnresolved.queue {σ : Type} (env : ResolveEnv σ) (pa : PAssembler) :
    List Definition → List String → List Logged →
    Outcome Unit × List Definition × List Logged
  | [], _, sink => (.ret (), [], sink)
  | top :: rest, logged, sink =>
    match logUnresolved.unknowns env.heap (Map.get pa.Walkers top.SrcFile)
        ((Map.get pa.PackageRef.Files top.SrcFile).map (fun f => f.LocalTable))
        (env.rangeUnknowns top.Unknowns) logged sink with
    | (.ret _, logged1, sink1) => logUnresolved.queue env pa rest logged1 sink1
    | (.panic, _, sink1) => (.panic, top :: rest, sink1)
    | (.outOfFuel, _, sink1) => (.outOfFuel, top :: rest, sink1)

/-- The function `logUnresolved` of `assembler.go`, on the assembler and the logging
sink. -/
def logUnresolved {σ : Type} (env : ResolveEnv σ) (pa : PAssembler) (sink : List Logged) :
    Outcome Unit × PAssembler × List Logged :=
  match logUnresolved.queue env pa pa.DefQueue [] sink with
  | (o, q, sink1) => (o, { pa with DefQueue := q }, sink1)

/-! ## Specification-side notions for the assembler -/

/-- The number of not-visible-in-package errors for a name in a sink. -/
def notVisibleCount (name : String) (sink : List Logged) : Nat :=
  (sink.filter (fun e =>
    match e.diag with
    | .notVisibleInPackage n _ _ => n == name
    | _ => false)).length

/-- Whether an unknown under a key is an implicit import of the name. -/
def isImplicit (name : String) (e : String × Common.UnknownSymbol) : Bool :=
  e.1 == name && e.2.ForeignPackage.isSome && e.2.ImplicitImport

/-- Whether an unknown under a key is an explicit import of the name. -/
def isExplicit (name : String) (e : String × Common.UnknownSymbol) : Bool :=
  e.1 == name && e.2.ForeignPackage.isSome && !e.2.ImplicitImport

/-- The number of implicit-import unknowns of a name in a queue. -/
def implicitCount (name : String) (q : List Definition) : Nat :=
  (q.map (fun d => (d.Unknowns.filter (isImplicit name)).length)).sum

/-- Whether some definition of a queue has an explicit-import unknown of the name. -/
def hasExplicit (name : String) (q : List Definition) : Bool :=
  q.any (fun d => d.Unknowns.any (isExplicit name))

/-- The pairs (name, foreign package) of the explicit-import unknowns of a queue,
each once. -/
def explicitPairs (q : List Definition) : List (String × Nat) :=
  ((q.flatMap (fun d => d.Unknowns)).filterMap (fun e =>
    match e.2.ForeignPackage with
    | some fp => if e.2.ImplicitImport then none else some (e.1, fp)
    | none => none)).dedup

/-- What `logUnresolved` needs in order not to panic: every queued definition with an
unknown has a walker and a source file, the package pointers of its unknowns are valid,
and every explicit import among its unknowns is in the local table of its file. -/
def logUnresolved.ready (heap : List Common.WhirlPackage) (pa : PAssembler)
    (d : Definition) : Prop :=
  ∀ e ∈ d.Unknowns,
    (Map.get pa.Walkers d.SrcFile).isSome = true
    ∧ (∀ fp, e.2.ForeignPackage = some fp → (heap.get? fp).isSome = true)
    ∧ (isExplicit e.1 e = true →
        ∃ f wsi, Map.get pa.PackageRef.Files d.SrcFile = some f
          ∧ Map.get f.LocalTable e.1 = some wsi)

namespace Sample

/-- The file `x.wrl` of `app`: its header imports `Missing` from `bar`, recorded in
the local table at the position of the name in the import statement. -/
def xFile : Common.WhirlFile where
  AST := none
  Root := some ⟨[]⟩
  LocalTable := [("Missing", ⟨"Missing", none, .TypeDef, .Remote, posAt 1 8⟩)]
  VisiblePackages := []

/-- The file `z.wrl` of `app`: its header imports `Missing` from `baz`. -/
def zFile : Common.WhirlFile where
  AST := none
  Root := some ⟨[]⟩
  LocalTable := [("Missing", ⟨"Missing", none, .TypeDef, .Remote, posAt 2 8⟩)]
  VisiblePackages := []

/-- A walker of the file at a path of `app`, after resolution. -/
def walkerOf (fpath : String) (f : Common.WhirlFile) : Walker where
  SrcPackage := appPkg
  SrcFile := f
  Context := ⟨getPackageID "/proj/app", fpath⟩
  DeclStatus := .Internal
  resolving := false
  sharedOpaqueSymbol := none
  unknowns := []
  fatalDefError := false

/-- A definition body, whose shape plays no part in `logUnresolved`. -/
def someDef : ASTBranch := ⟨"type_def", []⟩

/-- The assembler of `app` at the end of resolution: a definition of `x.wrl` and one
of `z.wrl` are still queued, each waiting for the `Missing` its file imports
explicitly, from `bar` (pointer 1) and from `baz` (pointer 2). -/
def twoImports : PAssembler where
  PackageRef :=
    { appPkg with Files := [("/proj/app/x.wrl", xFile), ("/proj/app/z.wrl", zFile)] }
  DefQueue :=
    [⟨someDef, [("Missing", ⟨"Missing", posAt 5 3, some 1, false⟩)], "/proj/app/x.wrl"⟩,
     ⟨someDef, [("Missing", ⟨"Missing", posAt 6 3, some 2, false⟩)], "/proj/app/z.wrl"⟩]
  Walkers :=
    [("/proj/app/x.wrl", walkerOf "/proj/app/x.wrl" xFile),
     ("/proj/app/z.wrl", walkerOf "/proj/app/z.wrl" zFile)]

/-- The surroundings of the sample assembler: the packages of `deps`; a `WalkDef`
that translates every definition at once, counting its calls; enumeration in
insertion order. -/
def resolveEnv : ResolveEnv Nat where
  heap := deps.heap
  WalkDef := fun w _ n => ((some ⟨n⟩, [], true), w, n + 1)
  rangeFiles := id
  rangeUnknowns := id

/-- The assembler of `app` before the initial pass, with the one file `m.wrl` whose
AST is the statement `import X from lib` followed by the code. -/
def beforePass : PAssembler where
  PackageRef :=
    { appPkg with Files := [("/proj/app/m.wrl", ⟨some mainFile, none, [], []⟩)] }
  DefQueue := []
  Walkers := [("/proj/app/m.wrl", walkerOf "/proj/app/m.wrl" ⟨some mainFile, none, [], []⟩)]

end Sample

/-! ## The solver -/

/-- A `typing.UnknownType`, with the fields that `solver.go` reads and writes. A
`*UnknownType` is an index into the list of allocated unknowns of the solver. -/
structure UnknownType where
  Position : TextPosition
  Constraints : List (Option DataType)
  EvalType : Option DataType
  deriving DecidableEq, Repr

/-- A `typing.TypeExpression` other than nil: the `SolvedExpr` that `FinishExpr`
builds, or an expression built elsewhere. -/
inductive TypeExpression where
  | SolvedExpr (ResultType : Option DataType)
  | built (id : Nat)
  deriving DecidableEq, Repr

/-- A `typing.TypeEquation`: the two expression slots, nil or an expression, and the
map `Unknowns`, nil or the set of the pointers it holds. -/
structure TypeEquation where
  Lhs : Option TypeExpression
  Rhs : Option TypeExpression
  Unknowns : Option (List Nat)
  deriving DecidableEq, Repr

/-- The fields of `typing.Solver` that the functions below read and write, and the
allocated unknowns. `Context` and the two binding registries are not touched by them.
An equation is held by value: once `FinishEqn` has moved it, nothing writes to it. -/
structure Solver where
  UnsolvedEquations : List (Option TypeEquation)
  CurrentEquation : Option TypeEquation
  CurrentExpr : Option TypeExpression
  unknownTypes : List UnknownType
  deriving DecidableEq, Repr

/-- The function `initEqn` of `solver.go`. -/
def Solver.initEqn (s : Solver) (ut : Nat) : Solver :=
  { s with CurrentEquation := some ⟨none, none, some [ut]⟩ }

/-- The function `CreateUnknown` of `solver.go`. The new unknown is allocated from the
position alone; the variadic parameter `constaints` is not read. A write to the nil
map of an equation panics. -/
def Solver.CreateUnknown (s : Solver) (pos : TextPosition)
    (_constaints : List (Option DataType)) : Outcome Nat × Solver :=
  let ut := s.unknownTypes.length
  let fresh : UnknownType := ⟨pos, [], none⟩
  let s1 := { s with unknownTypes := s.unknownTypes ++ [fresh] }
  match s1.CurrentEquation with
  | none => (.ret ut, s1.initEqn ut)
  | some eqn =>
    match eqn.Unknowns with
    | none => (.panic, s1)
    | some us =>
      (.ret ut, { s1 with CurrentEquation := some { eqn with Unknowns := some (us ++ [ut]) } })

/-- The function `pushExpr` of `solver.go`. -/
def Solver.pushExpr (s : Solver) : Solver :=
  let eqn : TypeEquation :=
    match s.CurrentEquation with
    | none => ⟨none, none, none⟩
    | some e => e
  let eqn1 : TypeEquation :=
    if eqn.Rhs.isNone then { eqn with Rhs := s.CurrentExpr }
    else { eqn with Lhs := s.CurrentExpr }
  { s with CurrentEquation := some eqn1, CurrentExpr := none }

/-- The function `FinishExpr` of `solver.go`; `Result` is the method of that name of
the type expressions, which is not part of the sources. -/
def Solver.FinishExpr (Result : TypeExpression → Option DataType × Bool) (s : Solver)
    (resultant : Option DataType) : Solver :=
  match s.CurrentExpr with
  | none => Solver.pushExpr { s with CurrentExpr := some (.SolvedExpr resultant) }
  | some e =>
    match Result e with
    | (dt, true) => Solver.pushExpr { s with CurrentExpr := some (.SolvedExpr dt) }
    | (_, false) => Solver.pushExpr s

/-- The function `solve` of `solver.go`. -/
def Solver.solve (_s : Solver) (_te : Option TypeEquation) : Bool :=
  false

/-- The function `FinishEqn` of `solver.go`. -/
def Solver.FinishEqn (s : Solver) : Bool × Solver :=
  if s.solve s.CurrentEquation then
    (true, { s with CurrentEquation := none })
  else
    (false, { s with UnsolvedEquations := s.UnsolvedEquations ++ [s.CurrentEquation],
                     CurrentEquation := none })

/-- The function `findCommonInterface` of `solver.go`. -/
def Solver.findCommonInterface (_s : Solver) (_a _b : Option DataType) :
    Option DataType × Bool :=
  (none, false)

/-- The loop of `unify` over `types[1:]`, with the running `unifiedDt`. `CoerceTo` is
the method of that name of the solver, which is not part of the sources: it answers
whether the first type coerces to the second and may act on the solver. -/
def Solver.unify.loop (CoerceTo : Option DataType → Option DataType → Solver → Bool × Solver) :
    List (Option DataType) → Option DataType → Solver →
    Outcome (Option DataType × Bool) × Solver
  | [], unifiedDt, s => (.ret (unifiedDt, true), s)
  | dt :: rest, unifiedDt, s =>
    match CoerceTo dt unifiedDt s with
    | (true, s1) => Solver.unify.loop CoerceTo rest unifiedDt s1
    | (false, s1) =>
      match CoerceTo unifiedDt dt s1 with
      | (true, s2) => Solver.unify.loop CoerceTo rest dt s2
      | (false, s2) =>
        match s2.findCommonInterface dt unifiedDt with
        | (cit, true) => Solver.unify.loop CoerceTo rest cit s2
        | (_, false) => (.ret (none, false), s2)

/-- The function `unify` of `solver.go`; `types[0]` on no types panics. -/
def Solver.unify (CoerceTo : Option DataType → Option DataType → Solver → Bool × Solver)
    (s : Solver) (types : List (Option DataType)) :
    Outcome (Option DataType × Bool) × Solver :=
  match types with
  | [] => (.panic, s)
  | t0 :: rest => Solver.unify.loop CoerceTo rest t0 s

namespace Sample

/-- The solver before any call. -/
def newSolver : Solver := ⟨[], none, none, []⟩

/-- A `Result` that knows the type of no built expression. -/
def noResult : TypeExpression → Option DataType × Bool :=
  fun _ => (none, false)

/-- The type `int`. -/
def int : Option DataType := some (.Concrete "int")

end Sample

/-! ## The solver: coercion of unknowns, calls, and the unification of the
specification -/

/-- The second test of `coerceUnknowns`, on `dest` alone: the body of the branch is
empty, so what remains is the read of `dut.EvalType` and the final return. -/
def Solver.coerceUnknowns.destOnly (s : Solver) (dest : Option DataType) :
    Outcome (Bool × Bool) × Solver :=
  match dest with
  | some (.Unknown dref) =>
    match s.unknownTypes.get? dref with
    | none => (.panic, s)
    | some _ => (.ret (false, false), s)
  | _ => (.ret (false, false), s)

/-- The function `coerceUnknowns` of `solver.go`. The branch for two unknowns is
empty and the loop over the constraints of `src` only reads them. -/
def Solver.coerceUnknowns (s : Solver) (src dest : Option DataType) :
    Outcome (Bool × Bool) × Solver :=
  match src with
  | some (.Unknown sref) =>
    match s.unknownTypes.get? sref with
    | none => (.panic, s)
    | some sut =>
      if sut.EvalType.isNone then
        match dest with
        | some (.Unknown dref) =>
          match s.unknownTypes.get? dref with
          | none => (.panic, s)
          | some _ =>
            -- no matching constraint found
            (.ret (true, false), s)
        | _ => (.ret (true, false), s)
      else Solver.coerceUnknowns.destOnly s dest
  | _ => Solver.coerceUnknowns.destOnly s dest

/-- A call of one of the three functions that build equations. -/
inductive SolverCall where
  | CreateUnknown (pos : TextPosition) (constaints : List (Option DataType))
  | FinishExpr (resultant : Option DataType)
  | FinishEqn
  deriving DecidableEq, Repr

/-- A sequence of calls on a solver, from the left; it stops at a panic. The solver
states that the calls reach are the results of such sequences. -/
def Solver.run (Result : TypeExpression → Option DataType × Bool) :
    List SolverCall → Solver → Outcome Unit × Solver
  | [], s => (.ret (), s)
  | .CreateUnknown pos constaints :: rest, s =>
    match s.CreateUnknown pos constaints with
    | (.ret _, s1) => Solver.run Result rest s1
    | (.panic, s1) => (.panic, s1)
    | (.outOfFuel, s1) => (.outOfFuel, s1)
  | .FinishExpr resultant :: rest, s =>
    Solver.run Result rest (Solver.FinishExpr Result s resultant)
  | .FinishEqn :: rest, s => Solver.run Result rest s.FinishEqn.2

/-- The expression that the specification has `FinishExpr` store: `Solved(resultant)`
when no expression was built, `Solved(t)` when the built expression has the known
result t, and the built expression otherwise. -/
def FinishExpr.stored (Result : TypeExpression → Option DataType × Bool) (s : Solver)
    (resultant : Option DataType) : TypeExpression :=
  match s.CurrentExpr with
  | none => .SolvedExpr resultant
  | some e => if (Result e).2 then .SolvedExpr (Result e).1 else e

/-- The unification of the specification on a running unifier u and the next type t:
keep u when t coerces to u, adopt t when u coerces to t, promote to the common
explicitly implemented interface when there is one, fail (`none`) otherwise.
`coerces a b` says that a coerces to b; `common` is the interface that two types both
implement explicitly, if any. -/
def unifySpec.step (coerces : Option DataType → Option DataType → Bool)
    (common : Option DataType → Option DataType → Option (Option DataType))
    (u t : Option DataType) : Option (Option DataType) :=
  if coerces t u then some u
  else if coerces u t then some t
  else common t u

/-- The unification of the specification: the left fold of the step from the first
type; `none` is failure. -/
def unifySpec (coerces : Option DataType → Option DataType → Bool)
    (common : Option DataType → Option DataType → Option (Option DataType)) :
    List (Option DataType) → Option (Option DataType)
  | [] => none
  | t0 :: rest =>
    rest.foldl (fun acc t => acc.bind (fun u => unifySpec.step coerces common u t)) (some t0)

/-- Whether a type is an unknown of the solver that has no evaluated type yet. -/
def Solver.unevaluated (s : Solver) (dt : Option DataType) : Bool :=
  match dt with
  | some (.Unknown ref) =>
    match s.unknownTypes.get? ref with
    | some ut => ut.EvalType.isNone
    | none => false
  | _ => false

/-- Whether a type, if it is an unknown, is one that the solver has allocated. -/
def Solver.allocated (s : Solver) (dt : Option DataType) : Bool :=
  match dt with
  | some (.Unknown ref) => (s.unknownTypes.get? ref).isSome
  | _ => true

namespace Sample

/-- The type `string`. -/
def string : Option DataType := some (.Concrete "string")

/-- The interface `Showable`. -/
def Showable : Option DataType := some (.Concrete "Showable")

/-- A coercion relation: every type coerces to itself and to nothing else. -/
def sameType (a b : Option DataType) : Bool := a == b

/-- A program in which `int` and `string` both implement `Showable` explicitly, and
nothing else implements anything. -/
def implemented (a b : Option DataType) : Option (Option DataType) :=
  if (a = int ∧ b = string) ∨ (a = string ∧ b = int) then some Showable else none

/-- A solver that holds one unknown, without constraints and not yet evaluated, made
by `CreateUnknown` on the solver before any call. -/
def oneUnknown : Solver :=
  (newSolver.CreateUnknown (posAt 1 1) []).2

end Sample

/-! ## The walker: identifier lists and type lists -/

/-- The loop of `walkIdList` over the items of the list; `i` is the index of the
item and `names` the map built so far. The assertion `item.(*syntax.ASTLeaf)` panics
on a branch. -/
def walkIdList.loop (w : Walker) (nameKind : String) :
    List ASTNode → Nat → List (String × TextPosition) → List Logged →
    Outcome (Option (List (String × TextPosition)) × Bool) × List Logged
  | [], _, names, sink => (.ret (some names, true), sink)
  | item :: rest, i, names, sink =>
    if i % 2 = 0 then
      match item with
      | .Branch _ _ => (.panic, sink)
      | .Leaf _ name pos =>
        if (Map.get names name).isSome then
          (.ret (none, false),
            w.logError sink ("Multiple " ++ nameKind ++ " named `" ++ name ++ "`")
              LogKind.LMKName pos)
        else walkIdList.loop w nameKind rest (i + 1) (Map.set names name pos) sink
    else walkIdList.loop w nameKind rest (i + 1) names sink

/-- The function `walkIdList` of `walker.go`; a nil map is `none`. -/
def walkIdList (w : Walker) (sink : List Logged) (idList : ASTBranch) (nameKind : String) :
    Outcome (Option (List (String × TextPosition)) × Bool) × List Logged :=
  walkIdList.loop w nameKind idList.Content 0 [] sink

/-- The variables `rootName`, `accessedName`, `rootPos` and `accessedPos` of
`walkTypeLabel`. A position that was never assigned, a nil pointer in the sources, is
the zero position; `walkNamedTypeCore` reads `accessedPos` only beside a non-empty
`accessedName`, and `rootPos` is nil only when the label holds no identifier. -/
structure TypeLabelVars where
  rootName : String
  accessedName : String
  rootPos : TextPosition
  accessedPos : TextPosition
  deriving DecidableEq, Repr

/-- The loop of `walkTypeLabel` over the items of a `named_type` node. -/
def walkTypeLabel.items : List ASTNode → TypeLabelVars → TypeLabelVars
  | [], vars => vars
  | .Leaf kind value pos :: rest, vars =>
    if kind = TokKind.IDENTIFIER then
      if vars.rootName = "" then
        walkTypeLabel.items rest { vars with rootName := value, rootPos := pos }
      else walkTypeLabel.items rest { vars with accessedName := value, accessedPos := pos }
    else walkTypeLabel.items rest vars
  | .Branch _ _ :: rest, vars => walkTypeLabel.items rest vars

/-- The function `walkTypeLabel` of `type_walker.go`. -/
def walkTypeLabel (deps : WalkerDeps) (w : Walker) (sink : List Logged) (label : ASTBranch) :
    Outcome (Option DataType × Bool) × Walker × List Logged :=
  match label.BranchAt 0 with
  | none => (.panic, w, sink)
  | some typeCat =>
    if typeCat.Name = "named_type" then
      let vars := walkTypeLabel.items typeCat.Content ⟨"", "", ⟨0, 0, 0, 0⟩, ⟨0, 0, 0, 0⟩⟩
      walkNamedTypeCore deps w sink vars.rootName vars.accessedName vars.rootPos
        vars.accessedPos
    else (.ret (none, false), w, sink)

/-- Modelled from the spec: `ASTBranch.Len`, absent from the sources; the
specification reads it as the number of children of the branch. -/
def ASTBranch.Len (b : ASTBranch) : Int :=
  b.Content.length

/-- The loop of `walkOffsetTypeList` over the items of the slice; `i` is the index in
the slice and `types` the array made before the loop. An item is a node or, beyond the
length of `Content`, possibly a nil interface (`none`). The assertion
`item.(*syntax.ASTBranch)` panics on a leaf and on nil, and so does the write
`types[i/2]` outside of the array. -/
def walkOffsetTypeList.loop (deps : WalkerDeps) :
    List (Option ASTNode) → Nat → List (Option DataType) → Walker → List Logged →
    Outcome (Option (List (Option DataType)) × Bool) × Walker × List Logged
  | [], _, types, w, sink => (.ret (some types, true), w, sink)
  | item :: rest, i, types, w, sink =>
    if i % 2 = 0 then
      match item.bind ASTNode.asBranch with
      | none => (.panic, w, sink)
      | some label =>
        match walkTypeLabel deps w sink label with
        | (.ret (dt, true), w1, sink1) =>
          if i / 2 < types.length then
            walkOffsetTypeList.loop deps rest (i + 1) (types.set (i / 2) dt) w1 sink1
          else (.panic, w1, sink1)
        | (.ret (_, false), w1, sink1) => (.ret (none, false), w1, sink1)
        | (.panic, w1, sink1) => (.panic, w1, sink1)
        | (.outOfFuel, w1, sink1) => (.outOfFuel, w1, sink1)
    else walkOffsetTypeList.loop deps rest (i + 1) types w sink

/-- The function `walkOffsetTypeList` of `type_walker.go`. The array is made with
`(ast.Len()-startOffset-endOffset)/2+1` entries, all nil, where `/` truncates; `make`
panics on a negative length. The loop ranges over `ast.Content[startOffset:endOffset]`,
which panics unless `0 ≤ startOffset ≤ endOffset ≤ cap(ast.Content)`. `spare` is the
part of the backing array of `Content` beyond its length, so that the capacity is the
length plus the length of `spare`; its entries are nil interfaces or nodes left
there, and a slice that ends beyond the length reaches them. -/
def walkOffsetTypeList (deps : WalkerDeps) (w : Walker) (sink : List Logged)
    (ast : ASTBranch) (spare : List (Option ASTNode)) (startOffset endOffset : Int) :
    Outcome (Option (List (Option DataType)) × Bool) × Walker × List Logged :=
  let size : Int := (ast.Len - startOffset - endOffset).tdiv 2 + 1
  if size < 0 then (.panic, w, sink)
  else if 0 ≤ startOffset ∧ startOffset ≤ endOffset
      ∧ endOffset ≤ ast.Len + (spare.length : Int) then
    walkOffsetTypeList.loop deps
      (((ast.Content.map some ++ spare).drop startOffset.toNat).take
        (endOffset.toNat - startOffset.toNat))
      0 (List.replicate size.toNat none) w sink
  else (.panic, w, sink)

/-! ## Specification-side notions for the walker and the assembler -/

/-- The items at the even positions of a list. -/
def evenItems {α : Type} : List α → List α
  | [] => []
  | [a] => [a]
  | a :: _ :: rest => a :: evenItems rest

/-- The name and position of an identifier leaf. -/
def leafId : ASTNode → Option (String × TextPosition)
  | .Leaf _ name pos => some (name, pos)
  | .Branch _ _ => none

/-- The identifiers of an identifier list with their positions, in order. -/
def listedIds (idList : ASTBranch) : List (String × TextPosition) :=
  (evenItems idList.Content).filterMap leafId

namespace Sample

/-- The identifier list `a, b, a, b`. -/
def idsABAB : ASTBranch :=
  ⟨"identifier_list",
    [.Leaf .IDENTIFIER "a" (posAt 2 1), .Leaf (.other 3) "," (posAt 2 2),
     .Leaf .IDENTIFIER "b" (posAt 2 4), .Leaf (.other 3) "," (posAt 2 5),
     .Leaf .IDENTIFIER "a" (posAt 2 7), .Leaf (.other 3) "," (posAt 2 8),
     .Leaf .IDENTIFIER "b" (posAt 2 10)]⟩

/-- The identifier list `a, b`. -/
def idsAB : ASTBranch :=
  ⟨"identifier_list",
    [.Leaf .IDENTIFIER "a" (posAt 2 1), .Leaf (.other 3) "," (posAt 2 2),
     .Leaf .IDENTIFIER "b" (posAt 2 4)]⟩

/-- The type label of the name `P`, at a column of line 8. -/
def labelP (col : Nat) : ASTNode :=
  .Branch "type" [.Branch "named_type" [.Leaf .IDENTIFIER "P" (posAt 8 col)]]

/-- The node `type_list` with the one label `P`. -/
def oneType : ASTBranch := ⟨"type_list", [labelP 1]⟩

/-- The tail `= P | P` of a `newtype` definition: the labels start after one node. -/
def newtypeBody : ASTBranch :=
  ⟨"newtype",
    [.Leaf (.other 5) "=" (posAt 8 1), labelP 3, .Leaf (.other 6) "|" (posAt 8 5),
     labelP 7]⟩

/-- A walker of `y.wrl` during resolution, inside an internal definition, with an
empty opaque slot. -/
def emptySlotWalker : Walker :=
  { internalWalker with sharedOpaqueSymbol := none }

end Sample

/-- What `WalkDef` gives on the definitions of a block when it is called once on each
of them in source order: each definition with its result, then the walker and the
state after the last call. -/
def walkDefs {σ : Type} (env : ResolveEnv σ) :
    List ASTBranch → Walker → σ →
    List (ASTBranch × Option HIRNode × List (String × Common.UnknownSymbol) × Bool)
      × Walker × σ
  | [], w, s => ([], w, s)
  | branch :: rest, w, s =>
    match env.WalkDef w branch s with
    | (r, w1, s1) =>
      match walkDefs env rest w1 s1 with
      | (rs, w2, s2) => ((branch, r) :: rs, w2, s2)

/-- The definitions to enqueue among walked definitions: those whose HIR node is
nil, in order, each with its unknowns and the file. -/
def enqueued (wfile : String) :
    List (ASTBranch × Option HIRNode × List (String × Common.UnknownSymbol) × Bool) →
    List Definition
  | [] => []
  | (branch, none, unknowns, _) :: rest => ⟨branch, unknowns, wfile⟩ :: enqueued wfile rest
  | (_, some _, _, _) :: rest => enqueued wfile rest

/-- The HIR nodes to append among walked definitions: those that are not nil and
come with ok, in order. -/
def appended :
    List (ASTBranch × Option HIRNode × List (String × Common.UnknownSymbol) × Bool) →
    List HIRNode
  | [] => []
  | (_, some node, _, true) :: rest => node :: appended rest
  | (_, _, _, _) :: rest => appended rest

/-- The walked definitions that are neither enqueued nor appended: a node that is not
nil, without ok. -/
def dropped :
    List (ASTBranch × Option HIRNode × List (String × Common.UnknownSymbol) × Bool) →
    List ASTBranch
  | [] => []
  | (branch, some _, _, false) :: rest => branch :: dropped rest
  | (_, _, _, _) :: rest => dropped rest

namespace Sample

/-- The AST of a file with two header statements, `import X from lib` and
`import X, Y from lib`, before its code. -/
def twoHeaders : ASTBranch :=
  ⟨"file",
    [.Branch importX.Name importX.Content, .Branch importXY.Name importXY.Content,
     .Branch "top_level" []]⟩

/-- The package `app` with the one file `m.wrl` of the two header statements, with
its import table and the local table of the file allocated and empty. -/
def appTwo : WhirlPackage where
  PackageID := getPackageID "/proj/app"
  Name := "app"
  RootDirectory := "/proj/app"
  Files := [("/proj/app/m.wrl", ⟨some twoHeaders, [], some []⟩)]
  GlobalTable := []
  ImportTable := some []

/-- The state in which `lib` is in the graph and the imports of that package `app`
are about to be collected. -/
def collecting : World :=
  ⟨[lib, appTwo], [("lib", 0)],
    [(getPackageID "/proj/lib", 0), (getPackageID "/proj/app", 1)],
    getPackageID "/proj/app", "", "", [], []⟩

/-- A block of three definitions. -/
def topLevel : ASTBranch :=
  ⟨"top_level", [.Branch "type_def" [], .Branch "func_def" [], .Branch "bad_def" []]⟩

/-- Surroundings in which `WalkDef` counts its calls and leaves a `type_def` unresolved
(nil node, one unknown), translates a `func_def` (its node carries the count), and
fails on everything else after translating it. -/
def mixedEnv : ResolveEnv Nat where
  heap := deps.heap
  WalkDef := fun w branch n =>
    if branch.Name = "type_def" then
      ((none, [("Missing", ⟨"Missing", posAt 5 3, none, false⟩)], false), w, n + 1)
    else if branch.Name = "func_def" then ((some ⟨n⟩, [], true), w, n + 1)
    else ((some ⟨n⟩, [], false), w, n + 1)
  rangeFiles := id
  rangeUnknowns := id

/-- The assembler of `app` inside the initial pass over `m.wrl`: the root of the file
is set. -/
def inPass : PAssembler :=
  beforePass.setFile "/proj/app/m.wrl" ⟨some mainFile, some ⟨[]⟩, [], []⟩

end Sample

namespace Sample

/-- A project whose directory `/proj/only` holds no file of its own, only the
subdirectory `sub` with the source file `b.wrl`. -/
def treeOnly (path : String) : FsNode :=
  if path = "/proj/only" then .dir "only" none [.dir "sub" none [.file "b.wrl"]]
  else .broken "" "no such file or directory"

/-- What scanning and parsing yields in that project: `b.wrl` scans and parses. -/
def sourcesOnly (path : String) : SrcResult :=
  if path = "/proj/only/sub/b.wrl" then ⟨none, .ok (true, []), .ok ⟨"file", []⟩⟩
  else ⟨some "cannot open file", .error "", .error ""⟩

/-- The environment of that project. -/
def envOnly : Env :=
  { env with fs := treeOnly, source := sourcesOnly }

/-- A project of two directories: `app` with the file `m.wrl`, whose header is
`import X from lib`, and `lib` with the file `l.wrl`, which has no header. -/
def treeBoth (path : String) : FsNode :=
  if path = "/proj/app" then .dir "app" none [.file "m.wrl"]
  else if path = "/proj/lib" then .dir "lib" none [.file "l.wrl"]
  else .broken "" "no such file or directory"

/-- What scanning and parsing yields in the project of two directories. -/
def sourcesBoth (path : String) : SrcResult :=
  if path = "/proj/app/m.wrl" then ⟨none, .ok (true, []), .ok mainFile⟩
  else if path = "/proj/lib/l.wrl" then
    ⟨none, .ok (true, []), .ok ⟨"file", [.Branch "top_level" []]⟩⟩
  else ⟨some "cannot open file", .error "", .error ""⟩

/-- The environment of the project of two directories. -/
def envBoth : Env :=
  { env with fs := treeBoth, source := sourcesBoth }

/-- The state of the project of two directories in which `initPackage` has just made
the package `app`, before its imports are collected. -/
def loadedBoth : World :=
  { (initPackage envBoth "/proj/app" fresh).2 with
      CurrentPackage := getPackageID "/proj/app", CurrentFile := "/proj/app/m.wrl" }

/-- The state in which `lib` is in the graph, `initPackage` has just made the package
`app` from its directory, and the header of its file `m.wrl` is about to be walked:
the import table of `app` and the local table of `m.wrl` are as `initPackage` left
them. -/
def loaded : World :=
  { (initPackage env "/proj/app" withLib).2 with
      CurrentPackage := getPackageID "/proj/app", CurrentFile := "/proj/app/m.wrl" }

/-- The state `walking` with the import table of `app` allocated and the local table
of `m.wrl` nil. -/
def walkingNilLocal : World :=
  { walking with
      heap := [lib, { app with Files := [("/proj/app/m.wrl", ⟨some mainFile, [], none⟩)] }] }

end Sample

/-! ## Theorems -/

/-! ### Maps -/

theorem Map.get_set_self {κ α : Type} [DecidableEq κ] (m : List (κ × α)) (k : κ) (v : α) :
    Map.get (Map.set m k v) k = some v := by
  induction m with
  | nil => simp [Map.set, Map.get]
  | cons e rest ih =>
    obtain ⟨k0, v0⟩ := e
    by_cases h : k0 = k
    · simp [Map.set, Map.get, h]
    · simp [Map.set, Map.get, h, ih]

theorem Map.get_set_other {κ α : Type} [DecidableEq κ] (m : List (κ × α)) (k k1 : κ) (v : α)
    (hne : k1 ≠ k) : Map.get (Map.set m k v) k1 = Map.get m k1 := by
  induction m with
  | nil =>
    have : ¬ k = k1 := fun h => hne h.symm
    simp [Map.set, Map.get, this]
  | cons e rest ih =>
    obtain ⟨k0, v0⟩ := e
    by_cases h : k0 = k
    · subst h
      have : ¬ k0 = k1 := fun h => hne h.symm
      simp [Map.set, Map.get, this]
    · by_cases h1 : k0 = k1
      · simp [Map.set, Map.get, h, h1]
        subst h1
        simp [Map.get, h]
      · simp [Map.set, Map.get, h, h1, ih]

theorem Map.set_ne_nil {κ α : Type} [DecidableEq κ] (m : List (κ × α)) (k : κ) (v : α) :
    Map.set m k v ≠ [] := by
  cases m with
  | nil => simp [Map.set]
  | cons e rest =>
    obtain ⟨k0, v0⟩ := e
    by_cases h : k0 = k <;> simp [Map.set, h]

/-! ### `isValidPkgName` and `getPackageID` -/

theorem isValidPkgName.tail_eq_true (IsLetter IsDigit : Nat → Bool) (rest : List Nat) :
    isValidPkgName.tail IsLetter IsDigit rest = true ↔
      ∀ b ∈ rest, IsLetter b = true ∨ IsDigit b = true ∨ b = 95 := by
  induction rest with
  | nil => simp [isValidPkgName.tail]
  | cons b rest ih =>
    simp only [isValidPkgName.tail, List.mem_cons, forall_eq_or_imp]
    by_cases hl : IsLetter b = true
    · simp [hl, ih]
    · by_cases hd : IsDigit b = true
      · simp [hl, hd, ih]
      · by_cases hu : b = 95
        · simp [hu, ih]
        · simp [hl, hd, hu]

/-- C2: on every non-empty name `isValidPkgName` returns, and it returns true exactly
when the first byte is a letter or an underscore and every later byte is a letter, a
digit or an underscore; `1bad` is rejected and `_` is accepted. -/
theorem isValidPkgName_iff (IsLetter IsDigit : Nat → Bool) (b0 : Nat) (rest : List Nat) :
    (isValidPkgName IsLetter IsDigit (b0 :: rest) = .ret true
      ∨ isValidPkgName IsLetter IsDigit (b0 :: rest) = .ret false)
    ∧ (isValidPkgName IsLetter IsDigit (b0 :: rest) = .ret true ↔
        (IsLetter b0 = true ∨ b0 = 95)
          ∧ ∀ b ∈ rest, IsLetter b = true ∨ IsDigit b = true ∨ b = 95)
    ∧ isValidPkgName asciiLetter asciiDigit (bytes "1bad") = .ret false
    ∧ isValidPkgName asciiLetter asciiDigit (bytes "_") = .ret true := by
  have hdef : isValidPkgName IsLetter IsDigit (b0 :: rest)
      = if (IsLetter b0 || b0 == 95) = true
          then .ret (isValidPkgName.tail IsLetter IsDigit rest) else .ret false := rfl
  refine ⟨?_, ?_, by decide, by decide⟩
  · rw [hdef]
    by_cases h : (IsLetter b0 || b0 == 95) = true
    · rw [if_pos h]
      cases isValidPkgName.tail IsLetter IsDigit rest <;> simp
    · rw [if_neg h]
      exact Or.inr rfl
  · rw [hdef]
    by_cases h : (IsLetter b0 || b0 == 95) = true
    · rw [if_pos h]
      have h1 : IsLetter b0 = true ∨ b0 = 95 := by simpa using h
      simp only [Outcome.ret.injEq, h1, true_and]
      exact isValidPkgName.tail_eq_true IsLetter IsDigit rest
    · rw [if_neg h]
      have h1 : ¬ (IsLetter b0 = true ∨ b0 = 95) := by simpa using h
      simp [h1]

theorem fnvWrite_eq_go (h : Nat) (data : List Nat) : fnvWrite h data = FNV1a32.go h data := by
  induction data generalizing h with
  | nil => rfl
  | cons b rest ih =>
    have := ih (((h ^^^ b) * 16777619) % 4294967296)
    simpa [fnvWrite, FNV1a32.go, prime32] using this

theorem fnvWrite_lt (h : Nat) (data : List Nat) (hh : h < 2 ^ 32) :
    fnvWrite h data < 2 ^ 32 := by
  induction data generalizing h with
  | nil => simpa [fnvWrite] using hh
  | cons b rest ih =>
    have := ih (((h ^^^ b) * prime32) % 2 ^ 32) (Nat.mod_lt _ (by norm_num))
    simpa [fnvWrite] using this

/-! ### `filepath.Walk` with a walk function that returns nil -/

mutual
theorem walkNode_nil {σ : Type} (join : String → String → String) (fn : WalkFunc σ)
    (hfn : ∀ p d e s, (fn p d e s).1 = none) :
    ∀ (n : FsNode) (path : String) (s : σ),
      walkNode join fn path n s
        = (none, (visits join path n).foldl (fun s v => (fn v.fpath v.isDir v.ferr s).2) s)
  | .broken _ e, path, s => by
      simp only [walkNode, visits, List.foldl]
      exact Prod.ext (hfn _ _ _ _) rfl
  | .file _, path, s => by
      simp only [walkNode, visits, List.foldl]
      exact Prod.ext (hfn _ _ _ _) rfl
  | .dir _ rerr entries, path, s => by
      have h1 := hfn path true rerr s
      have hp : fn path true rerr s = (none, (fn path true rerr s).2) := Prod.ext h1 rfl
      simp only [walkNode, visits, List.foldl]
      rw [hp]
      cases rerr with
      | some e => simp
      | none =>
        simp only [Option.isSome_none, Bool.or_self, Bool.false_eq_true, if_false]
        exact walkEntries_nil join fn hfn entries path _
theorem walkEntries_nil {σ : Type} (join : String → String → String) (fn : WalkFunc σ)
    (hfn : ∀ p d e s, (fn p d e s).1 = none) :
    ∀ (l : List FsNode) (path : String) (s : σ),
      walkEntries join fn path l s
        = (none, (visitsEntries join path l).foldl
            (fun s v => (fn v.fpath v.isDir v.ferr s).2) s)
  | [], path, s => by simp [walkEntries, visitsEntries]
  | n :: rest, path, s => by
      simp only [walkEntries, visitsEntries, List.foldl_append]
      rw [walkNode_nil join fn hfn n (join path n.name) s]
      exact walkEntries_nil join fn hfn rest path _
end

theorem Walk_nil {σ : Type} (join : String → String → String) (fn : WalkFunc σ)
    (hfn : ∀ p d e s, (fn p d e s).1 = none) (root : String) (tree : FsNode) (s : σ) :
    Walk join fn root tree s
      = (none, (visits join root tree).foldl (fun s v => (fn v.fpath v.isDir v.ferr s).2) s) := by
  unfold Walk
  rw [walkNode_nil join fn hfn tree root s]

theorem initPackage.visit_nil (env : Env) (p : String) (d : Bool) (e : Option String)
    (st : World × List (String × WhirlFile)) : (initPackage.visit env p d e st).1 = none := by
  unfold initPackage.visit
  generalize env.source p = src
  rcases src with ⟨scanErr, prep, parsed⟩
  cases e <;> cases d <;> by_cases hx : Ext p = SrcFileExtension <;>
    cases scanErr <;> rcases prep with _ | ⟨_ | _, _⟩ <;> cases parsed <;> simp [hx]

theorem initPackage.walk_eq (env : Env) (abspath : String) (st : World × List (String × WhirlFile)) :
    Walk env.Join (initPackage.visit env) abspath (env.fs abspath) st
      = (none, (visits env.Join abspath (env.fs abspath)).foldl (initPackage.step env) st) :=
  Walk_nil env.Join (initPackage.visit env) (initPackage.visit_nil env) abspath _ st

/-! ### The walk of `initPackage` -/

theorem initPackage.step_spec (env : Env) (st : World × List (String × WhirlFile)) (v : Visit) :
    (initPackage.step env st v).1.log = st.1.log ++ fileErrors env v
    ∧ (initPackage.step env st v).1.heap = st.1.heap
    ∧ (initPackage.step env st v).1.DepGraph = st.1.DepGraph
    ∧ (initPackage.step env st v).1.depGraph = st.1.depGraph
    ∧ (initPackage.step env st v).1.CurrentPackage = st.1.CurrentPackage
    ∧ (initPackage.step env st v).1.CurrentFile = st.1.CurrentFile
    ∧ (initPackage.step env st v).1.calls = st.1.calls
    ∧ ((initPackage.step env st v).2 = [] ↔ st.2 = [] ∧ usableSource env v = false) := by
  rcases v with ⟨fpath, isDir, ferr⟩
  rcases st with ⟨w, files⟩
  unfold initPackage.step initPackage.visit fileErrors usableSource
  simp only []
  generalize env.source fpath = src
  rcases src with ⟨scanErr, prep, parsed⟩
  cases ferr <;> cases isDir <;> by_cases hx : Ext fpath = SrcFileExtension <;>
    cases scanErr <;> rcases prep with _ | ⟨_ | _, _⟩ <;> cases parsed <;>
    simp [hx, World.logError, Map.set_ne_nil]

theorem initPackage.fold_spec (env : Env) (vs : List Visit) :
    ∀ st : World × List (String × WhirlFile),
    (vs.foldl (initPackage.step env) st).1.log = st.1.log ++ vs.flatMap (fileErrors env)
    ∧ (vs.foldl (initPackage.step env) st).1.heap = st.1.heap
    ∧ (vs.foldl (initPackage.step env) st).1.DepGraph = st.1.DepGraph
    ∧ (vs.foldl (initPackage.step env) st).1.depGraph = st.1.depGraph
    ∧ (vs.foldl (initPackage.step env) st).1.CurrentPackage = st.1.CurrentPackage
    ∧ (vs.foldl (initPackage.step env) st).1.CurrentFile = st.1.CurrentFile
    ∧ (vs.foldl (initPackage.step env) st).1.calls = st.1.calls
    ∧ ((vs.foldl (initPackage.step env) st).2 = [] ↔
        st.2 = [] ∧ ∀ v ∈ vs, usableSource env v = false) := by
  induction vs with
  | nil => intro st; simp
  | cons v rest ih =>
    intro st
    obtain ⟨h1, h2, h3, h4, h5, h6, h7, h8⟩ := initPackage.step_spec env st v
    obtain ⟨g1, g2, g3, g4, g5, g6, g7, g8⟩ := ih (initPackage.step env st v)
    simp only [List.foldl_cons, List.flatMap_cons, List.mem_cons, forall_eq_or_imp]
    refine ⟨?_, ?_, ?_, ?_, ?_, ?_, ?_, ?_⟩
    · rw [g1, h1, List.append_assoc]
    · rw [g2, h2]
    · rw [g3, h3]
    · rw [g4, h4]
    · rw [g5, h5]
    · rw [g6, h6]
    · rw [g7, h7]
    · rw [g8, h8]
      tauto

theorem utf8Bytes_ne_nil (c : Char) : utf8Bytes c ≠ [] := by
  unfold utf8Bytes
  simp only []
  split
  · simp
  · split
    · simp
    · split <;> simp

theorem bytes_Base_ne_nil (path : String) : bytes (Base path) ≠ [] := by
  have hmk : ∀ l : List Char, l ≠ [] → bytes (String.mk l) ≠ [] := by
    intro l hl
    cases l with
    | nil => exact absurd rfl hl
    | cons c cs =>
      have := utf8Bytes_ne_nil c
      simp [bytes, List.flatMap_cons, this]
  unfold Base
  split
  · decide
  · simp only []
    split
    · decide
    · rename_i hl
      exact hmk _ hl

theorem isValidPkgName_Base (env : Env) (abspath : String) :
    isValidPkgName env.IsLetter env.IsDigit (bytes (Base abspath)) = .ret true
    ∨ isValidPkgName env.IsLetter env.IsDigit (bytes (Base abspath)) = .ret false := by
  have h := bytes_Base_ne_nil abspath
  cases hb : bytes (Base abspath) with
  | nil => exact absurd hb h
  | cons b0 rest => exact (isValidPkgName_iff env.IsLetter env.IsDigit b0 rest).1

theorem initPackage_invalid (env : Env) (abspath : String) (w : World)
    (hv : isValidPkgName env.IsLetter env.IsDigit (bytes (Base abspath)) = .ret false) :
    initPackage env abspath w
      = (.ret (none, some ("Invalid package name: `" ++ Base abspath ++ "`")),
          { w with calls := w.calls ++ [Call.initPackage abspath] }) := by
  simp only [initPackage, hv]

theorem initPackage_valid (env : Env) (abspath : String) (w : World)
    (hv : isValidPkgName env.IsLetter env.IsDigit (bytes (Base abspath)) = .ret true) :
    initPackage env abspath w
      = (let st := (visits env.Join abspath (env.fs abspath)).foldl (initPackage.step env)
            ({ w with calls := w.calls ++ [Call.initPackage abspath] }, [])
         if st.2.length = 0 then
           (.ret (none, some ("Unable to load package by name `" ++ Base abspath
              ++ "` because it contains no source files")), st.1)
         else
           (.ret (some st.1.heap.length, none),
             { st.1 with
                 heap := st.1.heap ++ [{ PackageID := getPackageID abspath, Name := Base abspath,
                                         RootDirectory := abspath, Files := st.2,
                                         GlobalTable := [], ImportTable := none }],
                 depGraph := Map.set st.1.depGraph (getPackageID abspath) st.1.heap.length })) := by
  simp only [initPackage, hv, initPackage.walk_eq]

theorem initPackage_cases (env : Env) (abspath : String) (w : World) :
    (isValidPkgName env.IsLetter env.IsDigit (bytes (Base abspath)) = .ret false
      ∧ initPackage env abspath w
          = (.ret (none, some ("Invalid package name: `" ++ Base abspath ++ "`")),
              { w with calls := w.calls ++ [Call.initPackage abspath] }))
    ∨ (isValidPkgName env.IsLetter env.IsDigit (bytes (Base abspath)) = .ret true
      ∧ (∀ v ∈ visits env.Join abspath (env.fs abspath), usableSource env v = false)
      ∧ (initPackage env abspath w).1
          = .ret (none, some ("Unable to load package by name `" ++ Base abspath
              ++ "` because it contains no source files"))
      ∧ (initPackage env abspath w).2.heap = w.heap
      ∧ (initPackage env abspath w).2.depGraph = w.depGraph
      ∧ (initPackage env abspath w).2.DepGraph = w.DepGraph
      ∧ (initPackage env abspath w).2.CurrentPackage = w.CurrentPackage
      ∧ (initPackage env abspath w).2.CurrentFile = w.CurrentFile
      ∧ (initPackage env abspath w).2.calls = w.calls ++ [Call.initPackage abspath]
      ∧ (initPackage env abspath w).2.log
          = w.log ++ (visits env.Join abspath (env.fs abspath)).flatMap (fileErrors env))
    ∨ (isValidPkgName env.IsLetter env.IsDigit (bytes (Base abspath)) = .ret true
      ∧ (∃ v ∈ visits env.Join abspath (env.fs abspath), usableSource env v = true)
      ∧ (initPackage env abspath w).1 = .ret (some w.heap.length, none)
      ∧ (∃ files, files ≠ [] ∧ (initPackage env abspath w).2.heap
          = w.heap ++ [{ PackageID := getPackageID abspath, Name := Base abspath,
                         RootDirectory := abspath, Files := files,
                         GlobalTable := [], ImportTable := none }])
      ∧ (initPackage env abspath w).2.depGraph
          = Map.set w.depGraph (getPackageID abspath) w.heap.length
      ∧ (initPackage env abspath w).2.DepGraph = w.DepGraph
      ∧ (initPackage env abspath w).2.CurrentPackage = w.CurrentPackage
      ∧ (initPackage env abspath w).2.CurrentFile = w.CurrentFile
      ∧ (initPackage env abspath w).2.calls = w.calls ++ [Call.initPackage abspath]
      ∧ (initPackage env abspath w).2.log
          = w.log ++ (visits env.Join abspath (env.fs abspath)).flatMap (fileErrors env)) := by
  rcases isValidPkgName_Base env abspath with hv | hv
  · right
    rw [initPackage_valid env abspath w hv]
    obtain ⟨g1, g2, g3, g4, g5, g6, g7, g8⟩ :=
      initPackage.fold_spec env (visits env.Join abspath (env.fs abspath))
        ({ w with calls := w.calls ++ [Call.initPackage abspath] }, [])
    simp only [] at g1 g2 g3 g4 g5 g6 g7 g8
    generalize (visits env.Join abspath (env.fs abspath)).foldl (initPackage.step env)
      ({ w with calls := w.calls ++ [Call.initPackage abspath] }, []) = st at *
    obtain ⟨w1, files⟩ := st
    simp only [] at g1 g2 g3 g4 g5 g6 g7 g8 ⊢
    by_cases hf : files = []
    · left
      have hall := (g8.1 hf).2
      subst hf
      refine ⟨hv, hall, ?_, ?_, ?_, ?_, ?_, ?_, ?_, ?_⟩ <;>
        simp [g1, g2, g3, g4, g5, g6, g7]
    · right
      have hlen : ¬ files.length = 0 := by
        intro h0
        exact hf (List.length_eq_zero.mp h0)
      have hex : ∃ v ∈ visits env.Join abspath (env.fs abspath), usableSource env v = true := by
        by_contra hcon
        apply hf
        apply g8.2
        refine ⟨trivial, ?_⟩
        intro v hvm
        by_contra hne
        exact hcon ⟨v, hvm, by simpa using hne⟩
      refine ⟨hv, hex, ?_, ⟨files, hf, ?_⟩, ?_, ?_, ?_, ?_, ?_, ?_⟩ <;>
        simp [hlen, g1, g2, g3, g4, g5, g6, g7]
  · left
    exact ⟨hv, initPackage_invalid env abspath w hv⟩

/-- C3: `getPackageID` is the 32-bit FNV-1a hash of the bytes of the path as the
specification words it, it is below 2^32, and the package that `initPackage` builds
for a path has that path as its root directory and the hash of its root directory as
its `PackageID`. -/
theorem getPackageID_fnv (abspath : String) :
    getPackageID abspath = FNV1a32 (bytes abspath)
    ∧ getPackageID abspath < 2 ^ 32
    ∧ ∀ (env : Env) (w w1 : World) (ref : Nat) (err : Option String),
        initPackage env abspath w = (.ret (some ref, err), w1) →
        ∃ pkg, w1.heap.get? ref = some pkg ∧ pkg.RootDirectory = abspath
          ∧ pkg.PackageID = getPackageID pkg.RootDirectory := by
  refine ⟨fnvWrite_eq_go _ _, fnvWrite_lt _ _ (by norm_num [offset32]), ?_⟩
  intro env w w1 ref err h
  rcases initPackage_cases env abspath w with ⟨_, h1⟩ | ⟨_, _, h1, _⟩ | ⟨_, _, h1, ⟨files, _, h2⟩, _⟩
  · rw [h1] at h
    simp at h
  · rw [h] at h1
    simp at h1
  · rw [h] at h1 h2
    simp only [Outcome.ret.injEq, Prod.mk.injEq, Option.some.injEq] at h1
    simp only [] at h2
    refine ⟨⟨getPackageID abspath, Base abspath, abspath, files, [], none⟩, ?_, rfl, rfl⟩
    rw [h2, h1.1]
    simp

/-- The statement of C3 at the directory `/proj/foo` of the sample project. -/
theorem getPackageID_fnv_witness :
    getPackageID "/proj/foo" = 3570341638
    ∧ FNV1a32 (bytes "/proj/foo") = 3570341638
    ∧ ∃ pkg, (initPackage Sample.env "/proj/foo" Sample.fresh).2.heap.get? 0 = some pkg
        ∧ pkg.RootDirectory = "/proj/foo"
        ∧ pkg.PackageID = getPackageID pkg.RootDirectory := by
  have h := getPackageID_fnv "/proj/foo"
  refine ⟨by decide, by decide, ?_⟩
  exact h.2.2 Sample.env Sample.fresh _ 0 none (by rfl)

/-- The error of `initPackage` in terms of its walk: `initPackage` always returns,
either a package and no error or no package and an error; it returns an error exactly
when the base name of the directory is not a valid package name or no path met by the
walk, subdirectories included, is added to `Files`; for an invalid
base name the error is the invalid-package-name message; and under a valid name the
file-level errors of the visited paths are what is appended to the log, in order. -/
theorem initPackage_error_walk (env : Env) (abspath : String) (w : World) :
    ((∃ ref, (initPackage env abspath w).1 = .ret (some ref, none))
      ∨ (∃ msg, (initPackage env abspath w).1 = .ret (none, some msg)))
    ∧ ((∃ msg, (initPackage env abspath w).1 = .ret (none, some msg)) ↔
        (isValidPkgName env.IsLetter env.IsDigit (bytes (Base abspath)) = .ret false
          ∨ ∀ v ∈ visits env.Join abspath (env.fs abspath), usableSource env v = false))
    ∧ (isValidPkgName env.IsLetter env.IsDigit (bytes (Base abspath)) = .ret false →
        (initPackage env abspath w).1
            = .ret (none, some ("Invalid package name: `" ++ Base abspath ++ "`"))
          ∧ (initPackage env abspath w).2.log = w.log)
    ∧ (isValidPkgName env.IsLetter env.IsDigit (bytes (Base abspath)) = .ret true →
        (initPackage env abspath w).2.log
          = w.log ++ (visits env.Join abspath (env.fs abspath)).flatMap (fileErrors env)) := by
  rcases initPackage_cases env abspath w with
    ⟨hv, h1⟩ | ⟨hv, hall, h1, _, _, _, _, _, _, hlog⟩ | ⟨hv, ⟨v, hvm, hus⟩, h1, _, _, _, _, _, _, hlog⟩
  · refine ⟨Or.inr ⟨_, by rw [h1]⟩, ⟨fun _ => Or.inl hv, fun _ => ⟨_, by rw [h1]⟩⟩, ?_, ?_⟩
    · intro _
      rw [h1]
      exact ⟨rfl, rfl⟩
    · intro hv1
      rw [hv] at hv1
      simp at hv1
  · refine ⟨Or.inr ⟨_, h1⟩, ⟨fun _ => Or.inr hall, fun _ => ⟨_, h1⟩⟩, ?_, fun _ => hlog⟩
    intro hv1
    rw [hv] at hv1
    simp at hv1
  · refine ⟨Or.inl ⟨_, h1⟩, ⟨?_, ?_⟩, ?_, fun _ => hlog⟩
    · rintro ⟨msg, hm⟩
      rw [h1] at hm
      simp at hm
    · rintro (hv1 | hall)
      · rw [hv] at hv1
        simp at hv1
      · rw [hall v hvm] at hus
        simp at hus
    · intro hv1
      rw [hv] at hv1
      simp at hv1

/-- On the sample project: `1bad` is refused with the
invalid-package-name message, and `foo` loads although `bad.wrl` does not parse, the
parse error being logged. -/
theorem initPackage_error_walk_sample :
    (initPackage Sample.env "/proj/1bad" Sample.fresh).1
        = .ret (none, some "Invalid package name: `1bad`")
    ∧ (initPackage Sample.env "/proj/1bad" Sample.fresh).2.log = []
    ∧ (initPackage Sample.env "/proj/foo" Sample.fresh).1 = .ret (some 0, none)
    ∧ (initPackage Sample.env "/proj/foo" Sample.fresh).2.log
        = [LogEntry.std "unexpected token"] := by
  have h1 := (initPackage_error_walk Sample.env "/proj/1bad" Sample.fresh).2.2.1 (by decide)
  have h2 := (initPackage_error_walk Sample.env "/proj/foo" Sample.fresh).2.2.2 (by decide)
  refine ⟨h1.1, h1.2, by rfl, ?_⟩
  rw [h2]
  decide

/-- C5: in a state whose graph holds no dangling pointer, `initPackage` changes the
dependency graph exactly when it succeeds; on success the returned pointer is a new
heap cell holding a package named after the base name with `abspath` as root
directory, the graph maps that package's `PackageID` to it and every other key is as
before; on failure graph and heap are as before the call. -/
theorem initPackage_registers (env : Env) (abspath : String) (w : World)
    (hwf : ∀ k ref, Map.get w.depGraph k = some ref → ref < w.heap.length) :
    ((∃ k, Map.get (initPackage env abspath w).2.depGraph k ≠ Map.get w.depGraph k) ↔
        ∃ ref, (initPackage env abspath w).1 = .ret (some ref, none))
    ∧ (∀ ref, (initPackage env abspath w).1 = .ret (some ref, none) →
        ∃ pkg, (initPackage env abspath w).2.heap = w.heap ++ [pkg]
          ∧ (initPackage env abspath w).2.heap.get? ref = some pkg
          ∧ pkg.Name = Base abspath ∧ pkg.RootDirectory = abspath
          ∧ Map.get (initPackage env abspath w).2.depGraph pkg.PackageID = some ref
          ∧ ∀ k, k ≠ pkg.PackageID →
              Map.get (initPackage env abspath w).2.depGraph k = Map.get w.depGraph k)
    ∧ (∀ msg, (initPackage env abspath w).1 = .ret (none, some msg) →
        (initPackage env abspath w).2.depGraph = w.depGraph
          ∧ (initPackage env abspath w).2.heap = w.heap) := by
  rcases initPackage_cases env abspath w with
    ⟨hv, h1⟩ | ⟨hv, hall, h1, hheap, hdg, _⟩ | ⟨hv, _, h1, ⟨files, _, hheap⟩, hdg, _⟩
  · rw [h1]
    refine ⟨⟨?_, ?_⟩, ?_, ?_⟩
    · rintro ⟨k, hk⟩
      exact absurd rfl hk
    · rintro ⟨ref, hr⟩
      simp at hr
    · intro ref hr
      simp at hr
    · intro msg _
      exact ⟨rfl, rfl⟩
  · rw [h1, hheap, hdg]
    refine ⟨⟨?_, ?_⟩, ?_, ?_⟩
    · rintro ⟨k, hk⟩
      exact absurd rfl hk
    · rintro ⟨ref, hr⟩
      simp at hr
    · intro ref hr
      simp at hr
    · intro msg _
      exact ⟨rfl, rfl⟩
  · rw [h1, hheap, hdg]
    refine ⟨⟨fun _ => ⟨_, rfl⟩, fun _ => ⟨getPackageID abspath, ?_⟩⟩, ?_, ?_⟩
    · rw [Map.get_set_self]
      intro hcon
      exact Nat.lt_irrefl _ (hwf _ _ hcon.symm)
    · intro ref hr
      simp only [Outcome.ret.injEq, Prod.mk.injEq, Option.some.injEq, and_true] at hr
      subst hr
      refine ⟨_, rfl, by simp, rfl, rfl, Map.get_set_self _ _ _, ?_⟩
      intro k hk
      exact Map.get_set_other _ _ _ _ hk
    · intro msg hm
      simp at hm

/-- The statement of C5 on the sample project: loading `foo` while `lib` is in the
graph registers `foo` under its `PackageID` at the new heap cell 1 and leaves the
entry of `lib` as it was; the refused directory `1bad` leaves the graph as it was. -/
theorem initPackage_registers_witness :
    Map.get (initPackage Sample.env "/proj/foo" Sample.withLib).2.depGraph
        (getPackageID "/proj/foo") = some 1
    ∧ Map.get (initPackage Sample.env "/proj/foo" Sample.withLib).2.depGraph
        (getPackageID "/proj/lib") = some 0
    ∧ (initPackage Sample.env "/proj/1bad" Sample.withLib).2.depGraph
        = Sample.withLib.depGraph := by
  have hwf : ∀ k ref, Map.get Sample.withLib.depGraph k = some ref →
      ref < Sample.withLib.heap.length := by
    intro k ref h
    simp only [Sample.withLib, Map.get] at h
    split at h
    · simp only [Option.some.injEq] at h
      subst h
      decide
    · simp at h
  have h := initPackage_registers Sample.env "/proj/foo" Sample.withLib hwf
  have hb := initPackage_registers Sample.env "/proj/1bad" Sample.withLib hwf
  obtain ⟨pkg, h1, h2, h3, h4, h5, h6⟩ := h.2.1 1 (by rfl)
  have hp : pkg.PackageID = getPackageID "/proj/foo" := by
    have : ((initPackage Sample.env "/proj/foo" Sample.withLib).2.heap.get? 1).map
        (fun q => q.PackageID) = some (getPackageID "/proj/foo") := by
      rfl
    rw [h2] at this
    simpa using this
  refine ⟨?_, ?_, (hb.2.2 _ (by rfl)).1⟩
  · rw [← hp]
    exact h5
  · rw [h6 _ (by rw [hp]; decide)]
    decide

/-! ### The first loop of `walkImport` -/

theorem walkImport.items_headerOnly (pre : List ASTNode) (hpre : headerOnly pre = true) :
    ∀ (rest : List ASTNode) (vars : ImportVars),
      ∃ pp rn, walkImport.items (pre ++ rest) vars
        = walkImport.items rest ⟨vars.importedSymbolNames, pp, rn⟩ := by
  induction pre with
  | nil =>
    intro rest vars
    exact ⟨vars.pkgpath, vars.rename, rfl⟩
  | cons n pre ih =>
    intro rest vars
    cases n with
    | Leaf k v p =>
      simp only [headerOnly, Bool.and_eq_true, bne_iff_ne, ne_eq] at hpre
      cases k with
      | IDENTIFIER =>
        obtain ⟨pp, rn, h⟩ := ih hpre.2 rest { vars with rename := v }
        exact ⟨pp, rn, by simpa [walkImport.items] using h⟩
      | ELLIPSIS => exact absurd rfl hpre.1
      | other c =>
        obtain ⟨pp, rn, h⟩ := ih hpre.2 rest vars
        exact ⟨pp, rn, by simpa [walkImport.items] using h⟩
    | Branch name content =>
      simp only [headerOnly, Bool.and_eq_true, beq_iff_eq] at hpre
      obtain ⟨⟨hn, hp⟩, hrest⟩ := hpre
      obtain ⟨path, hpath⟩ := Option.isSome_iff_exists.mp hp
      obtain ⟨pp, rn, h⟩ := ih hrest rest { vars with pkgpath := path }
      refine ⟨pp, rn, ?_⟩
      simp only [List.cons_append, walkImport.items, hn, if_true, hpath]
      exact h

theorem walkImport.idList_fresh (xs : List ASTNode) :
    ∀ (rest : List ASTNode) (names : List (String × TextPosition)),
      allLeaves xs = true → (identValues xs).Nodup →
      (∀ x ∈ identValues xs, Map.get names x = none) →
      ∃ names1, walkImport.idList (xs ++ rest) names = walkImport.idList rest names1
        ∧ ∀ k, (Map.get names1 k).isSome = true ↔
            ((Map.get names k).isSome = true ∨ k ∈ identValues xs) := by
  induction xs with
  | nil =>
    intro rest names _ _ _
    exact ⟨names, rfl, by simp [identValues]⟩
  | cons n xs ih =>
    intro rest names hl hnd hfresh
    cases n with
    | Branch name content => simp [allLeaves] at hl
    | Leaf k v p =>
      simp only [allLeaves] at hl
      by_cases hk : k = TokKind.IDENTIFIER
      · subst hk
        simp only [identValues, if_true, List.nodup_cons] at hnd
        simp only [identValues, if_true, List.mem_cons, forall_eq_or_imp] at hfresh
        have hfresh1 : ∀ x ∈ identValues xs, Map.get (Map.set names v p) x = none := by
          intro x hx
          have hne : x ≠ v := fun h => hnd.1 (h ▸ hx)
          rw [Map.get_set_other _ _ _ _ hne]
          exact hfresh.2 x hx
        obtain ⟨names1, h1, h2⟩ := ih rest (Map.set names v p) hl hnd.2 hfresh1
        refine ⟨names1, ?_, ?_⟩
        · simp only [List.cons_append, walkImport.idList, if_true, hfresh.1,
            Option.isSome_none, Bool.false_eq_true, if_false]
          exact h1
        · intro key
          rw [h2 key]
          simp only [identValues, if_true, List.mem_cons]
          by_cases hkv : key = v
          · subst hkv
            simp [Map.get_set_self]
          · rw [Map.get_set_other _ _ _ _ hkv]
            simp [hkv]
      · obtain ⟨names1, h1, h2⟩ := ih rest names hl
          (by simpa [identValues, hk] using hnd) (by simpa [identValues, hk] using hfresh)
        refine ⟨names1, ?_, ?_⟩
        · simp only [List.cons_append, walkImport.idList, hk, if_false]
          exact h1
        · intro key
          rw [h2 key]
          simp [identValues, hk]

theorem walkImport.items_duplicate (pre post xs zs : List ASTNode) (lname v : String)
    (p : TextPosition) (hpre : headerOnly pre = true) (hname : lname ≠ "package_name")
    (hxs : allLeaves xs = true) (hnodup : (identValues xs).Nodup) (hv : v ∈ identValues xs) :
    walkImport.items
        (pre ++ [.Branch lname (xs ++ [.Leaf .IDENTIFIER v p] ++ zs)] ++ post) ⟨[], "", ""⟩
      = .dup p := by
  rw [List.append_assoc]
  obtain ⟨pp, rn, h⟩ := walkImport.items_headerOnly pre hpre
    ([.Branch lname (xs ++ [.Leaf .IDENTIFIER v p] ++ zs)] ++ post) ⟨[], "", ""⟩
  rw [h]
  obtain ⟨names1, h1, h2⟩ := walkImport.idList_fresh xs ([.Leaf .IDENTIFIER v p] ++ zs) []
    hxs hnodup (by intro x _; rfl)
  have hsome : (Map.get names1 v).isSome = true := (h2 v).2 (Or.inr hv)
  simp only [List.cons_append, List.nil_append, walkImport.items, hname, if_false,
    List.append_assoc]
  simp only [List.append_assoc, List.cons_append, List.nil_append] at h1
  rw [h1]
  simp only [walkImport.idList, if_true, hsome]

/-- C6: on an import statement whose items before the identifier list name no symbol
and whose identifier list repeats an identifier `v` at position `p` (the identifiers
before it being pairwise distinct), `walkImport` returns false and the state
afterwards is the state before with exactly one error, `Unable to import a symbol
multiple times` at `p`, appended to the log: heap (local tables, import tables) and
graph are untouched, and the result does not depend on `Import`, which is not
called. -/
theorem walkImport_duplicate (env : Env)
    (imp : String → World → Outcome (Option Nat × Bool) × World) (currpkg : Nat)
    (stmt : String) (exported : Bool) (w : World) (pre post xs zs : List ASTNode)
    (lname v : String) (p : TextPosition)
    (hpre : headerOnly pre = true) (hname : lname ≠ "package_name")
    (hxs : allLeaves xs = true) (hnodup : (identValues xs).Nodup)
    (hv : v ∈ identValues xs) :
    walkImport env imp currpkg
        ⟨stmt, pre ++ [.Branch lname (xs ++ [.Leaf .IDENTIFIER v p] ++ zs)] ++ post⟩
        exported w
      = (.ret false,
          { w with
              calls := w.calls ++ [Call.walkImport currpkg],
              log := w.log
                ++ [LogEntry.whirl "Unable to import a symbol multiple times" "Import" p] }) := by
  have h := walkImport.items_duplicate pre post xs zs lname v p hpre hname hxs hnodup hv
  simp only [walkImport, h, World.logError]

/-- The statement of C6 on `import X, X from lib` in the sample project: one error at
the second `X`, nothing else changed, and `Import` (here a function that would
panic) not called. -/
theorem walkImport_duplicate_witness :
    walkImport Sample.env (fun _ w => (.panic, w)) 1 Sample.importXX false Sample.walking
      = (.ret false,
          { Sample.walking with
              calls := [Call.walkImport 1],
              log := [LogEntry.whirl "Unable to import a symbol multiple times" "Import"
                (Sample.posAt 1 11)] }) :=
  walkImport_duplicate Sample.env (fun _ w => (.panic, w)) 1 "import_stmt" false
    Sample.walking [.Leaf (.other 1) "import" (Sample.posAt 1 1)]
    [.Leaf (.other 2) "from" (Sample.posAt 1 13),
     .Branch "package_name" [.Leaf .IDENTIFIER "lib" (Sample.posAt 1 18)]]
    [.Leaf .IDENTIFIER "X" (Sample.posAt 1 8), .Leaf (.other 3) "," (Sample.posAt 1 9)] []
    "identifier_list" "X" (Sample.posAt 1 11)
    (by decide) (by decide) (by decide) (by decide) (by decide)

/-! ### Maps under `range` -/

theorem Map.get_eq_none_iff {κ α : Type} [DecidableEq κ] (m : List (κ × α)) (k : κ) :
    Map.get m k = none ↔ k ∉ Map.keys m := by
  induction m with
  | nil => simp [Map.get, Map.keys]
  | cons e rest ih =>
    obtain ⟨k0, v0⟩ := e
    by_cases h : k0 = k
    · simp [Map.get, Map.keys, h]
    · have h1 : ¬ k = k0 := fun hh => h hh.symm
      simp only [Map.get, h, if_false, ih, Map.keys, List.map_cons, List.mem_cons, h1, false_or]

theorem Map.get_eq_some_iff {κ α : Type} [DecidableEq κ] (m : List (κ × α))
    (hnd : (Map.keys m).Nodup) (k : κ) (v : α) :
    Map.get m k = some v ↔ (k, v) ∈ m := by
  induction m with
  | nil => simp [Map.get]
  | cons e rest ih =>
    obtain ⟨k0, v0⟩ := e
    simp only [Map.keys, List.map_cons, List.nodup_cons] at hnd
    by_cases h : k0 = k
    · subst h
      have hnot : ∀ v1, (k0, v1) ∉ rest := by
        intro v1 hmem
        exact hnd.1 (List.mem_map_of_mem Prod.fst hmem)
      simp only [Map.get, if_true, Option.some.injEq, List.mem_cons, Prod.mk.injEq, true_and,
        hnot, or_false]
      exact eq_comm
    · have h1 : ¬ k = k0 := fun hh => h hh.symm
      simp only [Map.get, h, if_false, List.mem_cons, Prod.mk.injEq, h1, false_and, false_or]
      exact ih hnd.2

theorem Map.get_perm {κ α : Type} [DecidableEq κ] (l1 l2 : List (κ × α)) (hp : l1.Perm l2)
    (hnd : (Map.keys l2).Nodup) (k : κ) : Map.get l1 k = Map.get l2 k := by
  have hnd1 : (Map.keys l1).Nodup := (hp.map Prod.fst).nodup_iff.mpr hnd
  cases h2 : Map.get l2 k with
  | none =>
    rw [Map.get_eq_none_iff] at h2 ⊢
    intro hmem
    exact h2 ((hp.map Prod.fst).mem_iff.mp hmem)
  | some v =>
    rw [Map.get_eq_some_iff _ hnd] at h2
    rw [Map.get_eq_some_iff _ hnd1]
    exact hp.mem_iff.mpr h2

theorem Map.keys_set_nodup {κ α : Type} [DecidableEq κ] (m : List (κ × α)) (k : κ) (v : α)
    (hnd : (Map.keys m).Nodup) : (Map.keys (Map.set m k v)).Nodup := by
  induction m with
  | nil => simp [Map.set, Map.keys]
  | cons e rest ih =>
    obtain ⟨k0, v0⟩ := e
    simp only [Map.keys, List.map_cons, List.nodup_cons] at hnd
    by_cases h : k0 = k
    · simp only [Map.set, h, if_true, Map.keys, List.map_cons, List.nodup_cons]
      exact ⟨h ▸ hnd.1, hnd.2⟩
    · simp only [Map.set, h, if_false, Map.keys, List.map_cons, List.nodup_cons]
      refine ⟨?_, ih hnd.2⟩
      intro hmem
      have hk : Map.get (Map.set rest k v) k0 ≠ none := by
        rw [Ne, Map.get_eq_none_iff]
        exact fun hh => hh hmem
      rw [Map.get_set_other _ _ _ _ h] at hk
      rw [Ne, Map.get_eq_none_iff] at hk
      exact hk hnd.1

theorem walkImport.insertAll_get (syms : List (String × Symbol)) :
    ∀ (table : List (String × Symbol)) (k : String), (Map.keys syms).Nodup →
      Map.get (walkImport.insertAll table syms) k
        = match Map.get syms k with
          | some v => some v
          | none => Map.get table k := by
  induction syms with
  | nil => intro table k _; simp [walkImport.insertAll, Map.get]
  | cons e rest ih =>
    intro table k hnd
    obtain ⟨k0, v0⟩ := e
    simp only [Map.keys, List.map_cons, List.nodup_cons] at hnd
    have hstep : walkImport.insertAll table ((k0, v0) :: rest)
        = walkImport.insertAll (Map.set table k0 v0) rest := rfl
    rw [hstep, ih (Map.set table k0 v0) k hnd.2]
    by_cases h : k0 = k
    · subst h
      have hnone : Map.get rest k0 = none := (Map.get_eq_none_iff rest k0).2 hnd.1
      simp [Map.get, hnone, Map.get_set_self]
    · have h1 : k ≠ k0 := fun hh => h hh.symm
      simp only [Map.get, h, if_false]
      cases Map.get rest k with
      | none => simp [Map.get_set_other _ _ _ _ h1]
      | some v => rfl

/-! ### The symbol loop of `walkImport` -/

theorem walkImport.lookupSymbols_internal (exported : Bool) (GT : List (String × Symbol)) :
    ∀ (L : List (String × TextPosition)) (acc : List (String × Symbol)),
      (∃ e ∈ L, ∃ s, Map.get GT e.1 = some s ∧ s.VisibleExternally = false) →
      ∃ e ∈ L, (∃ s, Map.get GT e.1 = some s ∧ s.VisibleExternally = false)
        ∧ walkImport.lookupSymbols exported GT L acc = .error e.2 := by
  intro L
  induction L with
  | nil => intro acc h; simp at h
  | cons hd rest ih =>
    intro acc h
    obtain ⟨n, p⟩ := hd
    cases hg : Map.get GT n with
    | none =>
      obtain ⟨e, he, s, hs, hvis⟩ := h
      have hrest : e ∈ rest := by
        rcases List.mem_cons.mp he with heq | hr
        · subst heq
          simp only [] at hs
          rw [hg] at hs
          simp at hs
        · exact hr
      obtain ⟨e1, he1, hint, hres⟩ := ih acc ⟨e, hrest, s, hs, hvis⟩
      exact ⟨e1, List.mem_cons_of_mem _ he1, hint, by simpa [walkImport.lookupSymbols, hg] using hres⟩
    | some s0 =>
      by_cases hv0 : s0.VisibleExternally = true
      · obtain ⟨e, he, s, hs, hvis⟩ := h
        have hrest : e ∈ rest := by
          rcases List.mem_cons.mp he with heq | hr
          · subst heq
            simp only [] at hs
            rw [hg] at hs
            simp only [Option.some.injEq] at hs
            subst hs
            rw [hv0] at hvis
            simp at hvis
          · exact hr
        obtain ⟨e1, he1, hint, hres⟩ :=
          ih (Map.set acc n (s0.Import exported)) ⟨e, hrest, s, hs, hvis⟩
        exact ⟨e1, List.mem_cons_of_mem _ he1, hint,
          by simpa [walkImport.lookupSymbols, hg, hv0] using hres⟩
      · have hv1 : s0.VisibleExternally = false := by simpa using hv0
        exact ⟨(n, p), List.mem_cons_self _ _, ⟨s0, hg, hv1⟩,
          by simp [walkImport.lookupSymbols, hg, hv1]⟩

theorem walkImport.lookupSymbols_ok (exported : Bool) (GT : List (String × Symbol)) :
    ∀ (L : List (String × TextPosition)) (acc : List (String × Symbol)),
      (∀ e ∈ L, ∀ s, Map.get GT e.1 = some s → s.VisibleExternally = true) →
      (Map.keys acc).Nodup →
      ∃ res, walkImport.lookupSymbols exported GT L acc = .ok res
        ∧ (Map.keys res).Nodup
        ∧ ∀ k, Map.get res k
            = match (if k ∈ Map.keys L then Map.get GT k else none) with
              | some s => some (s.Import exported)
              | none => Map.get acc k := by
  intro L
  induction L with
  | nil =>
    intro acc _ hnd
    exact ⟨acc, rfl, hnd, by simp [Map.keys]⟩
  | cons hd rest ih =>
    intro acc hvis hnd
    obtain ⟨n, p⟩ := hd
    have hvis1 : ∀ e ∈ rest, ∀ s, Map.get GT e.1 = some s → s.VisibleExternally = true :=
      fun e he => hvis e (List.mem_cons_of_mem _ he)
    cases hg : Map.get GT n with
    | none =>
      obtain ⟨res, h1, h2, h3⟩ := ih acc hvis1 hnd
      refine ⟨res, by simpa [walkImport.lookupSymbols, hg] using h1, h2, ?_⟩
      intro k
      rw [h3 k]
      by_cases hk : k = n
      · subst hk
        simp [Map.keys, hg]
      · simp only [Map.keys, List.map_cons, List.mem_cons, hk, false_or]
    | some s0 =>
      have hv0 : s0.VisibleExternally = true := hvis (n, p) (List.mem_cons_self _ _) s0 hg
      obtain ⟨res, h1, h2, h3⟩ :=
        ih (Map.set acc n (s0.Import exported)) hvis1 (Map.keys_set_nodup _ _ _ hnd)
      refine ⟨res, by simpa [walkImport.lookupSymbols, hg, hv0] using h1, h2, ?_⟩
      intro k
      rw [h3 k]
      by_cases hk : k = n
      · subst hk
        have hR : k ∈ Map.keys ((k, p) :: rest) := by simp [Map.keys]
        rw [if_pos hR, hg]
        by_cases hmem : k ∈ Map.keys rest
        · rw [if_pos hmem]
        · rw [if_neg hmem]
          simp only [Map.get_set_self]
      · simp only [Map.keys, List.map_cons, List.mem_cons, hk, false_or]
        rw [Map.get_set_other _ _ _ _ hk]

/-- C7: when the statement scans to the names `vars.importedSymbolNames`, the import of
its package succeeds, and some listed name is in the global table of the imported
package without being externally visible, then `walkImport` returns false and the state
afterwards is the state `Import` left with exactly one error appended,
`Unable to import an internal symbol` at the position of a listed internal symbol (of
the one there is, when there is one): no local table and no import table is written. The
order in which the names are enumerated is any permutation. -/
theorem walkImport_internal (env : Env)
    (imp : String → World → Outcome (Option Nat × Bool) × World) (currpkg : Nat)
    (node : ASTBranch) (exported : Bool) (w w1 : World) (vars : ImportVars) (ref : Nat)
    (target cp0 cp : WhirlPackage)
    (hitems : walkImport.items node.Content ⟨[], "", ""⟩ = .done vars)
    (hcur : w.heap.get? currpkg = some cp0)
    (himp : imp vars.pkgpath { w with calls := w.calls ++ [Call.walkImport currpkg] }
      = (.ret (some ref, true), w1))
    (htarget : w1.heap.get? ref = some target)
    (hcp : w1.heap.get? currpkg = some cp)
    (hperm : (env.rangeNames vars.importedSymbolNames).Perm vars.importedSymbolNames)
    (hint : ∃ e ∈ vars.importedSymbolNames,
      ∃ s, Map.get target.GlobalTable e.1 = some s ∧ s.VisibleExternally = false) :
    ∃ e ∈ vars.importedSymbolNames,
      (∃ s, Map.get target.GlobalTable e.1 = some s ∧ s.VisibleExternally = false)
      ∧ walkImport env imp currpkg node exported w
          = (.ret false,
              { w1 with log := w1.log
                  ++ [LogEntry.whirl "Unable to import an internal symbol" "Import" e.2] }) := by
  obtain ⟨e0, he0, s0, hs0, hv0⟩ := hint
  have hlen : vars.importedSymbolNames.length > 0 := List.length_pos_of_mem he0
  obtain ⟨e, he, hint1, hres⟩ :=
    walkImport.lookupSymbols_internal exported target.GlobalTable
      (env.rangeNames vars.importedSymbolNames) []
      ⟨e0, hperm.mem_iff.mpr he0, s0, hs0, hv0⟩
  refine ⟨e, hperm.mem_iff.mp he, hint1, ?_⟩
  simp only [walkImport, hitems, hcur, himp, hlen, if_true, Option.bind, htarget, hcp, hres,
    World.logError]

/-- The statement of C7 on `import X, Y from lib` in the sample project, where `Y` is
internal to `lib`: one error at `Y`, and `X`, listed beside it, is not inserted. -/
theorem walkImport_internal_witness :
    (∃ e ∈ [("X", Sample.posAt 1 8), ("Y", Sample.posAt 1 11)],
      (∃ s, Map.get Sample.lib.GlobalTable e.1 = some s ∧ s.VisibleExternally = false)
      ∧ walkImport Sample.env (Import 1 Sample.env) 1 Sample.importXY false Sample.walking
          = (.ret false,
              { Sample.walking with
                  calls := [Call.walkImport 1, Call.Import "lib"],
                  log := [] ++ [LogEntry.whirl "Unable to import an internal symbol" "Import"
                    e.2] }))
    ∧ (walkImport Sample.env (Import 1 Sample.env) 1 Sample.importXY false Sample.walking).2.log
        = [LogEntry.whirl "Unable to import an internal symbol" "Import" (Sample.posAt 1 11)]
    ∧ ((walkImport Sample.env (Import 1 Sample.env) 1 Sample.importXY false
          Sample.walking).2.heap.get? 1).map (fun q => (q.ImportTable, q.Files.map
            (fun f => f.2.LocalTable))) = some (some [], [some []]) :=
  ⟨walkImport_internal Sample.env (Import 1 Sample.env) 1 Sample.importXY false
      Sample.walking
      { Sample.walking with calls := [Call.walkImport 1, Call.Import "lib"] }
      ⟨[("X", Sample.posAt 1 8), ("Y", Sample.posAt 1 11)], "lib", ""⟩ 0
      Sample.lib Sample.app Sample.app (by rfl) (by rfl) (by rfl) (by rfl) (by rfl)
      (List.Perm.refl _) ⟨("Y", Sample.posAt 1 11), by simp, _, by rfl, by rfl⟩,
    by rfl, by rfl⟩

/-- On allocated tables: when the import table of the current package and the local
table of the current file are allocated, the statement scans to a non-empty list of
names, the import of its package succeeds and every listed name is in the global table
of the imported package and externally visible, then `walkImport` returns, and
afterwards the local table of
the current file and the `ImportedSymbols` of the import-table entry of the imported
package both hold, under each listed name, the clone `Import(exported)` of the symbol
of the imported package, whose status is `Remote`; every other name of these two
tables, every other import-table entry, every other file and every other package are
as `Import` left them, and nothing is logged. The enumeration orders are any
permutations. -/
theorem walkImport_allocated_tables (env : Env)
    (imp : String → World → Outcome (Option Nat × Bool) × World) (currpkg : Nat)
    (node : ASTBranch) (exported : Bool) (w w1 : World) (vars : ImportVars) (ref : Nat)
    (target cp0 cp : WhirlPackage) (wf : WhirlFile)
    (table : List (Nat × WhirlImport)) (lt : List (String × Symbol))
    (hitems : walkImport.items node.Content ⟨[], "", ""⟩ = .done vars)
    (hnames : vars.importedSymbolNames ≠ [])
    (hcur : w.heap.get? currpkg = some cp0)
    (himp : imp vars.pkgpath { w with calls := w.calls ++ [Call.walkImport currpkg] }
      = (.ret (some ref, true), w1))
    (htarget : w1.heap.get? ref = some target)
    (hcp : w1.heap.get? currpkg = some cp)
    (hfile : Map.get cp.Files w.CurrentFile = some wf)
    (htable : cp.ImportTable = some table)
    (hlocal : wf.LocalTable = some lt)
    (hpermN : (env.rangeNames vars.importedSymbolNames).Perm vars.importedSymbolNames)
    (hpermS : ∀ l, (env.rangeSyms l).Perm l)
    (hvis : ∀ e ∈ vars.importedSymbolNames,
      ∃ s, Map.get target.GlobalTable e.1 = some s ∧ s.VisibleExternally = true) :
    ∃ b w2 cp2 wf2 wi2,
      walkImport env imp currpkg node exported w = (.ret b, w2)
      ∧ w2.heap.get? currpkg = some cp2
      ∧ Map.get cp2.Files w.CurrentFile = some wf2
      ∧ Map.read cp2.ImportTable target.PackageID = some wi2
      ∧ (∀ e ∈ vars.importedSymbolNames, ∀ s, Map.get target.GlobalTable e.1 = some s →
          Map.read wf2.LocalTable e.1 = some (s.Import exported)
          ∧ Map.get wi2.ImportedSymbols e.1 = some (s.Import exported)
          ∧ (s.Import exported).DeclStatus = DeclStatus.Remote)
      ∧ (∀ k, k ∉ Map.keys vars.importedSymbolNames →
          Map.read wf2.LocalTable k = Map.get lt k
          ∧ Map.get wi2.ImportedSymbols k
              = match Map.get table target.PackageID with
                | some wi => Map.get wi.ImportedSymbols k
                | none => none)
      ∧ (∀ id, id ≠ target.PackageID → Map.read cp2.ImportTable id = Map.get table id)
      ∧ (∀ f, f ≠ w.CurrentFile → Map.get cp2.Files f = Map.get cp.Files f)
      ∧ (∀ r, r ≠ currpkg → w2.heap.get? r = w1.heap.get? r)
      ∧ w2.log = w1.log := by
  have hlen : vars.importedSymbolNames.length > 0 := List.length_pos.mpr hnames
  -- the symbol loop succeeds
  have hall : ∀ e ∈ env.rangeNames vars.importedSymbolNames,
      ∀ s, Map.get target.GlobalTable e.1 = some s → s.VisibleExternally = true := by
    intro e he s hs
    obtain ⟨s1, hs1, hv1⟩ := hvis e (hpermN.mem_iff.mp he)
    rw [hs1] at hs
    simp only [Option.some.injEq] at hs
    exact hs ▸ hv1
  obtain ⟨res, hres, hnd, hget⟩ :=
    walkImport.lookupSymbols_ok exported target.GlobalTable
      (env.rangeNames vars.importedSymbolNames) [] hall (by simp [Map.keys])
  have hkeys : ∀ k, k ∈ Map.keys (env.rangeNames vars.importedSymbolNames)
      ↔ k ∈ Map.keys vars.importedSymbolNames :=
    fun k => (hpermN.map Prod.fst).mem_iff
  have hin : ∀ e ∈ vars.importedSymbolNames, ∀ s, Map.get target.GlobalTable e.1 = some s →
      Map.get res e.1 = some (s.Import exported) := by
    intro e he s hs
    have hk : e.1 ∈ Map.keys (env.rangeNames vars.importedSymbolNames) :=
      (hkeys e.1).2 (List.mem_map_of_mem Prod.fst he)
    rw [hget e.1, if_pos hk, hs]
  have hout : ∀ k, k ∉ Map.keys vars.importedSymbolNames → Map.get res k = none := by
    intro k hk
    have hk1 : k ∉ Map.keys (env.rangeNames vars.importedSymbolNames) :=
      fun h => hk ((hkeys k).1 h)
    rw [hget k, if_neg hk1]
    rfl
  have hreslen : ¬ res.length = 0 := by
    obtain ⟨e, he⟩ := List.exists_mem_of_ne_nil _ hnames
    obtain ⟨s, hs, _⟩ := hvis e he
    have := hin e he s hs
    intro h0
    rw [List.length_eq_zero.mp h0] at this
    simp [Map.get] at this
  -- the enumeration of the clones
  have hgetS : ∀ k, Map.get (env.rangeSyms res) k = Map.get res k :=
    fun k => Map.get_perm _ _ (hpermS res) hnd k
  have hndS : (Map.keys (env.rangeSyms res)).Nodup :=
    ((hpermS res).map Prod.fst).nodup_iff.mpr hnd
  have hins : ∀ table k, Map.get (walkImport.insertAll table (env.rangeSyms res)) k
      = match Map.get res k with
        | some v => some v
        | none => Map.get table k := by
    intro table k
    rw [walkImport.insertAll_get _ _ _ hndS, hgetS]
  have hlt : currpkg < w1.heap.length := by
    rcases Nat.lt_or_ge currpkg w1.heap.length with h | h
    · exact h
    · rw [List.get?_eq_none.mpr h] at hcp
      simp at hcp
  have hremote : ∀ s : Symbol, (s.Import exported).DeclStatus = DeclStatus.Remote :=
    fun _ => rfl
  cases hIT : Map.get table target.PackageID with
  | none =>
    refine ⟨false,
      w1.setPkg currpkg
        { cp with
            ImportTable := some (Map.set table target.PackageID ⟨ref, res⟩),
            Files := Map.set cp.Files w.CurrentFile
              { wf with
                  LocalTable := some (walkImport.insertAll lt (env.rangeSyms res)) } },
      { cp with
          ImportTable := some (Map.set table target.PackageID ⟨ref, res⟩),
          Files := Map.set cp.Files w.CurrentFile
            { wf with
                LocalTable := some (walkImport.insertAll lt (env.rangeSyms res)) } },
      { wf with LocalTable := some (walkImport.insertAll lt (env.rangeSyms res)) },
      ⟨ref, res⟩, ?_, ?_, ?_, ?_, ?_, ?_, ?_, ?_, ?_, ?_⟩
    · simp only [walkImport, hitems, hcur, himp, hlen, if_true, Option.bind, htarget, hcp,
        hres, htable, hIT, hreslen, if_false, hfile, hlocal]
    · simp [World.setPkg, hlt]
    · simp only [Map.get_set_self]
    · simp only [Map.read, Map.get_set_self]
    · intro e he s hs
      refine ⟨?_, hin e he s hs, hremote s⟩
      simp only [Map.read, hins, hin e he s hs]
    · intro k hk
      refine ⟨?_, hout k hk⟩
      simp only [Map.read, hins, hout k hk]
    · intro id hid
      exact Map.get_set_other _ _ _ _ hid
    · intro f hf
      exact Map.get_set_other _ _ _ _ hf
    · intro r hr
      have : ¬ currpkg = r := fun h => hr h.symm
      simp [World.setPkg, List.getElem?_set, this]
    · rfl
  | some wi =>
    refine ⟨false,
      w1.setPkg currpkg
        { cp with
            ImportTable := some (Map.set table target.PackageID
              { wi with ImportedSymbols :=
                  walkImport.insertAll wi.ImportedSymbols (env.rangeSyms res) }),
            Files := Map.set cp.Files w.CurrentFile
              { wf with
                  LocalTable := some (walkImport.insertAll lt (env.rangeSyms res)) } },
      { cp with
          ImportTable := some (Map.set table target.PackageID
            { wi with ImportedSymbols :=
                walkImport.insertAll wi.ImportedSymbols (env.rangeSyms res) }),
          Files := Map.set cp.Files w.CurrentFile
            { wf with
                LocalTable := some (walkImport.insertAll lt (env.rangeSyms res)) } },
      { wf with LocalTable := some (walkImport.insertAll lt (env.rangeSyms res)) },
      { wi with ImportedSymbols :=
          walkImport.insertAll wi.ImportedSymbols (env.rangeSyms res) },
      ?_, ?_, ?_, ?_, ?_, ?_, ?_, ?_, ?_, ?_⟩
    · simp only [walkImport, hitems, hcur, himp, hlen, if_true, Option.bind, htarget, hcp,
        hres, htable, hIT, hreslen, if_false, hfile, hlocal]
    · simp [World.setPkg, hlt]
    · simp only [Map.get_set_self]
    · simp only [Map.read, Map.get_set_self]
    · intro e he s hs
      refine ⟨?_, ?_, hremote s⟩
      · simp only [Map.read, hins, hin e he s hs]
      · simp only [Map.read, hins, hin e he s hs]
    · intro k hk
      refine ⟨?_, ?_⟩
      · simp only [Map.read, hins, hout k hk]
      · simp only [Map.read, hins, hout k hk]
    · intro id hid
      exact Map.get_set_other _ _ _ _ hid
    · intro f hf
      exact Map.get_set_other _ _ _ _ hf
    · intro r hr
      have : ¬ currpkg = r := fun h => hr h.symm
      simp [World.setPkg, List.getElem?_set, this]
    · rfl

/-- On `export import X from lib` in the sample project, with allocated tables: the local
table of `m.wrl` and the import-table entry for `lib` hold the `Remote` clone of
`X`. -/
theorem walkImport_allocated_tables_sample :
    (∃ b w2 cp2 wf2 wi2,
      walkImport Sample.env (Import 1 Sample.env) 1 Sample.importX true Sample.walking
        = (.ret b, w2)
      ∧ w2.heap.get? 1 = some cp2
      ∧ Map.get cp2.Files "/proj/app/m.wrl" = some wf2
      ∧ Map.read cp2.ImportTable Sample.lib.PackageID = some wi2
      ∧ Map.read wf2.LocalTable "X"
          = some ⟨"X", .TypeDef, .Remote, Sample.posAt 3 1, true⟩
      ∧ Map.get wi2.ImportedSymbols "X"
          = some ⟨"X", .TypeDef, .Remote, Sample.posAt 3 1, true⟩
      ∧ Map.read wf2.LocalTable "Y" = none)
    ∧ ((walkImport Sample.env (Import 1 Sample.env) 1 Sample.importX true
          Sample.walking).2.heap.get? 1).map (fun q => q.Files.map (fun f => f.2.LocalTable))
        = some [some [("X", ⟨"X", .TypeDef, .Remote, Sample.posAt 3 1, true⟩)]] := by
  refine ⟨?_, by rfl⟩
  obtain ⟨b, w2, cp2, wf2, wi2, h1, h2, h3, h4, h5, h6, _⟩ :=
    walkImport_allocated_tables Sample.env (Import 1 Sample.env) 1 Sample.importX true
      Sample.walking
      { Sample.walking with calls := [Call.walkImport 1, Call.Import "lib"] }
      ⟨[("X", Sample.posAt 1 8)], "lib", ""⟩ 0 Sample.lib Sample.app Sample.app
      ⟨some Sample.mainFile, [], some []⟩ [] []
      (by rfl) (by simp) (by rfl) (by rfl) (by rfl) (by rfl) (by rfl) (by rfl) (by rfl)
      (List.Perm.refl _) (fun l => List.Perm.refl l)
      (by
        intro e he
        simp only [List.mem_singleton] at he
        subst he
        exact ⟨⟨"X", .TypeDef, .Exported, Sample.posAt 3 1, false⟩, by rfl, by rfl⟩)
  have hX := h5 ("X", Sample.posAt 1 8) (by simp)
    ⟨"X", .TypeDef, .Exported, Sample.posAt 3 1, false⟩ (by rfl)
  have hY := (h6 "Y" (by decide)).1
  exact ⟨b, w2, cp2, wf2, wi2, h1, h2, h3, h4, hX.1, hX.2.1, hY⟩

/-! ### `Import` -/

theorem Import_graph_hit (fuel : Nat) (env : Env) (pkgpath : String) (w : World) (pkg : Nat)
    (h : Map.get w.DepGraph pkgpath = some pkg) :
    Import (fuel + 1) env pkgpath w
      = (.ret (some pkg, true), { w with calls := w.calls ++ [Call.Import pkgpath] }) := by
  simp only [Import, h]

theorem walkImport_ne_true (env : Env)
    (imp : String → World → Outcome (Option Nat × Bool) × World) (currpkg : Nat)
    (node : ASTBranch) (exported : Bool) (w : World) :
    (walkImport env imp currpkg node exported w).1 ≠ .ret true := by
  unfold walkImport
  simp only []
  repeat' split
  all_goals simp

theorem Import_restores_CurrentPackage (fuel : Nat) (env : Env) (pkgpath : String) (w : World) :
    (Import fuel env pkgpath w).2.CurrentPackage = w.CurrentPackage := by
  cases fuel with
  | zero => rfl
  | succ fuel =>
    have hinit : (initPackage env (env.Join env.RootPackagePath pkgpath)
        { w with calls := w.calls ++ [Call.Import pkgpath] }).2.CurrentPackage
          = w.CurrentPackage := by
      rcases initPackage_cases env (env.Join env.RootPackagePath pkgpath)
          { w with calls := w.calls ++ [Call.Import pkgpath] } with
        ⟨_, h1⟩ | ⟨_, _, _, _, _, _, h, _⟩ | ⟨_, _, _, _, _, _, h, _⟩
      · rw [h1]
      · exact h
      · exact h
    simp only [Import]
    split
    · rfl
    · generalize initPackage env (env.Join env.RootPackagePath pkgpath)
        { w with calls := w.calls ++ [Call.Import pkgpath] } = r at hinit
      obtain ⟨o, w1⟩ := r
      simp only [] at hinit
      cases o with
      | panic => exact hinit
      | outOfFuel => exact hinit
      | ret a =>
        obtain ⟨pkg, err⟩ := a
        simp only []
        split
        · exact hinit
        · exact hinit

theorem Import_panics_on_error (fuel : Nat) (env : Env) (pkgpath : String) (w w1 : World)
    (err : Option String) (hg : Map.get w.DepGraph pkgpath = none)
    (hinit : initPackage env (env.Join env.RootPackagePath pkgpath)
        { w with calls := w.calls ++ [Call.Import pkgpath] } = (.ret (none, err), w1)) :
    Import (fuel + 1) env pkgpath w = (.panic, w1) := by
  simp only [Import, hg, hinit, Option.bind]

/-! ### `DepGraph` is never written -/

theorem walkImport_DepGraph (env : Env)
    (imp : String → World → Outcome (Option Nat × Bool) × World)
    (himp : ∀ p w, (imp p w).2.DepGraph = w.DepGraph) (currpkg : Nat)
    (node : ASTBranch) (exported : Bool) (w : World) :
    (walkImport env imp currpkg node exported w).2.DepGraph = w.DepGraph := by
  unfold walkImport
  simp only []
  split
  · rfl
  · rfl
  · split
    · rfl
    · split <;> rename_i heq <;>
        have h2 := congrArg (fun x => x.2.DepGraph) heq <;>
        simp only [himp] at h2
      · exact h2.symm
      · exact h2.symm
      · exact h2.symm
      · split
        · split
          · split
            · exact h2.symm
            · split
              · exact h2.symm
              · split
                · exact h2.symm
                · split
                  · exact h2.symm
                  · split <;> exact h2.symm
          · exact h2.symm
        · exact h2.symm

theorem collectImports.nodes_DepGraph (env : Env)
    (imp : String → World → Outcome (Option Nat × Bool) × World)
    (himp : ∀ p w, (imp p w).2.DepGraph = w.DepGraph) (pkg : Nat) :
    ∀ (nodes : List ASTNode) (all : Bool) (w : World),
      (collectImports.nodes env imp pkg nodes all w).2.DepGraph = w.DepGraph := by
  intro nodes
  induction nodes with
  | nil => intro all w; rfl
  | cons node rest ih =>
    intro all w
    have hw := walkImport_DepGraph env imp himp pkg
    simp only [collectImports.nodes]
    split
    · rfl
    · rename_i branch _
      split
      · split
        · have h1 := hw branch false w
          split <;> rename_i heq <;> rw [heq] at h1 <;> simp only [] at h1
          · rw [ih, h1]
          · exact h1
          · exact h1
        · exact ih _ _
      · split
        · split
          · split
            · rfl
            · rename_i inner _
              have h1 := hw inner true w
              split <;> rename_i heq <;> rw [heq] at h1 <;> simp only [] at h1
              · rw [ih, h1]
              · exact h1
              · exact h1
          · exact ih _ _
        · split
          · rfl
          · exact ih _ _

theorem collectImports.files_DepGraph (env : Env)
    (imp : String → World → Outcome (Option Nat × Bool) × World)
    (himp : ∀ p w, (imp p w).2.DepGraph = w.DepGraph) (pkg : Nat) :
    ∀ (files : List (String × WhirlFile)) (all : Bool) (w : World),
      (collectImports.files env imp pkg files all w).2.DepGraph = w.DepGraph := by
  intro files
  induction files with
  | nil => intro all w; rfl
  | cons f rest ih =>
    intro all w
    obtain ⟨fpath, wf⟩ := f
    simp only [collectImports.files]
    split
    · rfl
    · rename_i ast _
      have h1 := collectImports.nodes_DepGraph env imp himp pkg ast.Content all
        { w with CurrentFile := fpath }
      split <;> rename_i heq <;> rw [heq] at h1 <;> simp only [] at h1
      · rw [ih, h1]
      · exact h1
      · exact h1

theorem collectImports_DepGraph (env : Env)
    (imp : String → World → Outcome (Option Nat × Bool) × World)
    (himp : ∀ p w, (imp p w).2.DepGraph = w.DepGraph) (pkg : Nat) (w : World) :
    (collectImports env imp pkg w).2.DepGraph = w.DepGraph := by
  unfold collectImports
  simp only []
  split
  · rfl
  · rw [collectImports.files_DepGraph env imp himp]

theorem initPackage_DepGraph (env : Env) (abspath : String) (w : World) :
    (initPackage env abspath w).2.DepGraph = w.DepGraph := by
  rcases initPackage_cases env abspath w with
    ⟨_, h1⟩ | ⟨_, _, _, _, _, h, _⟩ | ⟨_, _, _, _, _, h, _⟩
  · rw [h1]
  · exact h
  · exact h

theorem Import_DepGraph (fuel : Nat) (env : Env) :
    ∀ (pkgpath : String) (w : World), (Import fuel env pkgpath w).2.DepGraph = w.DepGraph := by
  induction fuel with
  | zero => intro pkgpath w; rfl
  | succ fuel ih =>
    intro pkgpath w
    have hinit := initPackage_DepGraph env (env.Join env.RootPackagePath pkgpath)
      { w with calls := w.calls ++ [Call.Import pkgpath] }
    simp only [Import]
    split
    · rfl
    · generalize initPackage env (env.Join env.RootPackagePath pkgpath)
        { w with calls := w.calls ++ [Call.Import pkgpath] } = r at hinit
      obtain ⟨o, w1⟩ := r
      simp only [] at hinit
      cases o with
      | panic => exact hinit
      | outOfFuel => exact hinit
      | ret a =>
        obtain ⟨pkg, err⟩ := a
        simp only []
        split
        · simp only []
          split
          · exact hinit
          · split
            · have h1 := collectImports_DepGraph env (Import fuel env) ih
              split <;> rename_i heq <;>
                have h2 := congrArg (fun x => x.2.DepGraph) heq <;>
                simp only [h1] at h2
              · rw [← hinit]; exact h2.symm
              · rw [← hinit]; exact h2.symm
              · rw [← hinit]; exact h2.symm
              · rw [← hinit]; exact h2.symm
            · exact hinit
        · exact hinit

/-- C1: no call of `Import` changes `DepGraph`, the map it looks the path up in; and,
evaluated on the sample project: the first `Import("core")` succeeds and returns the
package at heap cell 0, `DepGraph` is still empty afterwards, so the second
`Import("core")` runs `initPackage`, `collectImports` and `walkPackage` again and
returns another package, at heap cell 1, to which the entry of the `PackageID` in the
graph of `initPackage` now points. -/
theorem Import_twice_reloads :
    (∀ (fuel : Nat) (env : Env) (pkgpath : String) (w : World),
      (Import fuel env pkgpath w).2.DepGraph = w.DepGraph)
    ∧ (Import 1 Sample.env "core" Sample.fresh).1 = .ret (some 0, true)
    ∧ (Import 1 Sample.env "core" Sample.fresh).2.DepGraph = []
    ∧ (Import 1 Sample.env "core" Sample.fresh).2.depGraph = [(getPackageID "/proj/core", 0)]
    ∧ (Import 1 Sample.env "core" Sample.fresh).2.calls
        = [Call.Import "core", Call.initPackage "/proj/core", Call.collectImports 0,
           Call.walkPackage 0]
    ∧ (Import 1 Sample.env "core" (Import 1 Sample.env "core" Sample.fresh).2).1
        = .ret (some 1, true)
    ∧ (Import 1 Sample.env "core" (Import 1 Sample.env "core" Sample.fresh).2).2.calls
        = [Call.Import "core", Call.initPackage "/proj/core", Call.collectImports 0,
           Call.walkPackage 0,
           Call.Import "core", Call.initPackage "/proj/core", Call.collectImports 1,
           Call.walkPackage 1]
    ∧ (Import 1 Sample.env "core" (Import 1 Sample.env "core" Sample.fresh).2).2.depGraph
        = [(getPackageID "/proj/core", 1)]
    ∧ (Import 1 Sample.env "core" (Import 1 Sample.env "core" Sample.fresh).2).2.heap.length
        = 2 := by
  refine ⟨fun fuel env => Import_DepGraph fuel env,
    by rfl, by rfl, by rfl, by rfl, by rfl, by rfl, by rfl, by rfl⟩

/-- C9: `walkImport` returns true on no input; and, evaluated on the sample project:
the one header import of `app`, `import X from lib`, names a package that imports
successfully and a symbol that is externally visible in it. On the package `app` with
allocated tables `walkImport` inserts the clone of `X` and returns false, and
`collectImports` returns false. `Import("app")` makes the package by `initPackage`,
which leaves its tables nil: there `walkImport` panics at the write to the import
table, and so does `Import`, with nothing logged. -/
theorem Import_resolved_import_fails :
    (∀ (env : Env) (imp : String → World → Outcome (Option Nat × Bool) × World)
        (currpkg : Nat) (node : ASTBranch) (exported : Bool) (w : World),
      (walkImport env imp currpkg node exported w).1 ≠ .ret true)
    ∧ (walkImport Sample.env (Import 1 Sample.env) 1 Sample.importX false Sample.walking).1
        = .ret false
    ∧ (collectImports Sample.env (Import 1 Sample.env) 1 Sample.walking).1 = .ret false
    ∧ (collectImports Sample.env (Import 1 Sample.env) 1 Sample.walking).2.log = []
    ∧ ((collectImports Sample.env (Import 1 Sample.env) 1 Sample.walking).2.heap.get? 1).map
          (fun q => q.Files.map (fun f => f.2.LocalTable))
        = some [some [("X", ⟨"X", .TypeDef, .Remote, Sample.posAt 3 1, false⟩)]]
    ∧ (Import 2 Sample.env "app" Sample.withLib).1 = .panic
    ∧ (Import 2 Sample.env "app" Sample.withLib).2.log = []
    ∧ ((Import 2 Sample.env "app" Sample.withLib).2.heap.get? 1).map
          (fun q => (q.ImportTable, q.Files.map (fun f => f.2.LocalTable)))
        = some (none, [none]) := by
  refine ⟨walkImport_ne_true, by rfl, by rfl, by rfl, by rfl, by rfl, by rfl, by rfl⟩

/-- C10: after every call of `Import`, however it ends, the current-package context
is what it was before; and, evaluated on the sample project: for the directory `1bad`,
`initPackage` returns nil and the invalid-package-name error, and `Import("1bad")`
then panics at the dereference `pkg.PackageID`, before the error is logged and before
anything is returned. -/
theorem Import_initPackage_error_panics :
    (∀ (fuel : Nat) (env : Env) (pkgpath : String) (w : World),
      (Import fuel env pkgpath w).2.CurrentPackage = w.CurrentPackage)
    ∧ (initPackage Sample.env "/proj/1bad"
        { Sample.fresh with calls := [Call.Import "1bad"] }).1
      = .ret (none, some "Invalid package name: `1bad`")
    ∧ (Import 1 Sample.env "1bad" Sample.fresh).1 = .panic
    ∧ (Import 1 Sample.env "1bad" Sample.fresh).2.log = []
    ∧ (Import 1 Sample.env "1bad" Sample.fresh).2.CurrentPackage
        = Sample.fresh.CurrentPackage := by
  refine ⟨Import_restores_CurrentPackage, by rfl, by rfl, by rfl, by rfl⟩

/-! ### The current file around a nested `Import`, package bindings, subdirectories -/

theorem walkImport_no_symbols (env : Env)
    (imp : String → World → Outcome (Option Nat × Bool) × World) (currpkg : Nat)
    (node : ASTBranch) (exported : Bool) (w w1 : World) (vars : ImportVars)
    (pkg : Option Nat) (cp0 : WhirlPackage)
    (hitems : walkImport.items node.Content ⟨[], "", ""⟩ = .done vars)
    (hnames : vars.importedSymbolNames = [])
    (hcur : w.heap.get? currpkg = some cp0)
    (himp : imp vars.pkgpath { w with calls := w.calls ++ [Call.walkImport currpkg] }
      = (.ret (pkg, true), w1)) :
    walkImport env imp currpkg node exported w = (.ret false, w1) := by
  simp only [walkImport, hitems, hcur, himp, hnames, List.length_nil, gt_iff_lt,
    Nat.lt_irrefl, if_false]

theorem initPackage.step_keeps (env : Env) (st : World × List (String × WhirlFile))
    (v : Visit) (k : String)
    (h : Map.get st.2 k ≠ none ∨ (usableSource env v = true ∧ k = v.fpath)) :
    Map.get (initPackage.step env st v).2 k ≠ none := by
  rcases v with ⟨fpath, isDir, ferr⟩
  rcases st with ⟨w, files⟩
  have hset : ∀ (x : WhirlFile), Map.get files k ≠ none ∨ k = fpath →
      Map.get (Map.set files fpath x) k ≠ none := by
    intro x hx
    by_cases hk : k = fpath
    · subst hk
      rw [Map.get_set_self]
      simp
    · rw [Map.get_set_other _ _ _ _ hk]
      rcases hx with hx | hx
      · exact hx
      · exact absurd hx hk
  unfold initPackage.step initPackage.visit
  unfold usableSource at h
  simp only [] at h ⊢
  generalize env.source fpath = src at h ⊢
  rcases src with ⟨scanErr, prep, parsed⟩
  cases ferr <;> cases isDir <;> by_cases hx : Ext fpath = SrcFileExtension <;>
    cases scanErr <;> rcases prep with _ | ⟨_ | _, _⟩ <;> cases parsed <;>
    simp [hx] at h ⊢ <;>
    first
    | exact h
    | (apply hset; tauto)

theorem initPackage.fold_keeps (env : Env) (vs : List Visit) :
    ∀ (st : World × List (String × WhirlFile)) (k : String),
      (Map.get st.2 k ≠ none ∨ ∃ v ∈ vs, usableSource env v = true ∧ k = v.fpath) →
      Map.get (vs.foldl (initPackage.step env) st).2 k ≠ none := by
  induction vs with
  | nil =>
    intro st k h
    rcases h with h | ⟨v, hv, _⟩
    · exact h
    · simp at hv
  | cons v rest ih =>
    intro st k h
    simp only [List.foldl_cons]
    apply ih
    rcases h with h | ⟨v1, hv1, hus, hk⟩
    · exact Or.inl (initPackage.step_keeps env st v k (Or.inl h))
    · rcases List.mem_cons.mp hv1 with heq | hmem
      · subst heq
        exact Or.inl (initPackage.step_keeps env st v1 k (Or.inr ⟨hus, hk⟩))
      · exact Or.inr ⟨v1, hmem, hus, hk⟩

theorem initPackage_includes_usable (env : Env) (abspath : String) (w : World) (v : Visit)
    (hv : isValidPkgName env.IsLetter env.IsDigit (bytes (Base abspath)) = .ret true)
    (hmem : v ∈ visits env.Join abspath (env.fs abspath))
    (hus : usableSource env v = true) :
    ∃ pkg, (initPackage env abspath w).2.heap.get? w.heap.length = some pkg
      ∧ Map.get pkg.Files v.fpath ≠ none := by
  have hkeep := initPackage.fold_keeps env (visits env.Join abspath (env.fs abspath))
    ({ w with calls := w.calls ++ [Call.initPackage abspath] }, []) v.fpath
    (Or.inr ⟨v, hmem, hus, rfl⟩)
  obtain ⟨_, g2, _, _, _, _, _, g8⟩ :=
    initPackage.fold_spec env (visits env.Join abspath (env.fs abspath))
      ({ w with calls := w.calls ++ [Call.initPackage abspath] }, [])
  rw [initPackage_valid env abspath w hv]
  generalize (visits env.Join abspath (env.fs abspath)).foldl (initPackage.step env)
    ({ w with calls := w.calls ++ [Call.initPackage abspath] }, []) = st at *
  obtain ⟨w1, files⟩ := st
  simp only [] at g2 hkeep ⊢
  have hf : ¬ files.length = 0 := by
    intro h0
    rw [List.length_eq_zero.mp h0] at hkeep
    exact hkeep rfl
  simp only [hf, if_false]
  refine ⟨⟨getPackageID abspath, Base abspath, abspath, files, [], none⟩, ?_, hkeep⟩
  rw [g2]
  simp

/-- C12: evaluation on the sample project. The statements `import lib` and
`import lib as k` name no symbol and their package imports successfully; `walkImport`
computes the names `lib` and `k` and returns with the state exactly as `Import` left
it: the local table of `m.wrl` is still empty and nothing is bound under either
name. -/
theorem walkImport_binds_no_package :
    walkImport.items Sample.importLib.Content ⟨[], "", ""⟩ = .done ⟨[], "lib", ""⟩
    ∧ walkImport.items Sample.importLibAs.Content ⟨[], "", ""⟩ = .done ⟨[], "lib", "k"⟩
    ∧ walkImport.bindName "" "lib" = "lib"
    ∧ walkImport.bindName "k" "lib" = "k"
    ∧ (Import 1 Sample.env "lib"
        { Sample.walking with calls := [Call.walkImport 1] }).1 = .ret (some 0, true)
    ∧ walkImport Sample.env (Import 1 Sample.env) 1 Sample.importLib false Sample.walking
        = (.ret false,
            { Sample.walking with calls := [Call.walkImport 1, Call.Import "lib"] })
    ∧ walkImport Sample.env (Import 1 Sample.env) 1 Sample.importLibAs false Sample.walking
        = (.ret false,
            { Sample.walking with calls := [Call.walkImport 1, Call.Import "lib"] })
    ∧ (Sample.walking.heap.get? 1).map (fun q => q.Files.map (fun f => f.2.LocalTable))
        = some [some []] := by
  refine ⟨by rfl, by rfl, by rfl, by rfl, by rfl, by rfl, by rfl, by rfl⟩

/-- C13: evaluation on the sample project. The directory `/proj/foo` holds `a.wrl`,
`bad.wrl` and the subdirectory `sub` with `b.wrl`; the walk function returns nil at
the directory `sub`, `filepath.Walk` descends into it, and the `Files` map of the
package `foo` holds `/proj/foo/sub/b.wrl` beside `/proj/foo/a.wrl`. -/
theorem initPackage_descends_into_subdirectories :
    (visits Sample.env.Join "/proj/foo" (Sample.env.fs "/proj/foo")).map (fun v => v.fpath)
        = ["/proj/foo", "/proj/foo/a.wrl", "/proj/foo/bad.wrl", "/proj/foo/sub",
           "/proj/foo/sub/b.wrl"]
    ∧ (initPackage Sample.env "/proj/foo" Sample.fresh).1 = .ret (some 0, none)
    ∧ ((initPackage Sample.env "/proj/foo" Sample.fresh).2.heap.get? 0).map
          (fun q => Map.keys q.Files)
        = some ["/proj/foo/a.wrl", "/proj/foo/sub/b.wrl"] := by
  refine ⟨by rfl, by rfl, by rfl⟩

/-! ### `logUnresolved` -/

theorem notVisibleCount_append (n : String) (a b : List Logged) :
    notVisibleCount n (a ++ b) = notVisibleCount n a + notVisibleCount n b := by
  simp [notVisibleCount, List.filter_append]

theorem notVisibleCount_LogNotVisibleInPackage (wk : Walker) (sink : List Logged)
    (n m pkgName : String) (pos : TextPosition) :
    notVisibleCount n (wk.LogNotVisibleInPackage sink m pkgName pos)
      = notVisibleCount n sink + (if m = n then 1 else 0) := by
  unfold Walker.LogNotVisibleInPackage
  rw [notVisibleCount_append]
  by_cases h : m = n
  · subst h
    simp [notVisibleCount, List.filter]
  · have hb : (m == n) = false := by simpa using h
    simp [notVisibleCount, List.filter, h, hb]

theorem notVisibleCount_LogUndefined (wk : Walker) (sink : List Logged)
    (n m : String) (pos : TextPosition) :
    notVisibleCount n (wk.LogUndefined sink m pos) = notVisibleCount n sink := by
  unfold Walker.LogUndefined
  rw [notVisibleCount_append]
  simp [notVisibleCount, List.filter]

/-- One turn of the loop over the unknowns of a definition, when the loop returns. -/
theorem logUnresolved.unknowns_step (heap : List Common.WhirlPackage) (w : Option Walker)
    (table : Option (List (String × Common.Symbol))) (name : String)
    (usym : Common.UnknownSymbol) (rest : List (String × Common.UnknownSymbol))
    (logged logged2 : List String) (sink sink2 : List Logged)
    (h : logUnresolved.unknowns heap w table ((name, usym) :: rest) logged sink
      = (.ret (), logged2, sink2)) :
    ∃ logged1 sink1,
      logUnresolved.unknowns heap w table rest logged1 sink1 = (.ret (), logged2, sink2)
      ∧ ((usym.ForeignPackage = none ∧ logged1 = logged
            ∧ ∃ wk, w = some wk ∧ sink1 = wk.LogUndefined sink name usym.Position)
        ∨ (usym.ImplicitImport = true ∧ logged1 = logged
            ∧ ∃ fp pkg wk, usym.ForeignPackage = some fp ∧ heap.get? fp = some pkg
              ∧ w = some wk
              ∧ sink1 = wk.LogNotVisibleInPackage sink name pkg.Name usym.Position)
        ∨ (usym.ImplicitImport = false ∧ usym.ForeignPackage.isSome = true
            ∧ name ∈ logged ∧ logged1 = logged ∧ sink1 = sink)
        ∨ (usym.ImplicitImport = false ∧ name ∉ logged ∧ logged1 = logged ++ [name]
            ∧ ∃ fp pkg wsi wk, usym.ForeignPackage = some fp ∧ heap.get? fp = some pkg
              ∧ table.bind (fun t => Map.get t name) = some wsi ∧ w = some wk
              ∧ sink1 = wk.LogNotVisibleInPackage sink name pkg.Name wsi.Position)) := by
  rcases usym with ⟨uname, upos, ufp, uimpl⟩
  cases ufp with
  | none =>
    cases w with
    | none => simp [logUnresolved.unknowns] at h
    | some wk =>
      simp only [logUnresolved.unknowns] at h
      exact ⟨_, _, h, Or.inl ⟨rfl, rfl, wk, rfl, rfl⟩⟩
  | some fp =>
    cases uimpl with
    | true =>
      simp only [logUnresolved.unknowns, if_true] at h
      split at h
      · rename_i pkg wk hpkg
        exact ⟨_, _, h, Or.inr (Or.inl ⟨rfl, rfl, fp, pkg, wk, rfl, hpkg, rfl, rfl⟩)⟩
      · simp at h
    | false =>
      by_cases hin : name ∈ logged
      · simp only [logUnresolved.unknowns, Bool.false_eq_true, if_false, hin, if_true] at h
        exact ⟨_, _, h, Or.inr (Or.inr (Or.inl ⟨rfl, rfl, hin, rfl, rfl⟩))⟩
      · simp only [logUnresolved.unknowns, Bool.false_eq_true, if_false, hin] at h
        split at h
        · rename_i pkg wsi wk hpkg hwsi
          exact ⟨_, _, h, Or.inr (Or.inr (Or.inr
            ⟨rfl, hin, rfl, fp, pkg, wsi, wk, rfl, hpkg, hwsi, rfl, rfl⟩))⟩
        · simp at h

theorem isImplicit_cons_self (name : String) (usym : Common.UnknownSymbol) (n : String) :
    isImplicit n (name, usym)
      = (decide (name = n) && usym.ForeignPackage.isSome && usym.ImplicitImport) := by
  by_cases h : name = n <;> simp [isImplicit, h]

theorem isExplicit_cons_self (name : String) (usym : Common.UnknownSymbol) (n : String) :
    isExplicit n (name, usym)
      = (decide (name = n) && usym.ForeignPackage.isSome && !usym.ImplicitImport) := by
  by_cases h : name = n <;> simp [isExplicit, h]

theorem logUnresolved.unknowns_mono (heap : List Common.WhirlPackage) (w : Option Walker)
    (table : Option (List (String × Common.Symbol))) :
    ∀ (us : List (String × Common.UnknownSymbol)) (logged logged2 : List String)
      (sink sink2 : List Logged),
      logUnresolved.unknowns heap w table us logged sink = (.ret (), logged2, sink2) →
      ∃ added, sink2 = sink ++ added := by
  intro us
  induction us with
  | nil =>
    intro logged logged2 sink sink2 h
    simp only [logUnresolved.unknowns, Prod.mk.injEq, true_and] at h
    exact ⟨[], by rw [← h.2]; simp⟩
  | cons e rest ih =>
    intro logged logged2 sink sink2 h
    obtain ⟨name, usym⟩ := e
    obtain ⟨logged1, sink1, hrest, hstep⟩ :=
      logUnresolved.unknowns_step heap w table name usym rest logged logged2 sink sink2 h
    obtain ⟨added, hadd⟩ := ih logged1 logged2 sink1 sink2 hrest
    rcases hstep with ⟨_, _, wk, _, hs⟩ | ⟨_, _, fp, pkg, wk, _, _, _, hs⟩ | ⟨_, _, _, _, hs⟩
        | ⟨_, _, _, fp, pkg, wsi, wk, _, _, _, _, hs⟩
    · exact ⟨⟨wk.Context, .undefined name usym.Position⟩ :: added,
        by rw [hadd, hs]; simp [Walker.LogUndefined]⟩
    · exact ⟨⟨wk.Context, .notVisibleInPackage name pkg.Name usym.Position⟩ :: added,
        by rw [hadd, hs]; simp [Walker.LogNotVisibleInPackage]⟩
    · exact ⟨added, by rw [hadd, hs]⟩
    · exact ⟨⟨wk.Context, .notVisibleInPackage name pkg.Name wsi.Position⟩ :: added,
        by rw [hadd, hs]; simp [Walker.LogNotVisibleInPackage]⟩

theorem logUnresolved.unknowns_logged (heap : List Common.WhirlPackage) (w : Option Walker)
    (table : Option (List (String × Common.Symbol))) :
    ∀ (us : List (String × Common.UnknownSymbol)) (logged logged2 : List String)
      (sink sink2 : List Logged),
      logUnresolved.unknowns heap w table us logged sink = (.ret (), logged2, sink2) →
      ∀ n, n ∈ logged2 ↔ (n ∈ logged ∨ us.any (isExplicit n) = true) := by
  intro us
  induction us with
  | nil =>
    intro logged logged2 sink sink2 h n
    simp only [logUnresolved.unknowns, Prod.mk.injEq, true_and] at h
    rw [← h.1]
    simp
  | cons e rest ih =>
    intro logged logged2 sink sink2 h n
    obtain ⟨name, usym⟩ := e
    obtain ⟨logged1, sink1, hrest, hstep⟩ :=
      logUnresolved.unknowns_step heap w table name usym rest logged logged2 sink sink2 h
    rw [ih logged1 logged2 sink1 sink2 hrest n, List.any_cons, isExplicit_cons_self]
    rcases hstep with ⟨hfp, hl, _⟩ | ⟨himp, hl, _⟩ | ⟨himp, hfp, hin, hl, _⟩
        | ⟨himp, hin, hl, fp, _, _, _, hfp, _⟩
    · subst hl
      simp [hfp]
    · subst hl
      simp [himp]
    · subst hl
      simp only [himp, hfp, Bool.not_false, Bool.and_true, Bool.or_eq_true, decide_eq_true_eq]
      constructor
      · rintro (h1 | h1)
        · exact Or.inl h1
        · exact Or.inr (Or.inr h1)
      · rintro (h1 | h1 | h1)
        · exact Or.inl h1
        · exact Or.inl (h1 ▸ hin)
        · exact Or.inr h1
    · subst hl
      simp only [himp, hfp, Option.isSome_some, Bool.not_false, Bool.and_true,
        Bool.or_eq_true, decide_eq_true_eq, List.mem_append, List.mem_singleton]
      constructor
      · rintro ((h1 | h1) | h1)
        · exact Or.inl h1
        · exact Or.inr (Or.inl h1.symm)
        · exact Or.inr (Or.inr h1)
      · rintro (h1 | h1 | h1)
        · exact Or.inl (Or.inl h1)
        · exact Or.inl (Or.inr h1.symm)
        · exact Or.inr h1

theorem logUnresolved.unknowns_count (heap : List Common.WhirlPackage) (w : Option Walker)
    (table : Option (List (String × Common.Symbol))) :
    ∀ (us : List (String × Common.UnknownSymbol)) (logged logged2 : List String)
      (sink sink2 : List Logged),
      logUnresolved.unknowns heap w table us logged sink = (.ret (), logged2, sink2) →
      ∀ n, notVisibleCount n sink2
        = notVisibleCount n sink + (us.filter (isImplicit n)).length
          + (if us.any (isExplicit n) = true ∧ n ∉ logged then 1 else 0) := by
  intro us
  induction us with
  | nil =>
    intro logged logged2 sink sink2 h n
    simp only [logUnresolved.unknowns, Prod.mk.injEq, true_and] at h
    rw [← h.2]
    simp
  | cons e rest ih =>
    intro logged logged2 sink sink2 h n
    obtain ⟨name, usym⟩ := e
    obtain ⟨logged1, sink1, hrest, hstep⟩ :=
      logUnresolved.unknowns_step heap w table name usym rest logged logged2 sink sink2 h
    rw [ih logged1 logged2 sink1 sink2 hrest n, List.any_cons, List.filter_cons,
      isExplicit_cons_self, isImplicit_cons_self]
    rcases hstep with ⟨hfp, hl, wk, _, hs⟩ | ⟨himp, hl, fp, pkg, wk, hfp, _, _, hs⟩
        | ⟨himp, hfp, hin, hl, hs⟩ | ⟨himp, hin, hl, fp, pkg, wsi, wk, hfp, _, _, _, hs⟩
    · subst hl hs
      rw [notVisibleCount_LogUndefined]
      cases hA : rest.any (isExplicit n) <;> simp [hfp]
    · subst hl hs
      rw [notVisibleCount_LogNotVisibleInPackage]
      by_cases hn : name = n
      · cases hA : rest.any (isExplicit n) <;> simp [himp, hfp, hn] <;> omega
      · cases hA : rest.any (isExplicit n) <;> simp [himp, hfp, hn]
    · subst hl hs
      by_cases hn : name = n
      · subst hn
        cases hA : rest.any (isExplicit name) <;> simp [himp, hfp, hin]
      · cases hA : rest.any (isExplicit n) <;> simp [himp, hfp, hn]
    · subst hl hs
      rw [notVisibleCount_LogNotVisibleInPackage]
      by_cases hn : name = n
      · subst hn
        cases hA : rest.any (isExplicit name) <;> simp [himp, hfp, hin] <;> omega
      · have hn1 : ¬ n = name := fun hh => hn hh.symm
        cases hA : rest.any (isExplicit n) <;> simp [himp, hfp, hn, hn1]

/-- The loop over the unknowns of a definition returns when the walker exists, the
package pointers are valid and the explicit imports are in the local table. -/
theorem logUnresolved.unknowns_returns (heap : List Common.WhirlPackage) (wk : Walker)
    (table : Option (List (String × Common.Symbol))) :
    ∀ (us : List (String × Common.UnknownSymbol)) (logged : List String)
      (sink : List Logged),
      (∀ e ∈ us, (∀ fp, e.2.ForeignPackage = some fp → (heap.get? fp).isSome = true)
        ∧ (isExplicit e.1 e = true →
            (table.bind (fun t => Map.get t e.1)).isSome = true)) →
      ∃ logged2 sink2,
        logUnresolved.unknowns heap (some wk) table us logged sink
          = (.ret (), logged2, sink2) := by
  intro us
  induction us with
  | nil =>
    intro logged sink _
    exact ⟨logged, sink, rfl⟩
  | cons e rest ih =>
    intro logged sink h
    obtain ⟨name, usym⟩ := e
    have hrest : ∀ e ∈ rest,
        (∀ fp, e.2.ForeignPackage = some fp → (heap.get? fp).isSome = true)
        ∧ (isExplicit e.1 e = true →
            (table.bind (fun t => Map.get t e.1)).isSome = true) :=
      fun e he => h e (List.mem_cons_of_mem _ he)
    have hhead := h (name, usym) (List.mem_cons_self _ _)
    rcases usym with ⟨uname, upos, ufp, uimpl⟩
    cases ufp with
    | none =>
      simp only [logUnresolved.unknowns]
      exact ih _ _ hrest
    | some fp =>
      obtain ⟨pkg, hpkg⟩ := Option.isSome_iff_exists.mp (hhead.1 fp rfl)
      cases uimpl with
      | true =>
        simp only [logUnresolved.unknowns, if_true, hpkg]
        exact ih _ _ hrest
      | false =>
        by_cases hin : name ∈ logged
        · simp only [logUnresolved.unknowns, Bool.false_eq_true, if_false, hin, if_true]
          exact ih _ _ hrest
        · obtain ⟨wsi, hwsi⟩ := Option.isSome_iff_exists.mp
            (hhead.2 (by simp [isExplicit]))
          simp only [logUnresolved.unknowns, Bool.false_eq_true, if_false, hin, hpkg, hwsi]
          exact ih _ _ hrest

/-- The explicit import of a name that is not yet marked has its error, at the
position that the local table of the file records for the name, once the loop over
the unknowns has returned. -/
theorem logUnresolved.unknowns_explicit_mem (heap : List Common.WhirlPackage)
    (w : Option Walker) (table : Option (List (String × Common.Symbol))) :
    ∀ (us : List (String × Common.UnknownSymbol)) (logged logged2 : List String)
      (sink sink2 : List Logged),
      logUnresolved.unknowns heap w table us logged sink = (.ret (), logged2, sink2) →
      ∀ n, n ∉ logged → us.any (isExplicit n) = true →
        ∃ usym fp pkg wsi wk, (n, usym) ∈ us ∧ usym.ForeignPackage = some fp
          ∧ usym.ImplicitImport = false ∧ heap.get? fp = some pkg
          ∧ table.bind (fun t => Map.get t n) = some wsi ∧ w = some wk
          ∧ (⟨wk.Context, .notVisibleInPackage n pkg.Name wsi.Position⟩ : Logged)
              ∈ sink2 := by
  intro us
  induction us with
  | nil =>
    intro logged logged2 sink sink2 _ n _ hany
    simp at hany
  | cons e rest ih =>
    intro logged logged2 sink sink2 h n hnot hany
    obtain ⟨name, usym⟩ := e
    obtain ⟨logged1, sink1, hrest, hstep⟩ :=
      logUnresolved.unknowns_step heap w table name usym rest logged logged2 sink sink2 h
    obtain ⟨added, hadd⟩ :=
      logUnresolved.unknowns_mono heap w table rest logged1 logged2 sink1 sink2 hrest
    rw [List.any_cons, isExplicit_cons_self, Bool.or_eq_true] at hany
    have hlater : logged1 = logged → rest.any (isExplicit n) = true →
        ∃ usym1 fp pkg wsi wk, (n, usym1) ∈ (name, usym) :: rest
          ∧ usym1.ForeignPackage = some fp
          ∧ usym1.ImplicitImport = false ∧ heap.get? fp = some pkg
          ∧ table.bind (fun t => Map.get t n) = some wsi ∧ w = some wk
          ∧ (⟨wk.Context, .notVisibleInPackage n pkg.Name wsi.Position⟩ : Logged)
              ∈ sink2 := by
      intro hl hr
      obtain ⟨usym1, fp, pkg, wsi, wk, hm, rest1⟩ :=
        ih logged1 logged2 sink1 sink2 hrest n (hl ▸ hnot) hr
      exact ⟨usym1, fp, pkg, wsi, wk, List.mem_cons_of_mem _ hm, rest1⟩
    have hhead : (decide (name = n) && usym.ForeignPackage.isSome
        && !usym.ImplicitImport) = true →
        name = n ∧ usym.ForeignPackage.isSome = true ∧ usym.ImplicitImport = false := by
      intro hh
      simp only [Bool.and_eq_true, decide_eq_true_eq, Bool.not_eq_true'] at hh
      exact ⟨hh.1.1, hh.1.2, hh.2⟩
    rcases hstep with ⟨hfp0, hl, _⟩ | ⟨himp0, hl, _⟩ | ⟨himp0, hfp0, hin, hl, _⟩
        | ⟨himp0, hin, hl, fp, pkg, wsi, wk, hfp0, hpkg, hwsi, hw, hs⟩
    · rcases hany with hh | hr
      · have := (hhead hh).2.1
        rw [hfp0] at this
        cases this
      · exact hlater hl hr
    · rcases hany with hh | hr
      · have := (hhead hh).2.2
        rw [himp0] at this
        cases this
      · exact hlater hl hr
    · rcases hany with hh | hr
      · exact absurd ((hhead hh).1 ▸ hin) hnot
      · exact hlater hl hr
    · by_cases hn : name = n
      · subst hn
        refine ⟨usym, fp, pkg, wsi, wk, List.mem_cons_self _ _, hfp0, himp0, hpkg, hwsi,
          hw, ?_⟩
        rw [hadd, hs]
        simp [Walker.LogNotVisibleInPackage]
      · rcases hany with hh | hr
        · exact absurd (hhead hh).1 hn
        · have hnot1 : n ∉ logged1 := by
            rw [hl]
            simp only [List.mem_append, List.mem_singleton, not_or]
            exact ⟨hnot, fun hh => hn hh.symm⟩
          obtain ⟨usym1, fp1, pkg1, wsi1, wk1, hm, rest1⟩ :=
            ih logged1 logged2 sink1 sink2 hrest n hnot1 hr
          exact ⟨usym1, fp1, pkg1, wsi1, wk1, List.mem_cons_of_mem _ hm, rest1⟩

theorem any_perm {α : Type} (p : α → Bool) (l1 l2 : List α) (h : l1.Perm l2) :
    l1.any p = l2.any p := by
  rw [Bool.eq_iff_iff, List.any_eq_true, List.any_eq_true]
  constructor
  · rintro ⟨x, hx, hp⟩
    exact ⟨x, h.mem_iff.mp hx, hp⟩
  · rintro ⟨x, hx, hp⟩
    exact ⟨x, h.mem_iff.mpr hx, hp⟩

/-- One turn of the loop over the queue, when the loop returns. -/
theorem logUnresolved.queue_step {σ : Type} (env : ResolveEnv σ) (pa : PAssembler)
    (top : Definition) (rest q2 : List Definition) (logged : List String)
    (sink sink2 : List Logged)
    (h : logUnresolved.queue env pa (top :: rest) logged sink = (.ret (), q2, sink2)) :
    ∃ logged1 sink1,
      logUnresolved.unknowns env.heap (Map.get pa.Walkers top.SrcFile)
          ((Map.get pa.PackageRef.Files top.SrcFile).map (fun f => f.LocalTable))
          (env.rangeUnknowns top.Unknowns) logged sink = (.ret (), logged1, sink1)
      ∧ logUnresolved.queue env pa rest logged1 sink1 = (.ret (), q2, sink2) := by
  unfold logUnresolved.queue at h
  split at h
  · rename_i u logged1 sink1 heq
    exact ⟨logged1, sink1, heq, h⟩
  · simp at h
  · simp at h

theorem logUnresolved.queue_mono {σ : Type} (env : ResolveEnv σ) (pa : PAssembler) :
    ∀ (q q2 : List Definition) (logged : List String) (sink sink2 : List Logged),
      logUnresolved.queue env pa q logged sink = (.ret (), q2, sink2) →
      q2 = [] ∧ ∃ added, sink2 = sink ++ added := by
  intro q
  induction q with
  | nil =>
    intro q2 logged sink sink2 h
    simp only [logUnresolved.queue, Prod.mk.injEq, true_and] at h
    exact ⟨h.1.symm, [], by rw [← h.2]; simp⟩
  | cons top rest ih =>
    intro q2 logged sink sink2 h
    obtain ⟨logged1, sink1, hu, hq⟩ :=
      logUnresolved.queue_step env pa top rest q2 logged sink sink2 h
    obtain ⟨a1, ha1⟩ := logUnresolved.unknowns_mono _ _ _ _ _ _ _ _ hu
    obtain ⟨hq2, a2, ha2⟩ := ih q2 logged1 sink1 sink2 hq
    exact ⟨hq2, a1 ++ a2, by rw [ha2, ha1, List.append_assoc]⟩

/-- The loop over the queue returns when every queued definition is ready. -/
theorem logUnresolved.queue_returns {σ : Type} (env : ResolveEnv σ) (pa : PAssembler)
    (hperm : ∀ us, (env.rangeUnknowns us).Perm us) :
    ∀ (q : List Definition) (logged : List String) (sink : List Logged),
      (∀ d ∈ q, logUnresolved.ready env.heap pa d) →
      ∃ sink2, logUnresolved.queue env pa q logged sink = (.ret (), [], sink2) := by
  intro q
  induction q with
  | nil =>
    intro logged sink _
    exact ⟨sink, rfl⟩
  | cons top rest ih =>
    intro logged sink h
    have hready := h top (List.mem_cons_self _ _)
    have hrest : ∀ d ∈ rest, logUnresolved.ready env.heap pa d :=
      fun d hd => h d (List.mem_cons_of_mem _ hd)
    have hu : ∃ logged1 sink1,
        logUnresolved.unknowns env.heap (Map.get pa.Walkers top.SrcFile)
          ((Map.get pa.PackageRef.Files top.SrcFile).map (fun f => f.LocalTable))
          (env.rangeUnknowns top.Unknowns) logged sink = (.ret (), logged1, sink1) := by
      cases hus : env.rangeUnknowns top.Unknowns with
      | nil => exact ⟨logged, sink, by simp [logUnresolved.unknowns]⟩
      | cons e0 es =>
        have he0 : e0 ∈ top.Unknowns :=
          (hperm top.Unknowns).mem_iff.mp (by rw [hus]; exact List.mem_cons_self _ _)
        obtain ⟨wk, hwk⟩ := Option.isSome_iff_exists.mp (hready e0 he0).1
        rw [hwk, ← hus]
        apply logUnresolved.unknowns_returns
        intro e he
        have hm : e ∈ top.Unknowns := (hperm top.Unknowns).mem_iff.mp he
        refine ⟨(hready e hm).2.1, fun hex => ?_⟩
        obtain ⟨f, wsi, hf, hwsi⟩ := (hready e hm).2.2 hex
        simp [hf, hwsi]
    obtain ⟨logged1, sink1, hu1⟩ := hu
    obtain ⟨sink2, h2⟩ := ih logged1 sink1 hrest
    refine ⟨sink2, ?_⟩
    rw [logUnresolved.queue, hu1]
    exact h2

/-- The names marked after the loop over the queue. -/
theorem logUnresolved.queue_count {σ : Type} (env : ResolveEnv σ) (pa : PAssembler)
    (hperm : ∀ us, (env.rangeUnknowns us).Perm us) :
    ∀ (q q2 : List Definition) (logged : List String) (sink sink2 : List Logged),
      logUnresolved.queue env pa q logged sink = (.ret (), q2, sink2) →
      ∀ n, notVisibleCount n sink2
        = notVisibleCount n sink + implicitCount n q
          + (if hasExplicit n q = true ∧ n ∉ logged then 1 else 0) := by
  intro q
  induction q with
  | nil =>
    intro q2 logged sink sink2 h n
    simp only [logUnresolved.queue, Prod.mk.injEq, true_and] at h
    rw [← h.2]
    simp [implicitCount, hasExplicit]
  | cons top rest ih =>
    intro q2 logged sink sink2 h n
    obtain ⟨logged1, sink1, hu, hq⟩ :=
      logUnresolved.queue_step env pa top rest q2 logged sink sink2 h
    have hc := logUnresolved.unknowns_count _ _ _ _ _ _ _ _ hu n
    have hl := logUnresolved.unknowns_logged _ _ _ _ _ _ _ _ hu n
    rw [any_perm _ _ _ (hperm top.Unknowns)] at hc hl
    rw [((hperm top.Unknowns).filter (isImplicit n)).length_eq] at hc
    rw [ih q2 logged1 sink1 sink2 hq n, hc]
    have hI : implicitCount n (top :: rest)
        = (top.Unknowns.filter (isImplicit n)).length + implicitCount n rest := by
      simp [implicitCount]
    have hE : hasExplicit n (top :: rest)
        = (top.Unknowns.any (isExplicit n) || hasExplicit n rest) := by
      simp [hasExplicit]
    rw [hI, hE]
    by_cases hin : n ∈ logged
    · have h1 : n ∈ logged1 := hl.mpr (Or.inl hin)
      simp [hin, h1]
      omega
    · cases hA : top.Unknowns.any (isExplicit n)
      · have h1 : n ∉ logged1 := fun hh => by
          rcases hl.mp hh with h2 | h2
          · exact hin h2
          · rw [hA] at h2
            cases h2
        cases hB : hasExplicit n rest <;> simp [hin, h1] <;> omega
      · have h1 : n ∈ logged1 := hl.mpr (Or.inr hA)
        simp [hin, h1]
        omega

/-- The error of an explicit import is the one of the first queued definition that
has the name among its unknowns, at the position in the local table of its file. -/
theorem logUnresolved.queue_explicit_first {σ : Type} (env : ResolveEnv σ)
    (pa : PAssembler) (hperm : ∀ us, (env.rangeUnknowns us).Perm us) (n : String)
    (d : Definition) (post : List Definition)
    (hd : d.Unknowns.any (isExplicit n) = true) :
    ∀ (pre q2 : List Definition) (logged : List String) (sink sink2 : List Logged),
      logUnresolved.queue env pa (pre ++ d :: post) logged sink = (.ret (), q2, sink2) →
      n ∉ logged → (∀ p ∈ pre, p.Unknowns.any (isExplicit n) = false) →
      ∃ usym fp pkg f wsi wk, (n, usym) ∈ d.Unknowns ∧ usym.ForeignPackage = some fp
        ∧ usym.ImplicitImport = false ∧ env.heap.get? fp = some pkg
        ∧ Map.get pa.PackageRef.Files d.SrcFile = some f
        ∧ Map.get f.LocalTable n = some wsi
        ∧ Map.get pa.Walkers d.SrcFile = some wk
        ∧ (⟨wk.Context, .notVisibleInPackage n pkg.Name wsi.Position⟩ : Logged)
            ∈ sink2 := by
  intro pre
  induction pre with
  | nil =>
    intro q2 logged sink sink2 h hnot _
    obtain ⟨logged1, sink1, hu, hq⟩ :=
      logUnresolved.queue_step env pa d post q2 logged sink sink2 h
    obtain ⟨usym, fp, pkg, wsi, wk, hm, hfp, himp, hpkg, hwsi, hw, hin⟩ :=
      logUnresolved.unknowns_explicit_mem _ _ _ _ _ _ _ _ hu n hnot
        (by rw [any_perm _ _ _ (hperm d.Unknowns)]; exact hd)
    obtain ⟨_, added, hadd⟩ := logUnresolved.queue_mono env pa post q2 logged1 sink1 sink2 hq
    cases hf : Map.get pa.PackageRef.Files d.SrcFile with
    | none => simp [hf] at hwsi
    | some f =>
      refine ⟨usym, fp, pkg, f, wsi, wk, (hperm d.Unknowns).mem_iff.mp hm, hfp, himp, hpkg,
        rfl, ?_, hw, by rw [hadd]; exact List.mem_append_left _ hin⟩
      simpa [hf] using hwsi
  | cons p pre ih =>
    intro q2 logged sink sink2 h hnot hpre
    obtain ⟨logged1, sink1, hu, hq⟩ :=
      logUnresolved.queue_step env pa p (pre ++ d :: post) q2 logged sink sink2 h
    have hl := logUnresolved.unknowns_logged _ _ _ _ _ _ _ _ hu n
    rw [any_perm _ _ _ (hperm p.Unknowns), hpre p (List.mem_cons_self _ _)] at hl
    have hnot1 : n ∉ logged1 := fun hh => by
      rcases hl.mp hh with h2 | h2
      · exact hnot h2
      · cases h2
    exact ih q2 logged1 sink1 sink2 hq hnot1 (fun p1 hp1 => hpre p1 (List.mem_cons_of_mem _ hp1))

/-! ### C14: explicit imports in `logUnresolved` -/

/-- C14, counterexample: the name `Missing` is imported explicitly from `bar` in
`x.wrl` and from `baz` in `z.wrl`, so the queue holds two distinct pairs of a name and
a foreign package; `logUnresolved` returns with the queue empty and a single error,
the one of `bar` at the position in the local table of `x.wrl`: the second pair is
taken as logged because the name is. -/
theorem logUnresolved_two_packages_one_error :
    explicitPairs Sample.twoImports.DefQueue = [("Missing", 1), ("Missing", 2)]
    ∧ (Sample.resolveEnv.heap.get? 1).map (fun p => p.Name) = some "bar"
    ∧ (Sample.resolveEnv.heap.get? 2).map (fun p => p.Name) = some "baz"
    ∧ logUnresolved Sample.resolveEnv Sample.twoImports []
        = (.ret (), { Sample.twoImports with DefQueue := [] },
            [⟨⟨getPackageID "/proj/app", "/proj/app/x.wrl"⟩,
              .notVisibleInPackage "Missing" "bar" (Sample.posAt 1 8)⟩])
    ∧ notVisibleCount "Missing"
        (logUnresolved Sample.resolveEnv Sample.twoImports []).2.2 = 1 := by
  refine ⟨by decide, by rfl, by rfl, by rfl, by rfl⟩

/-- C14, amended: when every queued definition is ready (it has a walker, its package
pointers are valid and its explicit imports are in the local table of its file),
`logUnresolved` returns with the queue empty, only appends to the sink, and for every
name without implicit unknowns adds exactly one not-visible error if some queued
definition has the name as an explicit import, whatever the number of definitions and
of foreign packages, and none otherwise; that error names the package of the first
queued definition having the name and is placed at the position that the local table
of the file of that definition records for the name. -/
theorem logUnresolved_explicit_once_per_name {σ : Type} (env : ResolveEnv σ)
    (pa : PAssembler) (sink : List Logged)
    (hperm : ∀ us, (env.rangeUnknowns us).Perm us)
    (hready : ∀ d ∈ pa.DefQueue, logUnresolved.ready env.heap pa d) :
    ∃ sink2, logUnresolved env pa sink = (.ret (), { pa with DefQueue := [] }, sink2)
      ∧ (∃ added, sink2 = sink ++ added)
      ∧ (∀ n, implicitCount n pa.DefQueue = 0 →
          notVisibleCount n sink2
            = notVisibleCount n sink + (if hasExplicit n pa.DefQueue = true then 1 else 0))
      ∧ (∀ n pre d post, pa.DefQueue = pre ++ d :: post →
          (∀ p ∈ pre, p.Unknowns.any (isExplicit n) = false) →
          d.Unknowns.any (isExplicit n) = true →
          ∃ usym fp pkg f wsi wk, (n, usym) ∈ d.Unknowns
            ∧ usym.ForeignPackage = some fp ∧ usym.ImplicitImport = false
            ∧ env.heap.get? fp = some pkg
            ∧ Map.get pa.PackageRef.Files d.SrcFile = some f
            ∧ Map.get f.LocalTable n = some wsi
            ∧ Map.get pa.Walkers d.SrcFile = some wk
            ∧ (⟨wk.Context, .notVisibleInPackage n pkg.Name wsi.Position⟩ : Logged)
                ∈ sink2) := by
  obtain ⟨sink2, h⟩ := logUnresolved.queue_returns env pa hperm pa.DefQueue [] sink hready
  refine ⟨sink2, by simp only [logUnresolved, h], ?_, ?_, ?_⟩
  · exact (logUnresolved.queue_mono env pa _ _ _ _ _ h).2
  · intro n hn
    rw [logUnresolved.queue_count env pa hperm _ _ _ _ _ h n, hn]
    simp
  · intro n pre d post hq hpre hd
    rw [hq] at h
    exact logUnresolved.queue_explicit_first env pa hperm n d post hd pre [] [] sink sink2 h
      (by simp) hpre

theorem logUnresolved_explicit_once_per_name_witness :
    (∀ us, (Sample.resolveEnv.rangeUnknowns us).Perm us)
    ∧ (∀ d ∈ Sample.twoImports.DefQueue,
        logUnresolved.ready Sample.resolveEnv.heap Sample.twoImports d)
    ∧ ∃ sink2, logUnresolved Sample.resolveEnv Sample.twoImports []
          = (.ret (), { Sample.twoImports with DefQueue := [] }, sink2)
        ∧ notVisibleCount "Missing" sink2 = 1 := by
  have hperm : ∀ us, (Sample.resolveEnv.rangeUnknowns us).Perm us :=
    fun us => List.Perm.refl us
  have hready : ∀ d ∈ Sample.twoImports.DefQueue,
      logUnresolved.ready Sample.resolveEnv.heap Sample.twoImports d := by
    intro d hd
    simp only [Sample.twoImports, List.mem_cons, List.mem_singleton, List.not_mem_nil,
      or_false] at hd
    rcases hd with rfl | rfl
    · intro e he
      simp only [List.mem_singleton] at he
      subst he
      refine ⟨by rfl, ?_, fun _ => ⟨Sample.xFile, _, by rfl, by rfl⟩⟩
      intro fp hfp
      cases hfp
      rfl
    · intro e he
      simp only [List.mem_singleton] at he
      subst he
      refine ⟨by rfl, ?_, fun _ => ⟨Sample.zFile, _, by rfl, by rfl⟩⟩
      intro fp hfp
      cases hfp
      rfl
  obtain ⟨sink2, h1, _, h3, _⟩ :=
    logUnresolved_explicit_once_per_name Sample.resolveEnv Sample.twoImports [] hperm hready
  exact ⟨hperm, hready, sink2, h1, by rw [h3 "Missing" (by rfl)]; rfl⟩

/-! ### C15: implicit imports in `logUnresolved` -/

/-- C16, evaluation: on the package whose one file `m.wrl` has the header statement
`import X from lib` before its code, `initialPass` panics: the statement is not an
export block, so its children are walked as definitions, and the first of them, the
keyword, is a leaf. No definition is walked, the file has its new root and keeps its
AST. -/
theorem initialPass_header_import_panics :
    (Sample.mainFile.Content.head?.bind ASTNode.asBranch).map (fun b => b.Name)
        = some "import_stmt"
    ∧ initialPass Sample.resolveEnv Sample.beforePass 0
        = (.panic,
            Sample.beforePass.setFile "/proj/app/m.wrl" ⟨some Sample.mainFile, some ⟨[]⟩, [], []⟩,
            0)
    ∧ ((Map.get (initialPass Sample.resolveEnv Sample.beforePass 0).2.1.PackageRef.Files
          "/proj/app/m.wrl").map (fun f => f.AST.isSome)) = some true := by
  refine ⟨by rfl, by rfl, by rfl⟩

/-! ### `walkNamedTypeCore` -/

/-- C17: evaluation on the sample project. Inside an exported definition the walker
meets `lib.T`, where `lib` is a visible package and `T` an exported type of it:
`walkNamedTypeCore` logs `Unable to use implicitly imported symbol in exported
definition` and, the branch having no return, goes on to look `T` up and returns its
type with true, not (nil, false). -/
theorem walkNamedTypeCore_exported_qualified_returns_type :
    Sample.exportedWalker.DeclStatus = DeclStatus.Exported
    ∧ Map.get Sample.exportedWalker.SrcFile.VisiblePackages "lib" = some 0
    ∧ (Sample.deps.heap.get? 0).bind (fun p => Sample.deps.ImportFromNamespace p "T")
        = some ⟨"T", some (.Concrete "T"), .TypeDef, .Exported, Sample.posAt 3 1⟩
    ∧ walkNamedTypeCore Sample.deps Sample.exportedWalker [] "lib" "T"
        (Sample.posAt 9 5) (Sample.posAt 9 9)
      = (.ret (some (DataType.Concrete "T"), true),
          { Sample.exportedWalker with fatalDefError := true },
          [⟨⟨getPackageID "/proj/app", "/proj/app/y.wrl"⟩,
            .message "Unable to use implicitly imported symbol in exported definition"
              LogKind.LMKUsage (Sample.posAt 9 9)⟩]) := by
  refine ⟨by rfl, by rfl, by rfl, by rfl⟩

/-- C18: for an unqualified name that `Lookup` finds, `walkNamedTypeCore` returns the
type of the symbol with true exactly when the symbol is a type definition and the
declaration status is not `Exported` or the symbol is externally visible, and then
walker and sink are untouched; otherwise it returns (nil, false) after one fatal
definition error at the position of the name, `is not a type` for a symbol that is no
type definition and `must be exported` else; the unknowns of the walker are never
touched. -/
theorem walkNamedTypeCore_unqualified (deps : WalkerDeps) (w : Walker) (sink : List Logged)
    (rootName : String) (rootPos accessedPos : TextPosition) (symbol : Common.Symbol)
    (hlook : deps.Lookup w rootName = some symbol) :
    ((walkNamedTypeCore deps w sink rootName "" rootPos accessedPos).1
        = .ret (symbol.SymType, true) ↔
      (symbol.DefKind = DefKind.TypeDef
        ∧ (w.DeclStatus ≠ DeclStatus.Exported ∨ symbol.VisibleExternally = true)))
    ∧ ((symbol.DefKind = DefKind.TypeDef
          ∧ (w.DeclStatus ≠ DeclStatus.Exported ∨ symbol.VisibleExternally = true)) →
        walkNamedTypeCore deps w sink rootName "" rootPos accessedPos
          = (.ret (symbol.SymType, true), w, sink))
    ∧ (symbol.DefKind ≠ DefKind.TypeDef →
        walkNamedTypeCore deps w sink rootName "" rootPos accessedPos
          = (.ret (none, false), { w with fatalDefError := true },
              sink ++ [⟨w.Context,
                .message ("Symbol `" ++ symbol.Name ++ "` is not a type")
                  LogKind.LMKUsage rootPos⟩]))
    ∧ (symbol.DefKind = DefKind.TypeDef → w.DeclStatus = DeclStatus.Exported →
        symbol.VisibleExternally = false →
        walkNamedTypeCore deps w sink rootName "" rootPos accessedPos
          = (.ret (none, false), { w with fatalDefError := true },
              sink ++ [⟨w.Context,
                .message ("Symbol `" ++ symbol.Name
                    ++ "` must be exported to be used in an exported definition")
                  LogKind.LMKUsage rootPos⟩]))
    ∧ (walkNamedTypeCore deps w sink rootName "" rootPos accessedPos).2.1.unknowns
        = w.unknowns := by
  by_cases hk : symbol.DefKind = DefKind.TypeDef
  · by_cases hd : w.DeclStatus = DeclStatus.Exported
    · by_cases hv : symbol.VisibleExternally = true
      · have heq : walkNamedTypeCore deps w sink rootName "" rootPos accessedPos
            = (.ret (symbol.SymType, true), w, sink) := by
          simp [walkNamedTypeCore, hlook, hk, hd, hv]
        refine ⟨?_, fun _ => heq, fun h => absurd hk h, ?_, ?_⟩
        · rw [heq]
          simp [hk, hv]
        · intro _ _ hv1
          rw [hv] at hv1
          simp at hv1
        · rw [heq]
      · have hv1 : symbol.VisibleExternally = false := by simpa using hv
        have heq : walkNamedTypeCore deps w sink rootName "" rootPos accessedPos
            = (.ret (none, false), { w with fatalDefError := true },
              sink ++ [⟨w.Context,
                .message ("Symbol `" ++ symbol.Name
                    ++ "` must be exported to be used in an exported definition")
                  LogKind.LMKUsage rootPos⟩]) := by
          simp [walkNamedTypeCore, hlook, hk, hd, hv1, Walker.logFatalDefError]
        refine ⟨?_, ?_, fun h => absurd hk h, fun _ _ _ => heq, ?_⟩
        · rw [heq]
          simp [hk, hd, hv1]
        · rintro ⟨_, h | h⟩
          · exact absurd hd h
          · rw [hv1] at h
            simp at h
        · rw [heq]
    · have heq : walkNamedTypeCore deps w sink rootName "" rootPos accessedPos
          = (.ret (symbol.SymType, true), w, sink) := by
        simp [walkNamedTypeCore, hlook, hk, hd]
      refine ⟨?_, fun _ => heq, fun h => absurd hk h, fun _ h => absurd h hd, ?_⟩
      · rw [heq]
        simp [hk, hd]
      · rw [heq]
  · have heq : walkNamedTypeCore deps w sink rootName "" rootPos accessedPos
        = (.ret (none, false), { w with fatalDefError := true },
            sink ++ [⟨w.Context,
              .message ("Symbol `" ++ symbol.Name ++ "` is not a type")
                LogKind.LMKUsage rootPos⟩]) := by
      simp [walkNamedTypeCore, hlook, hk, Walker.logFatalDefError]
    refine ⟨?_, ?_, fun _ => heq, fun h => absurd h hk, ?_⟩
    · rw [heq]
      simp [hk]
    · rintro ⟨h, _⟩
      exact absurd h hk
    · rw [heq]

/-- The statement of C18 on the sample project: inside an exported definition of
`app`, the internal type `P` of `app` is found and refused with the `must be exported`
error; inside an internal definition its type is returned. -/
theorem walkNamedTypeCore_unqualified_witness :
    walkNamedTypeCore Sample.deps Sample.exportedWalker [] "P" ""
        (Sample.posAt 9 5) (Sample.posAt 0 0)
      = (.ret (none, false), { Sample.exportedWalker with fatalDefError := true },
          [⟨Sample.exportedWalker.Context,
            .message "Symbol `P` must be exported to be used in an exported definition"
              LogKind.LMKUsage (Sample.posAt 9 5)⟩])
    ∧ walkNamedTypeCore Sample.deps Sample.internalWalker [] "P" ""
        (Sample.posAt 9 5) (Sample.posAt 0 0)
      = (.ret (some (DataType.Concrete "P"), true), Sample.internalWalker, []) :=
  ⟨(walkNamedTypeCore_unqualified Sample.deps Sample.exportedWalker [] "P"
      (Sample.posAt 9 5) (Sample.posAt 0 0)
      ⟨"P", some (.Concrete "P"), .TypeDef, .Internal, Sample.posAt 7 1⟩ (by rfl)).2.2.2.1
      (by rfl) (by rfl) (by rfl),
   (walkNamedTypeCore_unqualified Sample.deps Sample.internalWalker [] "P"
      (Sample.posAt 9 5) (Sample.posAt 0 0)
      ⟨"P", some (.Concrete "P"), .TypeDef, .Internal, Sample.posAt 7 1⟩ (by rfl)).2.1
      ⟨by rfl, Or.inl (by decide)⟩⟩

/-! ### C19 and C20: the solver -/

/-- The loop of `unify` over a type and a rest is the loop over the type alone,
followed, when that succeeds, by the loop over the rest from its result. -/
theorem Solver.unify.loop_cons
    (CoerceTo : Option DataType → Option DataType → Solver → Bool × Solver)
    (dt : Option DataType) (rest : List (Option DataType)) (u : Option DataType)
    (s : Solver) :
    Solver.unify.loop CoerceTo (dt :: rest) u s
      = match Solver.unify.loop CoerceTo [dt] u s with
        | (.ret (u1, true), s1) => Solver.unify.loop CoerceTo rest u1 s1
        | r => r := by
  simp only [Solver.unify.loop]
  rcases h1 : CoerceTo dt u s with ⟨b1, s1⟩
  cases b1
  · simp only []
    rcases h2 : CoerceTo u dt s1 with ⟨b2, s2⟩
    cases b2
    · simp only []
      rcases h3 : s2.findCommonInterface dt u with ⟨cit, b3⟩
      cases b3 <;> rfl
    · rfl
  · rfl

/-- The function `unify` returns on every non-empty list of types. -/
theorem Solver.unify.loop_returns
    (CoerceTo : Option DataType → Option DataType → Solver → Bool × Solver) :
    ∀ (types : List (Option DataType)) (u : Option DataType) (s : Solver),
      ∃ r s1, Solver.unify.loop CoerceTo types u s = (.ret r, s1) := by
  intro types
  induction types with
  | nil => exact fun u s => ⟨_, _, rfl⟩
  | cons dt rest ih =>
    intro u s
    simp only [Solver.unify.loop]
    rcases h1 : CoerceTo dt u s with ⟨b1, s1⟩
    cases b1
    · simp only []
      rcases h2 : CoerceTo u dt s1 with ⟨b2, s2⟩
      cases b2
      · simp only []
        rcases h3 : s2.findCommonInterface dt u with ⟨cit, b3⟩
        cases b3
        · exact ⟨_, _, rfl⟩
        · exact ih _ _
      · exact ih _ _
    · exact ih _ _

/-- C19: for every coercion (a function of the two types and the solver, which it may
change) and all types a, b and c, `unify(a, b, c)` returns, and it succeeds with a type
and a final solver exactly when `unify(a, b)` succeeds with some type u and
`unify(u, c)`, run on the solver that the first call left, succeeds with that same
type and final solver. -/
theorem unify_three_iff
    (CoerceTo : Option DataType → Option DataType → Solver → Bool × Solver)
    (s : Solver) (a b c : Option DataType) :
    (∃ r s3, Solver.unify CoerceTo s [a, b, c] = (.ret r, s3))
    ∧ ∀ t s3, Solver.unify CoerceTo s [a, b, c] = (.ret (t, true), s3) ↔
        ∃ u s2, Solver.unify CoerceTo s [a, b] = (.ret (u, true), s2)
          ∧ Solver.unify CoerceTo s2 [u, c] = (.ret (t, true), s3) := by
  refine ⟨Solver.unify.loop_returns CoerceTo [b, c] a s, fun t s3 => ?_⟩
  have h : Solver.unify CoerceTo s [a, b, c]
      = match Solver.unify CoerceTo s [a, b] with
        | (.ret (u1, true), s1) => Solver.unify CoerceTo s1 [u1, c]
        | r => r :=
    Solver.unify.loop_cons CoerceTo b [c] a s
  rw [h]
  obtain ⟨r, s2, h2⟩ := Solver.unify.loop_returns CoerceTo [b] a s
  have h2a : Solver.unify CoerceTo s [a, b] = (.ret r, s2) := h2
  rw [h2a]
  obtain ⟨u, ok⟩ := r
  cases ok
  · simp
  · simp only [Prod.mk.injEq, Outcome.ret.injEq, and_true]
    constructor
    · exact fun h3 => ⟨u, s2, ⟨rfl, rfl⟩, h3⟩
    · rintro ⟨u1, s1, ⟨rfl, rfl⟩, h3⟩
      exact h3

/-- C20, evaluation: on the solver before any call, `CreateUnknown` with the
constraint `int` returns the unknown 0, which carries the position and no constraint;
and after `FinishExpr(int)` on that solver, which creates the current equation with
its right-hand side and a nil map of unknowns, `CreateUnknown` panics. -/
theorem CreateUnknown_drops_constraints_and_panics :
    Solver.CreateUnknown Sample.newSolver (Sample.posAt 1 1) [Sample.int]
      = (.ret 0,
          ⟨[], some ⟨none, none, some [0]⟩, none, [⟨Sample.posAt 1 1, [], none⟩]⟩)
    ∧ Solver.FinishExpr Sample.noResult Sample.newSolver Sample.int
      = ⟨[], some ⟨none, some (.SolvedExpr Sample.int), none⟩, none, []⟩
    ∧ (Solver.CreateUnknown (Solver.FinishExpr Sample.noResult Sample.newSolver Sample.int)
        (Sample.posAt 1 1) []).1 = .panic := by
  refine ⟨by rfl, by rfl, by rfl⟩

/-! ### C21, C22, C27 and C28: the solver -/

theorem Solver.pushExpr_spec (s : Solver) :
    s.pushExpr.CurrentExpr = none
    ∧ s.pushExpr.UnsolvedEquations = s.UnsolvedEquations
    ∧ s.pushExpr.unknownTypes = s.unknownTypes
    ∧ s.pushExpr.CurrentEquation
        = some (if (s.CurrentEquation.getD ⟨none, none, none⟩).Rhs = none
            then { s.CurrentEquation.getD ⟨none, none, none⟩ with Rhs := s.CurrentExpr }
            else { s.CurrentEquation.getD ⟨none, none, none⟩ with Lhs := s.CurrentExpr }) := by
  refine ⟨rfl, rfl, rfl, ?_⟩
  rcases s with ⟨un, eq, ex, uts⟩
  cases eq with
  | none => simp [Solver.pushExpr]
  | some e =>
    rcases e with ⟨l, r, us⟩
    cases r <;> simp [Solver.pushExpr]

theorem Solver.FinishExpr_eq (Result : TypeExpression → Option DataType × Bool)
    (s : Solver) (resultant : Option DataType) :
    Solver.FinishExpr Result s resultant
      = Solver.pushExpr { s with CurrentExpr := some (FinishExpr.stored Result s resultant) } := by
  rcases s with ⟨un, eq, ex, uts⟩
  cases ex with
  | none => rfl
  | some e =>
    simp only [Solver.FinishExpr, FinishExpr.stored]
    rcases h : Result e with ⟨dt, ok⟩
    cases ok <;> simp

/-- C21: for every solver and every `Result`, `FinishExpr(resultant)` leaves
`CurrentExpr` empty, the unsolved list and the unknowns as they were, and the current
equation (a new one with all slots empty when there was none) with the expression of
the specification stored in `Rhs` when `Rhs` was empty and in `Lhs` otherwise, all
other slots unchanged; so two calls in a row on a fresh equation, or on no equation,
fill `Rhs` with the first expression and then `Lhs` with the second, `Solved` of its
resultant, while the unknown set and the unsolved list stay as they were. -/
theorem FinishExpr_stores (Result : TypeExpression → Option DataType × Bool)
    (s : Solver) (resultant : Option DataType) :
    (Solver.FinishExpr Result s resultant).CurrentExpr = none
    ∧ (Solver.FinishExpr Result s resultant).UnsolvedEquations = s.UnsolvedEquations
    ∧ (Solver.FinishExpr Result s resultant).unknownTypes = s.unknownTypes
    ∧ (Solver.FinishExpr Result s resultant).CurrentEquation
        = some (if (s.CurrentEquation.getD ⟨none, none, none⟩).Rhs = none
            then { s.CurrentEquation.getD ⟨none, none, none⟩ with
                    Rhs := some (FinishExpr.stored Result s resultant) }
            else { s.CurrentEquation.getD ⟨none, none, none⟩ with
                    Lhs := some (FinishExpr.stored Result s resultant) })
    ∧ (∀ (us : Option (List Nat)) (second : Option DataType),
        Solver.FinishExpr Result
            (Solver.FinishExpr Result { s with CurrentEquation := some ⟨none, none, us⟩ }
              resultant) second
          = { s with
                CurrentExpr := none,
                CurrentEquation := some ⟨some (.SolvedExpr second),
                  some (FinishExpr.stored Result s resultant), us⟩ })
    ∧ (∀ (second : Option DataType),
        Solver.FinishExpr Result
            (Solver.FinishExpr Result { s with CurrentEquation := none } resultant) second
          = { s with
                CurrentExpr := none,
                CurrentEquation := some ⟨some (.SolvedExpr second),
                  some (FinishExpr.stored Result s resultant), none⟩ }) := by
  rw [Solver.FinishExpr_eq]
  refine ⟨rfl, rfl, rfl, ?_, ?_, ?_⟩
  · exact (Solver.pushExpr_spec _).2.2.2
  · intro us second
    rw [Solver.FinishExpr_eq, Solver.FinishExpr_eq]
    rfl
  · intro second
    rw [Solver.FinishExpr_eq, Solver.FinishExpr_eq]
    rfl

/-- C22, counterexample: on the solver before any call, which has no current equation
and no unknown, `FinishExpr(int)` leaves a current equation: the one that `pushExpr`
creates to hold the expression, with a nil map of unknowns. -/
theorem FinishExpr_materializes_equation :
    Sample.newSolver.CurrentEquation = none
    ∧ Sample.newSolver.unknownTypes = []
    ∧ (Solver.FinishExpr Sample.noResult Sample.newSolver Sample.int).CurrentEquation
        = some ⟨none, some (.SolvedExpr Sample.int), none⟩
    ∧ (Solver.FinishExpr Sample.noResult Sample.newSolver Sample.int).unknownTypes = [] := by
  refine ⟨by rfl, by rfl, by rfl, by rfl⟩

theorem Solver.CreateUnknown_equation (s s1 : Solver) (pos : TextPosition)
    (constaints : List (Option DataType)) (ut : Nat)
    (h : s.CreateUnknown pos constaints = (.ret ut, s1)) :
    s1.CurrentEquation.isSome = true := by
  rcases s with ⟨un, eq, ex, uts⟩
  cases eq with
  | none =>
    simp only [Solver.CreateUnknown, Solver.initEqn, Prod.mk.injEq] at h
    rw [← h.2]
    rfl
  | some e =>
    rcases e with ⟨l, r, us⟩
    cases us with
    | none => simp [Solver.CreateUnknown] at h
    | some us =>
      simp only [Solver.CreateUnknown, Prod.mk.injEq] at h
      rw [← h.2]
      rfl

theorem Solver.run_append (Result : TypeExpression → Option DataType × Bool) :
    ∀ (pre post : List SolverCall) (s s2 : Solver),
      Solver.run Result (pre ++ post) s = (.ret (), s2) →
      ∃ s1, Solver.run Result pre s = (.ret (), s1)
        ∧ Solver.run Result post s1 = (.ret (), s2) := by
  intro pre
  induction pre with
  | nil => exact fun post s s2 h => ⟨s, rfl, h⟩
  | cons c pre ih =>
    intro post s s2 h
    cases c with
    | CreateUnknown pos cs =>
      simp only [List.cons_append, Solver.run] at h ⊢
      rcases hc : s.CreateUnknown pos cs with ⟨o, s1⟩
      rw [hc] at h
      cases o with
      | ret ut => exact ih post s1 s2 h
      | panic => simp at h
      | outOfFuel => simp at h
    | FinishExpr r => exact ih post _ s2 h
    | FinishEqn => exact ih post _ s2 h

/-- C22, amended: in every solver state reached from a state without a current
equation through calls of `CreateUnknown`, `FinishExpr` and `FinishEqn`, the current
equation exists exactly when there was a call and the last one was `CreateUnknown` or
`FinishExpr`, that is, when one of the two was called since the slot was last empty;
and `FinishExpr` on a solver without a current equation creates one, with the stored
expression as `Rhs`, no `Lhs` and a nil map of unknowns. -/
theorem CurrentEquation_exists_iff (Result : TypeExpression → Option DataType × Bool)
    (calls : List SolverCall) (s0 s : Solver)
    (h0 : s0.CurrentEquation = none)
    (hrun : Solver.run Result calls s0 = (.ret (), s)) :
    (s.CurrentEquation.isSome = true ↔
      ∃ pre c, calls = pre ++ [c] ∧ c ≠ SolverCall.FinishEqn)
    ∧ ∀ (s1 : Solver) (resultant : Option DataType), s1.CurrentEquation = none →
        (Solver.FinishExpr Result s1 resultant).CurrentEquation
          = some ⟨none, some (FinishExpr.stored Result s1 resultant), none⟩ := by
  constructor
  · rcases List.eq_nil_or_concat calls with hnil | ⟨pre, c, hc⟩
    · subst hnil
      simp only [Solver.run, Prod.mk.injEq, true_and] at hrun
      subst hrun
      simp [h0]
    · subst hc
      rw [List.concat_eq_append] at hrun ⊢
      obtain ⟨s1, _, hlast⟩ := Solver.run_append Result pre [c] s0 s hrun
      have hiff : (∃ pre1 c1, pre ++ [c] = pre1 ++ [c1] ∧ c1 ≠ SolverCall.FinishEqn)
          ↔ c ≠ SolverCall.FinishEqn := by
        constructor
        · rintro ⟨pre1, c1, heq, hne⟩
          have := List.append_inj_right' heq rfl
          simp only [List.cons.injEq, and_true] at this
          rw [this]
          exact hne
        · intro hne
          exact ⟨pre, c, rfl, hne⟩
      rw [hiff]
      cases c with
      | CreateUnknown pos cs =>
        simp only [Solver.run] at hlast
        rcases hc : s1.CreateUnknown pos cs with ⟨o, s2⟩
        rw [hc] at hlast
        cases o with
        | ret ut =>
          simp only [Prod.mk.injEq, true_and] at hlast
          subst hlast
          simp [Solver.CreateUnknown_equation s1 s2 pos cs ut hc]
        | panic => simp at hlast
        | outOfFuel => simp at hlast
      | FinishExpr r =>
        simp only [Solver.run, Prod.mk.injEq, true_and] at hlast
        subst hlast
        rw [Solver.FinishExpr_eq, (Solver.pushExpr_spec _).2.2.2]
        simp
      | FinishEqn =>
        simp only [Solver.run, Prod.mk.injEq, true_and] at hlast
        subst hlast
        simp [Solver.FinishEqn, Solver.solve]
  · intro s1 resultant h1
    rw [Solver.FinishExpr_eq, (Solver.pushExpr_spec _).2.2.2]
    simp [h1]

theorem CurrentEquation_exists_iff_witness :
    Sample.newSolver.CurrentEquation = none
    ∧ Solver.run Sample.noResult [SolverCall.FinishExpr Sample.int] Sample.newSolver
        = (.ret (), Solver.FinishExpr Sample.noResult Sample.newSolver Sample.int)
    ∧ (Solver.FinishExpr Sample.noResult Sample.newSolver Sample.int).CurrentEquation.isSome
        = true :=
  ⟨by rfl, by rfl,
    (CurrentEquation_exists_iff Sample.noResult [SolverCall.FinishExpr Sample.int]
      Sample.newSolver (Solver.FinishExpr Sample.noResult Sample.newSolver Sample.int)
      (by rfl) (by rfl)).1.mpr ⟨[], SolverCall.FinishExpr Sample.int, rfl, by simp⟩⟩

theorem unifySpec.fold_none (coerces : Option DataType → Option DataType → Bool)
    (common : Option DataType → Option DataType → Option (Option DataType))
    (rest : List (Option DataType)) :
    rest.foldl (fun acc t => acc.bind (fun u => unifySpec.step coerces common u t)) none
      = none := by
  induction rest with
  | nil => rfl
  | cons t rest ih => simpa using ih

/-- With a coercion that leaves the solver alone, the loop of `unify` is the fold of
the specification in which no two types have a common interface. -/
theorem Solver.unify.loop_pure (coerces : Option DataType → Option DataType → Bool) :
    ∀ (rest : List (Option DataType)) (u : Option DataType) (s : Solver),
      Solver.unify.loop (fun a b st => (coerces a b, st)) rest u s
        = (.ret (match rest.foldl (fun acc t =>
                    acc.bind (fun v => unifySpec.step coerces (fun _ _ => none) v t))
                  (some u) with
                | some v => (v, true)
                | none => (none, false)), s) := by
  intro rest
  induction rest with
  | nil => exact fun u s => rfl
  | cons dt rest ih =>
    intro u s
    simp only [Solver.unify.loop, List.foldl_cons, Option.some_bind]
    by_cases h1 : coerces dt u = true
    · have hs : unifySpec.step coerces (fun _ _ => none) u dt = some u := by
        simp [unifySpec.step, h1]
      rw [hs]
      simp only [h1]
      exact ih u s
    · have h1f : coerces dt u = false := by simpa using h1
      by_cases h2 : coerces u dt = true
      · have hs : unifySpec.step coerces (fun _ _ => none) u dt = some dt := by
          simp [unifySpec.step, h1f, h2]
        rw [hs]
        simp only [h1f, h2]
        exact ih dt s
      · have h2f : coerces u dt = false := by simpa using h2
        have hs : unifySpec.step coerces (fun _ _ => none) u dt = none := by
          simp [unifySpec.step, h1f, h2f]
        rw [hs, unifySpec.fold_none]
        simp only [h1f, h2f, Solver.findCommonInterface]

/-- A successful fold of the specification without common interfaces ends in the
first type or in one of the later ones. -/
theorem unifySpec.fold_mem (coerces : Option DataType → Option DataType → Bool) :
    ∀ (rest : List (Option DataType)) (u0 u : Option DataType),
      rest.foldl (fun acc t =>
          acc.bind (fun v => unifySpec.step coerces (fun _ _ => none) v t)) (some u0)
        = some u →
      u = u0 ∨ u ∈ rest := by
  intro rest
  induction rest with
  | nil =>
    intro u0 u h
    simp only [List.foldl_nil, Option.some.injEq] at h
    exact Or.inl h.symm
  | cons t rest ih =>
    intro u0 u h
    simp only [List.foldl_cons, Option.some_bind] at h
    cases hs : unifySpec.step coerces (fun _ _ => none) u0 t with
    | none =>
      rw [hs, unifySpec.fold_none] at h
      cases h
    | some v =>
      rw [hs] at h
      have hv : v = u0 ∨ v = t := by
        unfold unifySpec.step at hs
        split at hs
        · exact Or.inl (Option.some.inj hs).symm
        · split at hs
          · exact Or.inr (Option.some.inj hs).symm
          · cases hs
      rcases ih v u h with h1 | h1
      · rcases hv with h2 | h2
        · exact Or.inl (h1.trans h2)
        · exact Or.inr (by rw [h1, h2]; exact List.mem_cons_self _ _)
      · exact Or.inr (List.mem_cons_of_mem _ h1)

/-- C27, counterexample: in a program where `int` and `string` both implement
`Showable` explicitly and neither coerces to the other, the unification of the
specification promotes the two to `Showable`, and `unify` fails: `findCommonInterface`
finds no interface. -/
theorem unify_fails_despite_common_interface :
    Sample.sameType Sample.string Sample.int = false
    ∧ Sample.sameType Sample.int Sample.string = false
    ∧ Sample.implemented Sample.string Sample.int = some Sample.Showable
    ∧ unifySpec Sample.sameType Sample.implemented [Sample.int, Sample.string]
        = some Sample.Showable
    ∧ Sample.newSolver.findCommonInterface Sample.string Sample.int = (none, false)
    ∧ Solver.unify (fun a b st => (Sample.sameType a b, st)) Sample.newSolver
        [Sample.int, Sample.string] = (.ret (none, false), Sample.newSolver) := by
  refine ⟨by decide, by decide, by decide, by decide, by rfl, by decide⟩

/-- C27, amended: with a coercion that leaves the solver alone, `unify` on a non-empty
list is the left fold from the first type that keeps u when t coerces to u, adopts t
when t does not coerce to u and u coerces to t, and fails otherwise: no two types are
ever promoted to a common interface. A one-element list unifies to its element, and a
successful result is always one of the input types. -/
theorem unify_never_promotes (coerces : Option DataType → Option DataType → Bool)
    (s : Solver) (t0 : Option DataType) (rest : List (Option DataType)) :
    Solver.unify (fun a b st => (coerces a b, st)) s (t0 :: rest)
      = (.ret (match unifySpec coerces (fun _ _ => none) (t0 :: rest) with
                | some u => (u, true)
                | none => (none, false)), s)
    ∧ Solver.unify (fun a b st => (coerces a b, st)) s [t0] = (.ret (t0, true), s)
    ∧ ∀ u s1, Solver.unify (fun a b st => (coerces a b, st)) s (t0 :: rest)
          = (.ret (u, true), s1) →
        u ∈ t0 :: rest := by
  have h := Solver.unify.loop_pure coerces rest t0 s
  refine ⟨h, rfl, ?_⟩
  intro u s1 hu
  have h1 : Solver.unify (fun a b st => (coerces a b, st)) s (t0 :: rest)
      = Solver.unify.loop (fun a b st => (coerces a b, st)) rest t0 s := rfl
  rw [h1, h] at hu
  cases hf : rest.foldl (fun acc t =>
      acc.bind (fun v => unifySpec.step coerces (fun _ _ => none) v t)) (some t0) with
  | none =>
    rw [hf] at hu
    simp at hu
  | some v =>
    rw [hf] at hu
    simp only [Prod.mk.injEq, Outcome.ret.injEq, and_true] at hu
    rcases unifySpec.fold_mem coerces rest t0 v hf with h2 | h2
    · rw [← hu.1, h2]
      exact List.mem_cons_self _ _
    · rw [← hu.1]
      exact List.mem_cons_of_mem _ h2

theorem unify_never_promotes_witness :
    Solver.unify (fun a b st => (Sample.sameType a b, st)) Sample.newSolver
        [Sample.int, Sample.int] = (.ret (Sample.int, true), Sample.newSolver)
    ∧ Sample.int ∈ [Sample.int, Sample.int] :=
  ⟨by decide,
    (unify_never_promotes Sample.sameType Sample.newSolver Sample.int [Sample.int]).2.2
      Sample.int Sample.newSolver (by decide)⟩

/-- The solver after `coerceUnknowns` is the solver before it. -/
theorem Solver.coerceUnknowns_state (s : Solver) (src dest : Option DataType) :
    (s.coerceUnknowns src dest).2 = s := by
  have hd : ∀ d, (Solver.coerceUnknowns.destOnly s d).2 = s := by
    intro d
    unfold Solver.coerceUnknowns.destOnly
    split
    · split <;> rfl
    · rfl
  unfold Solver.coerceUnknowns
  split
  · split
    · rfl
    · split
      · split
        · split <;> rfl
        · rfl
      · exact hd dest
  · exact hd dest

/-- C28, counterexample: on a solver whose one unknown has no constraint and no
evaluated type, `coerceUnknowns` with the unknown as source and `int` as destination
returns (true, false) and leaves the solver, and with it the empty constraint set of
the unknown, as it was. -/
theorem coerceUnknowns_unconstrained_fails :
    Sample.oneUnknown.unknownTypes = [⟨Sample.posAt 1 1, [], none⟩]
    ∧ Sample.oneUnknown.coerceUnknowns (some (.Unknown 0)) Sample.int
        = (.ret (true, false), Sample.oneUnknown) := by
  refine ⟨by rfl, by rfl⟩

/-- C28, amended: for types whose unknowns are allocated, `coerceUnknowns(src, dest)`
reports (true, false), attempted and not succeeded, when `src` is an unknown without
an evaluated type, whatever its constraints, and (false, false) when neither `src`
nor `dest` is such an unknown; in both cases the solver is unchanged, so no
constraint is recorded. -/
theorem coerceUnknowns_attempts_for_source (s : Solver) (src dest : Option DataType)
    (hsrc : s.allocated src = true) (hdest : s.allocated dest = true) :
    (s.unevaluated src = true → s.coerceUnknowns src dest = (.ret (true, false), s))
    ∧ (s.unevaluated src = false → s.unevaluated dest = false →
        s.coerceUnknowns src dest = (.ret (false, false), s)) := by
  have hd : Solver.coerceUnknowns.destOnly s dest = (.ret (false, false), s) := by
    unfold Solver.coerceUnknowns.destOnly
    unfold Solver.allocated at hdest
    split
    · rename_i dref
      simp only at hdest
      obtain ⟨u, hu⟩ := Option.isSome_iff_exists.mp hdest
      rw [hu]
    · rfl
  constructor
  · intro h
    unfold Solver.unevaluated at h
    unfold Solver.coerceUnknowns
    split at h
    · rename_i sref
      split at h
      · rename_i ut hut
        simp only [hut, h, if_true]
        unfold Solver.allocated at hdest
        split
        · rename_i dref
          simp only at hdest
          obtain ⟨u, hu⟩ := Option.isSome_iff_exists.mp hdest
          rw [hu]
        · rfl
      · cases h
    · cases h
  · intro h _
    unfold Solver.unevaluated at h
    unfold Solver.allocated at hsrc
    unfold Solver.coerceUnknowns
    split
    · rename_i sref
      simp only at hsrc h
      obtain ⟨u, hu⟩ := Option.isSome_iff_exists.mp hsrc
      simp only [hu] at h ⊢
      simp only [h, Bool.false_eq_true, if_false]
      exact hd
    · exact hd

theorem coerceUnknowns_attempts_for_source_witness :
    Sample.oneUnknown.allocated (some (.Unknown 0)) = true
    ∧ Sample.oneUnknown.allocated Sample.int = true
    ∧ Sample.oneUnknown.unevaluated (some (.Unknown 0)) = true
    ∧ Sample.oneUnknown.coerceUnknowns (some (.Unknown 0)) Sample.int
        = (.ret (true, false), Sample.oneUnknown)
    ∧ Sample.oneUnknown.coerceUnknowns Sample.int Sample.string
        = (.ret (false, false), Sample.oneUnknown) :=
  ⟨by rfl, by rfl, by rfl,
    (coerceUnknowns_attempts_for_source Sample.oneUnknown (some (.Unknown 0)) Sample.int
      (by rfl) (by rfl)).1 (by rfl),
    (coerceUnknowns_attempts_for_source Sample.oneUnknown Sample.int Sample.string
      (by rfl) (by rfl)).2 (by rfl) (by rfl)⟩

/-! ### C25 and C26: unknown names in `walkNamedTypeCore` -/

/-- During resolution, for an unqualified name that `Lookup` does not find and an
opaque slot that holds a prototype, `walkNamedTypeCore` returns the type of the
prototype with true when its package and name match, and otherwise records the unknown
under the name, returns (nil, false) and logs nothing. -/
theorem walkNamedTypeCore_unqualified_unknown (deps : WalkerDeps) (w : Walker)
    (sink : List Logged) (rootName : String) (rootPos accessedPos : TextPosition)
    (op : Common.OpaqueSymbol)
    (hlook : deps.Lookup w rootName = none) (hres : w.resolving = true)
    (hslot : w.sharedOpaqueSymbol = some op) :
    ((op.SrcPackageID = w.SrcPackage.PackageID ∧ op.Name = rootName) →
        walkNamedTypeCore deps w sink rootName "" rootPos accessedPos
          = (.ret (op.SymType, true), w, sink))
    ∧ (¬ (op.SrcPackageID = w.SrcPackage.PackageID ∧ op.Name = rootName) →
        walkNamedTypeCore deps w sink rootName "" rootPos accessedPos
          = (.ret (none, false),
              { w with unknowns := Map.set w.unknowns rootName ⟨rootName, rootPos, none, false⟩ },
              sink)) := by
  constructor
  · intro h
    simp [walkNamedTypeCore, hlook, hres, hslot, h]
  · intro h
    simp only [walkNamedTypeCore, hlook, hres, hslot, if_true]
    rw [if_neg h]

/-- C25: evaluation on the sample project. During resolution the walker of `y.wrl`
meets the unqualified name `Q`, which `Lookup` does not find. With the prototype of
another symbol in the opaque slot, `walkNamedTypeCore` records the unknown `Q` at the
position of the name, returns (nil, false) and logs nothing; with an empty slot it
panics at the read of `sharedOpaqueSymbol.SrcPackageID`, and nothing is recorded. -/
theorem walkNamedTypeCore_empty_slot_panics :
    Sample.deps.Lookup Sample.emptySlotWalker "Q" = none
    ∧ Sample.emptySlotWalker.resolving = true
    ∧ Sample.emptySlotWalker.sharedOpaqueSymbol = none
    ∧ walkNamedTypeCore Sample.deps Sample.internalWalker [] "Q" ""
        (Sample.posAt 9 5) (Sample.posAt 0 0)
      = (.ret (none, false),
          { Sample.internalWalker with
              unknowns := [("Q", ⟨"Q", Sample.posAt 9 5, none, false⟩)] }, [])
    ∧ walkNamedTypeCore Sample.deps Sample.emptySlotWalker [] "Q" ""
        (Sample.posAt 9 5) (Sample.posAt 0 0)
      = (.panic, Sample.emptySlotWalker, []) := by
  refine ⟨by rfl, by rfl, by rfl, by rfl, by rfl⟩

/-- C26: evaluation on the sample project. During resolution, inside an internal
definition, the walker of `y.wrl` meets `bar.Missing`: `bar` is a visible package,
`Missing` is not in it and the opaque slot holds another prototype.
`walkNamedTypeCore` records the implicit-import unknown, and, the branch having no
return, goes on to the end of the function, where it logs the fatal error that the
package `bar` is not defined, at the position of `bar`, before it returns
(nil, false). -/
theorem walkNamedTypeCore_unknown_logs_package_error :
    Sample.internalWalker.DeclStatus = DeclStatus.Internal
    ∧ Map.get Sample.internalWalker.SrcFile.VisiblePackages "bar" = some 1
    ∧ (Sample.deps.heap.get? 1).bind (fun p => Sample.deps.ImportFromNamespace p "Missing")
        = none
    ∧ walkNamedTypeCore Sample.deps Sample.internalWalker [] "bar" "Missing"
        (Sample.posAt 9 5) (Sample.posAt 9 9)
      = (.ret (none, false),
          { Sample.internalWalker with
              unknowns := [("Missing", ⟨"Missing", Sample.posAt 9 9, some 1, true⟩)],
              fatalDefError := true },
          [⟨⟨getPackageID "/proj/app", "/proj/app/y.wrl"⟩,
            .message "Package `bar` is not defined" LogKind.LMKName (Sample.posAt 9 5)⟩]) := by
  refine ⟨by rfl, by rfl, by rfl, by rfl⟩

/-! ### C30: `walkOffsetTypeList` -/

/-- C30: evaluation on the sample project, for every capacity of `Content`. The slice
of the loop is `Content[startOffset:endOffset]`, with `endOffset` as its end and not as
the number of nodes to leave out. On the list of the one label `P` with both offsets
zero the slice is empty: no label is walked and the result is one nil type with true,
not the type `P`. On the tail `= P | P` of a `newtype` with the offsets 1 and 0 the
slice `[1:0]` panics. Only with `endOffset` at the end of the labels, here 1 for the
one label, is the type `P` returned; and with a capacity of 2 the offsets 0 and 2 give
the type `P` as well, the slice reaching into the backing array. -/
theorem walkOffsetTypeList_end_is_index (spare : List (Option ASTNode)) :
    walkOffsetTypeList Sample.deps Sample.internalWalker [] Sample.oneType spare 0 0
      = (.ret (some [none], true), Sample.internalWalker, [])
    ∧ walkOffsetTypeList Sample.deps Sample.internalWalker [] Sample.newtypeBody spare 1 0
      = (.panic, Sample.internalWalker, [])
    ∧ walkOffsetTypeList Sample.deps Sample.internalWalker [] Sample.oneType spare 0 1
      = (.ret (some [some (DataType.Concrete "P")], true), Sample.internalWalker, [])
    ∧ walkOffsetTypeList Sample.deps Sample.internalWalker [] Sample.oneType [none] 0 2
      = (.ret (some [some (DataType.Concrete "P")], true), Sample.internalWalker, [])
    ∧ walkTypeLabel Sample.deps Sample.internalWalker [] ⟨"type", [.Branch "named_type"
        [.Leaf .IDENTIFIER "P" (Sample.posAt 8 1)]]⟩
      = (.ret (some (DataType.Concrete "P"), true), Sample.internalWalker, []) := by
  have hcap : (0 : Int) ≤ 0 ∧ (0 : Int) ≤ 0
      ∧ (0 : Int) ≤ Sample.oneType.Len + (spare.length : Int) := by
    refine ⟨le_refl _, le_refl _, ?_⟩
    have : Sample.oneType.Len = 1 := rfl
    omega
  have hcap1 : (0 : Int) ≤ 0 ∧ (0 : Int) ≤ 1
      ∧ (1 : Int) ≤ Sample.oneType.Len + (spare.length : Int) := by
    refine ⟨le_refl _, by decide, ?_⟩
    have : Sample.oneType.Len = 1 := rfl
    omega
  have hnot : ¬ ((0 : Int) ≤ 1 ∧ (1 : Int) ≤ 0
      ∧ (0 : Int) ≤ Sample.newtypeBody.Len + (spare.length : Int)) :=
    fun h => absurd h.2.1 (by decide)
  refine ⟨?_, ?_, ?_, by rfl, by rfl⟩
  · unfold walkOffsetTypeList
    rw [if_neg (by decide), if_pos hcap]
    rfl
  · unfold walkOffsetTypeList
    rw [if_neg (by decide), if_neg hnot]
  · unfold walkOffsetTypeList
    rw [if_neg (by decide), if_pos hcap1]
    rfl

/-! ### C29: `walkIdList` -/

/-- The map after the assignment of a new key holds what it held and the new entry. -/
theorem Map.get_set_new (names : List (String × TextPosition))
    (pre : List (String × TextPosition)) (v : String) (p : TextPosition)
    (hinv : ∀ n q, Map.get names n = some q ↔ (n, q) ∈ pre)
    (hnew : v ∉ pre.map Prod.fst) :
    ∀ n q, Map.get (Map.set names v p) n = some q ↔ (n, q) ∈ pre ++ [(v, p)] := by
  intro n q
  by_cases hn : n = v
  · subst hn
    rw [Map.get_set_self]
    simp only [Option.some.injEq, List.mem_append, List.mem_singleton, Prod.mk.injEq,
      true_and]
    constructor
    · intro h
      exact Or.inr h.symm
    · rintro (h | h)
      · exact absurd (List.mem_map_of_mem Prod.fst h) hnew
      · exact h.symm
  · rw [Map.get_set_other _ _ _ _ hn, hinv]
    simp only [List.mem_append, List.mem_singleton, Prod.mk.injEq]
    constructor
    · exact fun h => Or.inl h
    · rintro (h | h)
      · exact h
      · exact absurd h.1 hn

/-- One turn of the loop of `walkIdList` at an even index, on an identifier leaf. -/
theorem walkIdList.loop_leaf (w : Walker) (nameKind : String) (k : TokKind) (v : String)
    (p : TextPosition) (rest : List ASTNode) (i : Nat)
    (names pre : List (String × TextPosition)) (sink : List Logged) (hi : i % 2 = 0)
    (hinv : ∀ n q, Map.get names n = some q ↔ (n, q) ∈ pre) :
    (v ∈ pre.map Prod.fst →
        walkIdList.loop w nameKind (.Leaf k v p :: rest) i names sink
          = (.ret (none, false),
              sink ++ [⟨w.Context,
                .message ("Multiple " ++ nameKind ++ " named `" ++ v ++ "`")
                  LogKind.LMKName p⟩]))
    ∧ (v ∉ pre.map Prod.fst →
        walkIdList.loop w nameKind (.Leaf k v p :: rest) i names sink
          = walkIdList.loop w nameKind rest (i + 1) (Map.set names v p) sink) := by
  have hsome : (Map.get names v).isSome = true ↔ v ∈ pre.map Prod.fst := by
    rw [Option.isSome_iff_exists]
    constructor
    · rintro ⟨q, hq⟩
      exact List.mem_map_of_mem Prod.fst ((hinv v q).mp hq)
    · intro h
      obtain ⟨⟨n, q⟩, hm, hf⟩ := List.mem_map.mp h
      simp only at hf
      subst hf
      exact ⟨q, (hinv n q).mpr hm⟩
  constructor
  · intro h
    simp only [walkIdList.loop, hi, if_true, hsome.mpr h, Walker.logError]
  · intro h
    have hf : (Map.get names v).isSome = false := by
      cases hx : (Map.get names v).isSome
      · rfl
      · exact absurd (hsome.mp hx) h
    simp only [walkIdList.loop, hi, if_true, hf, Bool.false_eq_true, if_false]

/-- The loop of `walkIdList` from an even index, with `names` holding the identifiers
`pre` met so far, which are pairwise distinct. -/
theorem walkIdList.loop_ids (w : Walker) (nameKind : String) (sink : List Logged) :
    ∀ (content : List ASTNode) (i : Nat) (names pre : List (String × TextPosition)),
      i % 2 = 0 →
      (∀ n ∈ evenItems content, ∃ k v p, n = ASTNode.Leaf k v p) →
      (∀ n q, Map.get names n = some q ↔ (n, q) ∈ pre) →
      (pre.map Prod.fst).Nodup →
      (((pre ++ (evenItems content).filterMap leafId).map Prod.fst).Nodup →
        ∃ m, walkIdList.loop w nameKind content i names sink = (.ret (some m, true), sink)
          ∧ ∀ n q, Map.get m n = some q
              ↔ (n, q) ∈ pre ++ (evenItems content).filterMap leafId)
      ∧ (¬ ((pre ++ (evenItems content).filterMap leafId).map Prod.fst).Nodup →
        ∃ a n q b, (evenItems content).filterMap leafId = a ++ (n, q) :: b
          ∧ ((pre ++ a).map Prod.fst).Nodup ∧ n ∈ (pre ++ a).map Prod.fst
          ∧ walkIdList.loop w nameKind content i names sink
              = (.ret (none, false),
                  sink ++ [⟨w.Context,
                    .message ("Multiple " ++ nameKind ++ " named `" ++ n ++ "`")
                      LogKind.LMKName q⟩])) := by
  intro content
  induction content using evenItems.induct with
  | case1 =>
    intro i names pre _ _ hinv hnd
    constructor
    · intro _
      exact ⟨names, rfl, by simpa [evenItems] using hinv⟩
    · intro h
      exact absurd (by simpa [evenItems] using hnd) h
  | case2 a =>
    intro i names pre hi hleaf hinv hnd
    obtain ⟨k, v, p, ha⟩ := hleaf a (by simp [evenItems])
    subst ha
    have hstep := walkIdList.loop_leaf w nameKind k v p [] i names pre sink hi hinv
    have hids : (evenItems [ASTNode.Leaf k v p]).filterMap leafId = [(v, p)] := by
      simp [evenItems, leafId]
    rw [hids]
    by_cases hv : v ∈ pre.map Prod.fst
    · constructor
      · intro h
        rw [List.map_append, List.nodup_append] at h
        exact absurd hv (fun hh => h.2.2 hh (by simp))
      · intro _
        exact ⟨[], v, p, [], rfl, by simpa using hnd, by simpa using hv, hstep.1 hv⟩
    · constructor
      · intro _
        refine ⟨Map.set names v p, ?_, Map.get_set_new names pre v p hinv hv⟩
        rw [hstep.2 hv]
        rfl
      · intro h
        apply absurd _ h
        rw [List.map_append, List.nodup_append]
        refine ⟨hnd, by simp, ?_⟩
        intro x hx hx1
        simp only [List.map_cons, List.map_nil, List.mem_singleton] at hx1
        exact hv (hx1 ▸ hx)
  | case3 a b rest ih =>
    intro i names pre hi hleaf hinv hnd
    obtain ⟨k, v, p, ha⟩ := hleaf a (by simp [evenItems])
    subst ha
    have hstep := walkIdList.loop_leaf w nameKind k v p (b :: rest) i names pre sink hi hinv
    have hids : (evenItems (ASTNode.Leaf k v p :: b :: rest)).filterMap leafId
        = (v, p) :: (evenItems rest).filterMap leafId := by
      simp [evenItems, leafId]
    rw [hids]
    by_cases hv : v ∈ pre.map Prod.fst
    · constructor
      · intro h
        rw [List.map_append, List.nodup_append] at h
        exact absurd hv (fun hh => h.2.2 hh (by simp))
      · intro _
        exact ⟨[], v, p, _, rfl, by simpa using hnd, by simpa using hv, hstep.1 hv⟩
    · have hodd : ¬ (i + 1) % 2 = 0 := by omega
      have hskip : walkIdList.loop w nameKind (b :: rest) (i + 1) (Map.set names v p) sink
          = walkIdList.loop w nameKind rest (i + 1 + 1) (Map.set names v p) sink := by
        simp only [walkIdList.loop, hodd, if_false]
      have hnd1 : ((pre ++ [(v, p)]).map Prod.fst).Nodup := by
        rw [List.map_append, List.nodup_append]
        refine ⟨hnd, by simp, ?_⟩
        intro x hx hx1
        simp only [List.map_cons, List.map_nil, List.mem_singleton] at hx1
        exact hv (hx1 ▸ hx)
      have hrec := ih (i + 1 + 1) (Map.set names v p) (pre ++ [(v, p)]) (by omega)
        (fun n hn => hleaf n (by simp [evenItems, hn]))
        (Map.get_set_new names pre v p hinv hv) hnd1
      have happ : pre ++ [(v, p)] ++ (evenItems rest).filterMap leafId
          = pre ++ (v, p) :: (evenItems rest).filterMap leafId := by
        simp
      rw [happ] at hrec
      constructor
      · intro h
        obtain ⟨m, hm, hmem⟩ := hrec.1 h
        exact ⟨m, by rw [hstep.2 hv, hskip, hm], hmem⟩
      · intro h
        obtain ⟨a1, n, q, b1, hdec, hnd2, hin, hres⟩ := hrec.2 h
        refine ⟨(v, p) :: a1, n, q, b1, by rw [hdec]; rfl, ?_, ?_, ?_⟩
        · simpa using hnd2
        · simpa using hin
        · rw [hstep.2 hv, hskip, hres]

/-- C29: for an identifier list whose items at the even positions are leaves,
`walkIdList` returns a map with true exactly when the listed identifiers are pairwise
distinct, and the map then holds exactly the listed identifiers with their positions
and nothing is logged; otherwise it returns (nil, false) after one error
`Multiple <kind> named <name>` for the first identifier that repeats an earlier one, at
the position of that repeated occurrence. -/
theorem walkIdList_spec (w : Walker) (sink : List Logged) (idList : ASTBranch)
    (nameKind : String)
    (hleaf : ∀ n ∈ evenItems idList.Content, ∃ k v p, n = ASTNode.Leaf k v p) :
    ((∃ m, (walkIdList w sink idList nameKind).1 = .ret (some m, true))
        ↔ ((listedIds idList).map Prod.fst).Nodup)
    ∧ (((listedIds idList).map Prod.fst).Nodup →
        ∃ m, walkIdList w sink idList nameKind = (.ret (some m, true), sink)
          ∧ ∀ n q, Map.get m n = some q ↔ (n, q) ∈ listedIds idList)
    ∧ (¬ ((listedIds idList).map Prod.fst).Nodup →
        ∃ a n q b, listedIds idList = a ++ (n, q) :: b
          ∧ (a.map Prod.fst).Nodup ∧ n ∈ a.map Prod.fst
          ∧ walkIdList w sink idList nameKind
              = (.ret (none, false),
                  sink ++ [⟨w.Context,
                    .message ("Multiple " ++ nameKind ++ " named `" ++ n ++ "`")
                      LogKind.LMKName q⟩])) := by
  have h := walkIdList.loop_ids w nameKind sink idList.Content 0 [] [] (by rfl) hleaf
    (by intro n q; simp [Map.get]) (by simp)
  simp only [List.nil_append] at h
  refine ⟨?_, h.1, h.2⟩
  constructor
  · rintro ⟨m, hm⟩
    by_contra hnd
    obtain ⟨a, n, q, b, _, _, _, hres⟩ := h.2 hnd
    rw [show walkIdList w sink idList nameKind
        = walkIdList.loop w nameKind idList.Content 0 [] sink from rfl, hres] at hm
    simp at hm
  · intro hnd
    obtain ⟨m, hm, _⟩ := h.1 hnd
    exact ⟨m, by rw [show walkIdList w sink idList nameKind
        = walkIdList.loop w nameKind idList.Content 0 [] sink from rfl, hm]⟩

theorem walkIdList_spec_witness :
    (∀ n ∈ evenItems Sample.idsABAB.Content, ∃ k v p, n = ASTNode.Leaf k v p)
    ∧ ¬ ((listedIds Sample.idsABAB).map Prod.fst).Nodup
    ∧ walkIdList Sample.internalWalker [] Sample.idsABAB "fields"
        = (.ret (none, false),
            [⟨Sample.internalWalker.Context,
              .message "Multiple fields named `a`" LogKind.LMKName (Sample.posAt 2 7)⟩])
    ∧ ((listedIds Sample.idsAB).map Prod.fst).Nodup
    ∧ ∃ m, walkIdList Sample.internalWalker [] Sample.idsAB "fields" = (.ret (some m, true), [])
        ∧ ∀ n q, Map.get m n = some q ↔ (n, q) ∈ listedIds Sample.idsAB := by
  have hleaf1 : ∀ n ∈ evenItems Sample.idsABAB.Content, ∃ k v p, n = ASTNode.Leaf k v p := by
    intro n hn
    simp only [Sample.idsABAB, evenItems, List.mem_cons, List.mem_singleton,
      List.not_mem_nil, or_false] at hn
    rcases hn with rfl | rfl | rfl | rfl <;> exact ⟨_, _, _, rfl⟩
  have hleaf2 : ∀ n ∈ evenItems Sample.idsAB.Content, ∃ k v p, n = ASTNode.Leaf k v p := by
    intro n hn
    simp only [Sample.idsAB, evenItems, List.mem_cons, List.mem_singleton,
      List.not_mem_nil, or_false] at hn
    rcases hn with rfl | rfl <;> exact ⟨_, _, _, rfl⟩
  have hnd1 : ¬ ((listedIds Sample.idsABAB).map Prod.fst).Nodup := by decide
  have hnd2 : ((listedIds Sample.idsAB).map Prod.fst).Nodup := by decide
  exact ⟨hleaf1, hnd1, by rfl, hnd2,
    (walkIdList_spec Sample.internalWalker [] Sample.idsAB "fields" hleaf2).2.1 hnd2⟩

/-! ### C23: `collectImports` after a failed import -/

/-- Once `allImportsResolved` is false, the loop over the top-level nodes of a file
calls nothing: it returns false and leaves the state as it is. -/
theorem collectImports.nodes_false (env : Env)
    (imp : String → World → Outcome (Option Nat × Bool) × World) (pkg : Nat) :
    ∀ (nodes : List ASTNode) (w : World),
      (∀ n ∈ nodes, n.asBranch.isSome = true) →
      collectImports.nodes env imp pkg nodes false w = (.ret false, w) := by
  intro nodes
  induction nodes with
  | nil => exact fun w _ => rfl
  | cons node rest ih =>
    intro w h
    obtain ⟨branch, hb⟩ := Option.isSome_iff_exists.mp (h node (List.mem_cons_self _ _))
    have hrest := ih w (fun n hn => h n (List.mem_cons_of_mem _ hn))
    simp only [collectImports.nodes, hb, Bool.false_eq_true, if_false, hrest]
    split
    · rfl
    · split
      · rfl
      · split <;> rfl

/-- C23: evaluation on the sample project. The file `m.wrl` has the two header
statements `import X from lib` and `import X, Y from lib` before its code.
`collectImports` calls `walkImport` on the first, which imports `X` and returns false,
and never on the second: the trace holds one call of `walkImport`, the log is empty,
and the error for the internal symbol `Y`, which `walkImport` logs when it is called
on the second statement in the state that `collectImports` left, is missing. -/
theorem collectImports_stops_after_false :
    (Sample.twoHeaders.Content.map (fun n => (n.asBranch.map (fun b => b.Name))))
        = [some "import_stmt", some "import_stmt", some "top_level"]
    ∧ (collectImports Sample.env (Import 1 Sample.env) 1 Sample.collecting).1 = .ret false
    ∧ (collectImports Sample.env (Import 1 Sample.env) 1 Sample.collecting).2.calls
        = [Call.collectImports 1, Call.walkImport 1, Call.Import "lib"]
    ∧ (collectImports Sample.env (Import 1 Sample.env) 1 Sample.collecting).2.log = []
    ∧ ((collectImports Sample.env (Import 1 Sample.env) 1 Sample.collecting).2.heap.get? 1).map
          (fun q => q.Files.map (fun f => f.2.LocalTable.map Map.keys)) = some [some ["X"]]
    ∧ (walkImport Sample.env (Import 1 Sample.env) 1 Sample.importXY false
        (collectImports Sample.env (Import 1 Sample.env) 1 Sample.collecting).2).2.log
        = [LogEntry.whirl "Unable to import an internal symbol" "Import"
            (Sample.posAt 1 11)] := by
  refine ⟨by rfl, by rfl, by rfl, by rfl, by rfl, by rfl⟩

/-! ### C24: `initialPassOverBlock` -/

theorem walkDefs_names {σ : Type} (env : ResolveEnv σ) :
    ∀ (branches : List ASTBranch) (w : Walker) (s : σ),
      (walkDefs env branches w s).1.map Prod.fst = branches := by
  intro branches
  induction branches with
  | nil => exact fun w s => rfl
  | cons b rest ih =>
    intro w s
    simp only [walkDefs, List.map_cons, ih]

theorem walkDefs_states (wfile : String) :
    ∀ (rs : List (ASTBranch × Option HIRNode × List (String × Common.UnknownSymbol) × Bool)),
      (enqueued wfile rs).length + (appended rs).length + (dropped rs).length = rs.length := by
  intro rs
  induction rs with
  | nil => rfl
  | cons r rest ih =>
    obtain ⟨b, hirn, us, ok⟩ := r
    cases hirn with
    | none =>
      simp only [enqueued, appended, dropped, List.length_cons]
      omega
    | some node =>
      cases ok
      · simp only [enqueued, appended, dropped, List.length_cons]
        omega
      · simp only [enqueued, appended, dropped, List.length_cons]
        omega

/-- The loop of `initialPassOverBlock` on children that are branches. -/
theorem initialPassOverBlock.loop_walkDefs {σ : Type} (env : ResolveEnv σ) (wfile : String) :
    ∀ (content : List ASTNode) (pa : PAssembler) (s : σ) (w : Walker)
      (f : Common.WhirlFile) (root : HIRRoot),
      (∀ n ∈ content, n.asBranch.isSome = true) →
      Map.get pa.Walkers wfile = some w →
      Map.get pa.PackageRef.Files wfile = some f →
      f.Root = some root →
      ∃ pa1,
        initialPassOverBlock.loop env wfile content pa s
          = (.ret (), pa1, (walkDefs env (content.filterMap ASTNode.asBranch) w s).2.2)
        ∧ pa1.DefQueue = pa.DefQueue
            ++ enqueued wfile (walkDefs env (content.filterMap ASTNode.asBranch) w s).1
        ∧ Map.get pa1.Walkers wfile
            = some (walkDefs env (content.filterMap ASTNode.asBranch) w s).2.1
        ∧ Map.get pa1.PackageRef.Files wfile
            = some { f with Root := some ⟨root.Elements
                ++ appended (walkDefs env (content.filterMap ASTNode.asBranch) w s).1⟩ } := by
  intro content
  induction content with
  | nil =>
    intro pa s w f root _ hw hf hroot
    refine ⟨pa, rfl, by simp [walkDefs, enqueued], by simpa [walkDefs] using hw, ?_⟩
    simp only [List.filterMap_nil, walkDefs, appended, List.append_nil]
    rw [hf]
    rcases f with ⟨ast, r, lt, vp⟩
    simp only at hroot
    subst hroot
    rfl
  | cons node rest ih =>
    intro pa s w f root hbr hw hf hroot
    obtain ⟨branch, hb⟩ := Option.isSome_iff_exists.mp (hbr node (List.mem_cons_self _ _))
    have hbr1 : ∀ n ∈ rest, n.asBranch.isSome = true :=
      fun n hn => hbr n (List.mem_cons_of_mem _ hn)
    have hfm : (node :: rest).filterMap ASTNode.asBranch
        = branch :: rest.filterMap ASTNode.asBranch := by
      simp [List.filterMap_cons, hb]
    rw [hfm]
    rcases hwd : env.WalkDef w branch s with ⟨⟨hirn, unknowns, ok⟩, w1, s1⟩
    simp only [initialPassOverBlock.loop, hb, hw, hwd, walkDefs]
    cases hirn with
    | none =>
      obtain ⟨pa1, h1, h2, h3, h4⟩ := ih
        { pa with Walkers := Map.set pa.Walkers wfile w1,
                  DefQueue := DefinitionQueue.Enqueue pa.DefQueue ⟨branch, unknowns, wfile⟩ }
        s1 w1 f root hbr1 (Map.get_set_self _ _ _) hf hroot
      refine ⟨pa1, h1, ?_, h3, h4⟩
      rw [h2]
      simp [DefinitionQueue.Enqueue, enqueued]
    | some hnode =>
      cases ok with
      | false =>
        obtain ⟨pa1, h1, h2, h3, h4⟩ := ih
          { pa with Walkers := Map.set pa.Walkers wfile w1 }
          s1 w1 f root hbr1 (Map.get_set_self _ _ _) hf hroot
        refine ⟨pa1, ?_, ?_, h3, ?_⟩
        · simpa using h1
        · rw [h2]
          simp [enqueued]
        · rw [h4]
          simp [appended]
      | true =>
        have hadd : (Map.get pa.PackageRef.Files wfile).bind (fun f => f.AddNode hnode)
            = some { f with Root := some ⟨root.Elements ++ [hnode]⟩ } := by
          rw [hf]
          simp [Common.WhirlFile.AddNode, hroot]
        obtain ⟨pa1, h1, h2, h3, h4⟩ := ih
          (PAssembler.setFile { pa with Walkers := Map.set pa.Walkers wfile w1 } wfile
            { f with Root := some ⟨root.Elements ++ [hnode]⟩ })
          s1 w1 { f with Root := some ⟨root.Elements ++ [hnode]⟩ } ⟨root.Elements ++ [hnode]⟩
          hbr1 (Map.get_set_self _ _ _) (Map.get_set_self _ _ _) rfl
        refine ⟨pa1, ?_, ?_, h3, ?_⟩
        · simp only [hadd, if_true]
          exact h1
        · rw [h2]
          simp [enqueued, PAssembler.setFile]
        · rw [h4]
          simp [appended]

/-- C24: for a block whose children are branches, in a file that has a walker and a
root, `initialPassOverBlock` returns, and its effect is that of calling `WalkDef` once
on each child in source order (the state and the walker are those after the last of
these calls): the queue grows by the definitions of the children whose node is nil, in
order, each with its unknowns and the file; the root of the file grows by the nodes
that are not nil and come with ok, in order; a child whose node is not nil and comes
without ok is neither, so every child is in exactly one of the three states and the
three numbers add up to the number of children. -/
theorem initialPassOverBlock_spec {σ : Type} (env : ResolveEnv σ) (wfile : String)
    (block : ASTBranch) (pa : PAssembler) (s : σ) (w : Walker) (f : Common.WhirlFile)
    (root : HIRRoot)
    (hbr : ∀ n ∈ block.Content, n.asBranch.isSome = true)
    (hw : Map.get pa.Walkers wfile = some w)
    (hf : Map.get pa.PackageRef.Files wfile = some f)
    (hroot : f.Root = some root) :
    ∃ pa1,
      initialPassOverBlock env wfile block pa s
        = (.ret (), pa1, (walkDefs env (block.Content.filterMap ASTNode.asBranch) w s).2.2)
      ∧ (walkDefs env (block.Content.filterMap ASTNode.asBranch) w s).1.map Prod.fst
          = block.Content.filterMap ASTNode.asBranch
      ∧ (block.Content.filterMap ASTNode.asBranch).length = block.Content.length
      ∧ pa1.DefQueue = pa.DefQueue
          ++ enqueued wfile (walkDefs env (block.Content.filterMap ASTNode.asBranch) w s).1
      ∧ Map.get pa1.Walkers wfile
          = some (walkDefs env (block.Content.filterMap ASTNode.asBranch) w s).2.1
      ∧ Map.get pa1.PackageRef.Files wfile
          = some { f with Root := some ⟨root.Elements
              ++ appended (walkDefs env (block.Content.filterMap ASTNode.asBranch) w s).1⟩ }
      ∧ (enqueued wfile (walkDefs env (block.Content.filterMap ASTNode.asBranch) w s).1).length
          + (appended (walkDefs env (block.Content.filterMap ASTNode.asBranch) w s).1).length
          + (dropped (walkDefs env (block.Content.filterMap ASTNode.asBranch) w s).1).length
          = block.Content.length := by
  obtain ⟨pa1, h1, h2, h3, h4⟩ :=
    initialPassOverBlock.loop_walkDefs env wfile block.Content pa s w f root hbr hw hf hroot
  have hlen : (block.Content.filterMap ASTNode.asBranch).length = block.Content.length := by
    have : ∀ (l : List ASTNode), (∀ n ∈ l, n.asBranch.isSome = true) →
        (l.filterMap ASTNode.asBranch).length = l.length := by
      intro l
      induction l with
      | nil => exact fun _ => rfl
      | cons n rest ih =>
        intro h
        obtain ⟨b, hb⟩ := Option.isSome_iff_exists.mp (h n (List.mem_cons_self _ _))
        simp [List.filterMap_cons, hb, ih (fun m hm => h m (List.mem_cons_of_mem _ hm))]
    exact this _ hbr
  refine ⟨pa1, h1, walkDefs_names env _ w s, hlen, h2, h3, h4, ?_⟩
  rw [walkDefs_states, ← hlen, ← List.length_map _ Prod.fst, walkDefs_names]

theorem initialPassOverBlock_spec_witness :
    (∀ n ∈ Sample.topLevel.Content, n.asBranch.isSome = true)
    ∧ ∃ pa1,
        initialPassOverBlock Sample.mixedEnv "/proj/app/m.wrl" Sample.topLevel Sample.inPass 0
          = (.ret (), pa1, 3)
        ∧ pa1.DefQueue
            = [⟨⟨"type_def", []⟩, [("Missing", ⟨"Missing", Sample.posAt 5 3, none, false⟩)],
                "/proj/app/m.wrl"⟩]
        ∧ (Map.get pa1.PackageRef.Files "/proj/app/m.wrl").map (fun f => f.Root)
            = some (some ⟨[⟨1⟩]⟩) := by
  have hbr : ∀ n ∈ Sample.topLevel.Content, n.asBranch.isSome = true := by
    intro n hn
    simp only [Sample.topLevel, List.mem_cons, List.mem_singleton, List.not_mem_nil,
      or_false] at hn
    rcases hn with rfl | rfl | rfl <;> rfl
  obtain ⟨pa1, h1, _, _, h4, _, h6, _⟩ :=
    initialPassOverBlock_spec Sample.mixedEnv "/proj/app/m.wrl" Sample.topLevel Sample.inPass 0
      (Sample.walkerOf "/proj/app/m.wrl" ⟨some Sample.mainFile, none, [], []⟩)
      ⟨some Sample.mainFile, some ⟨[]⟩, [], []⟩ ⟨[]⟩ hbr (by rfl) (by rfl) rfl
  refine ⟨hbr, pa1, ?_, ?_, ?_⟩
  · rw [h1]
    rfl
  · rw [h4]
    rfl
  · rw [h6]
    rfl

/-! ### C4 and C8: what `initPackage` leaves behind -/

/-- C4: evaluation on a sample project. The directory `/proj/only` has a valid name
and holds no file of its own, only the subdirectory `sub` with the source file
`b.wrl`: no source file of the directory was scanned, accepted by the preprocessor and
parsed. The walk descends into `sub`, and `initPackage` returns a package and no
error, with the file of the subdirectory in `Files` and nothing logged. -/
theorem initPackage_succeeds_without_direct_source :
    directSources Sample.envOnly "/proj/only" = []
    ∧ isValidPkgName Sample.envOnly.IsLetter Sample.envOnly.IsDigit (bytes (Base "/proj/only"))
        = .ret true
    ∧ (visits Sample.envOnly.Join "/proj/only" (Sample.envOnly.fs "/proj/only")).map
          (fun v => (v.fpath, usableSource Sample.envOnly v))
        = [("/proj/only", false), ("/proj/only/sub", false), ("/proj/only/sub/b.wrl", true)]
    ∧ (initPackage Sample.envOnly "/proj/only" Sample.fresh).1 = .ret (some 0, none)
    ∧ ((initPackage Sample.envOnly "/proj/only" Sample.fresh).2.heap.get? 0).map
          (fun q => Map.keys q.Files) = some ["/proj/only/sub/b.wrl"]
    ∧ (initPackage Sample.envOnly "/proj/only" Sample.fresh).2.log = [] := by
  refine ⟨by rfl, by rfl, by rfl, by rfl, by rfl, by rfl⟩

/-- C8: evaluation on the sample project. `initPackage` makes the package `app` with a
nil import table and a nil local table for its file `m.wrl`. For the statement
`import X from lib` of that file, where `lib` imports successfully and `X` is an
exported symbol of it, `walkImport` finds no entry for `lib` in the nil import table
and panics at the assignment to it: no clone is inserted, both tables are still nil
and nothing is logged. With the import table allocated and the local table nil it
panics at the assignment to the local table, after the entry for `lib` was made. And
in the project where both `app` and `lib` are made by `initPackage`, `collectImports`
on `app` panics at the same assignment to the import table, once `lib` is imported,
with nothing logged. -/
theorem walkImport_nil_tables_panics :
    (initPackage Sample.env "/proj/app" Sample.withLib).1 = .ret (some 1, none)
    ∧ (Sample.loaded.heap.get? 1).map
          (fun q => (q.ImportTable, q.Files.map (fun f => (f.1, f.2.LocalTable))))
        = some (none, [("/proj/app/m.wrl", none)])
    ∧ (Import 1 Sample.env "lib"
        { Sample.loaded with calls := Sample.loaded.calls ++ [Call.walkImport 1] }).1
        = .ret (some 0, true)
    ∧ (Map.get Sample.lib.GlobalTable "X").map (fun x => x.VisibleExternally) = some true
    ∧ (walkImport Sample.env (Import 1 Sample.env) 1 Sample.importX false Sample.loaded).1
        = .panic
    ∧ ((walkImport Sample.env (Import 1 Sample.env) 1 Sample.importX false
          Sample.loaded).2.heap.get? 1).map
          (fun q => (q.ImportTable, q.Files.map (fun f => (f.1, f.2.LocalTable))))
        = some (none, [("/proj/app/m.wrl", none)])
    ∧ (walkImport Sample.env (Import 1 Sample.env) 1 Sample.importX false
          Sample.loaded).2.log = []
    ∧ (walkImport Sample.env (Import 1 Sample.env) 1 Sample.importX false
          Sample.walkingNilLocal).1 = .panic
    ∧ ((walkImport Sample.env (Import 1 Sample.env) 1 Sample.importX false
          Sample.walkingNilLocal).2.heap.get? 1).map
          (fun q => (q.ImportTable.map Map.keys, q.Files.map (fun f => f.2.LocalTable)))
        = some (some [getPackageID "/proj/lib"], [none])
    ∧ (collectImports Sample.envBoth (Import 1 Sample.envBoth) 0 Sample.loadedBoth).1
        = .panic
    ∧ (collectImports Sample.envBoth (Import 1 Sample.envBoth) 0 Sample.loadedBoth).2.calls
        = [Call.initPackage "/proj/app", Call.collectImports 0, Call.walkImport 0,
           Call.Import "lib", Call.initPackage "/proj/lib", Call.collectImports 1,
           Call.walkPackage 1]
    ∧ (collectImports Sample.envBoth (Import 1 Sample.envBoth) 0 Sample.loadedBoth).2.log
        = [] := by
  refine ⟨by rfl, by rfl, by rfl, by rfl, by rfl, by rfl, by rfl, by rfl, by rfl, by rfl,
    by rfl, by rfl⟩

end Whirlwind
